import Mathlib

/-!
Shallow embedding of `src/GarbageCollector/refs.c`: a reference table mapping
integer handles to values in a semi-space memory pool, with reference counting
(`incref`/`decref`) and a copying garbage collector (`collect_garbage`).

The pool allocator (`mm.h`: `mm_init`, `mm_malloc`, `mm_free`, `mem_used`,
`is_pool_address`) and the headers `refs.h`, `config.h`, `eval.h` are not part
of the given sources; those parts are modelled from the spec as noted on each
definition.  Everything else is translated line by line from `refs.c`.

Modelling conventions:
  - machine addresses are indices into an append-only list of blocks; each
    block remembers which semi-space region it was allocated in, so the
    range check `is_pool_address` becomes a region-tag comparison;
  - `reference_t` is `Int` with sentinels `NULL_REF = -1`, `TOMBSTONE_REF = -2`;
  - the unsigned `ref_count` is a `Nat` below `2 ^ 64`, with increment and
    decrement taken modulo `2 ^ 64` as in C unsigned arithmetic;
  - the mutually recursive `decref`/`traverse_decref` and the recursive
    `copy_contents` take a fuel argument; the recursion depth is bounded by
    the number of table slots (each deeper level has cleared, or relocated,
    one more slot), so fuel `num_refs + 1` reproduces the C recursion.
-/

namespace RefsGC

/-- Handles (reference_t).  The sentinel values are modelled from the spec:
`refs.h` is not in the sources; the spec reserves two sentinels `NULL` and
`TOMBSTONE` distinct from all valid (non-negative) handles. -/
abbrev reference_t := Int

def NULL_REF : reference_t := -1

def TOMBSTONE_REF : reference_t := -2

/-- Value kinds (value_type_t).  Modelled from the spec: kinds are
`FREE, SCALAR, LIST, DICT, REF_ARRAY`; only composite kinds embed handles. -/
inductive value_type_t where
  | VAL_FREE
  | VAL_SCALAR
  | VAL_LIST
  | VAL_DICT
  | VAL_REF_ARRAY
  deriving DecidableEq

/-- A value record (value_t and its composite variants).  The C code reads
`list_value_t.values`, `dict_value_t.keys`, `dict_value_t.values` and
`ref_array_value_t.values[0..capacity)` depending on the tag; we give the
record all fields, and each function inspects only the fields of its tag,
exactly like the C casts do. -/
structure value_t where
  type : value_type_t
  ref_count : Nat
  value_size : Nat
  list_values : reference_t
  dict_keys : reference_t
  dict_values : reference_t
  array_values : List reference_t
  deriving DecidableEq

/-- A heap block: the region (semi-space half) it physically lies in, whether
it is currently allocated, and its contents. -/
structure block_t where
  region : Bool
  allocated : Bool
  val : value_t
  deriving DecidableEq

/-- Whole-module state: the memory pool (`heap`, addresses are list indices,
allocation is append-only so addresses are never recycled across regions),
the reference table, its capacity `max_refs`, the allocator's current region
and the usable size of one semi-space half. -/
structure gc_state where
  heap : List block_t
  ref_table : List (Option Nat)
  max_refs : Nat
  active_region : Bool
  pool_size : Nat
  deriving DecidableEq

/-- ALIGNMENT from refs.c. -/
def ALIGNMENT : Nat := 8

/-- Modelled from the spec: `config.h` is not in the sources; INITIAL_SIZE is
the initial reference-table capacity used when the table first grows. -/
def INITIAL_SIZE : Nat := 8

/-- Width of the unsigned ref_count counter. -/
def UWIDTH : Nat := 2 ^ 64

/-- Unsigned increment modulo `2 ^ 64` (C unsigned `++`). -/
def uadd1 (c : Nat) : Nat := (c + 1) % UWIDTH

/-- Unsigned decrement modulo `2 ^ 64` (C unsigned `--`). -/
def usub1 (c : Nat) : Nat := (c + (UWIDTH - 1)) % UWIDTH

/-- Contents of a freshly carved block before `make_ref` initializes it:
the allocator hands out blocks tagged `VAL_FREE` whose `value_size` is the
block size (this is what `make_ref` asserts and reads back). -/
def freshValue (size : Nat) : value_t :=
  ⟨.VAL_FREE, 0, size, NULL_REF, NULL_REF, NULL_REF, []⟩

/-- Look a block up by address. -/
def blockAt (st : gc_state) (a : Nat) : Option block_t := st.heap[a]?

/-- The value stored at an address (unspecified junk outside the heap). -/
def valAt (st : gc_state) (a : Nat) : value_t :=
  match st.heap[a]? with
  | some b => b.val
  | none => freshValue 0

/-- Replace the block at an address (no-op outside the heap). -/
def updBlock (st : gc_state) (a : Nat) (f : block_t → block_t) : gc_state :=
  match st.heap[a]? with
  | some b => { st with heap := st.heap.set a (f b) }
  | none => st

/-- Overwrite the value stored at an address. -/
def setVal (st : gc_state) (a : Nat) (v : value_t) : gc_state :=
  updBlock st a (fun b => { b with val := v })

/-- Modelled from the spec: the allocator's `bytes_in_use()` (`mem_used` in
refs.c) is the total footprint of blocks currently allocated in the active
region. -/
def mem_used (st : gc_state) : Nat :=
  (st.heap.map (fun b =>
    if b.allocated && b.region == st.active_region then b.val.value_size else 0)).sum

/-- Modelled from the spec: `allocate(size) -> raw storage or failure`.
Allocation fails when the active region cannot satisfy the request, and
otherwise returns a fresh block (tagged with the active region) whose
`value_size` is the requested size. -/
def mm_malloc (st : gc_state) (size : Nat) : Option (Nat × gc_state) :=
  if mem_used st + size ≤ st.pool_size then
    some (st.heap.length,
      { st with heap := st.heap ++ [⟨st.active_region, true, freshValue size⟩] })
  else none

/-- Modelled from the spec: `release(storage)` returns a block to the
allocator. -/
def mm_free (st : gc_state) (a : Nat) : gc_state :=
  updBlock st a (fun b => { b with allocated := false })

/-- Modelled from the spec: `reset(region)` re-initializes the allocator over
the given region, making it the active one; everything previously carved out
of that region is forgotten. -/
def mm_init (st : gc_state) (r : Bool) : gc_state :=
  { st with
    active_region := r,
    heap := st.heap.map (fun b =>
      if b.region == r then { b with allocated := false } else b) }

/-- Modelled from the spec: `belongs_to_active_region(pointer)`; NULL and
out-of-pool pointers are rejected, in-range pointers are accepted exactly when
they lie in the half the allocator currently manages. -/
def is_pool_address (st : gc_state) (p : Option Nat) : Bool :=
  match p with
  | none => false
  | some a =>
    match st.heap[a]? with
    | some b => b.region == st.active_region
    | none => false

/-- The table entry for a handle (`ref_table[ref]`); out-of-range indexing,
which is undefined behavior in C, is modelled as an unused slot. -/
def slotOf (st : gc_state) (ref : reference_t) : Option Nat :=
  if ref < 0 then none else st.ref_table.getD ref.toNat none

/-- Write a table entry (`ref_table[ref] = p`). -/
def setSlot (st : gc_state) (ref : reference_t) (p : Option Nat) : gc_state :=
  if ref < 0 then st else { st with ref_table := st.ref_table.set ref.toNat p }

/-- init_refs (refs.c:64): size one semi-space half down to a multiple of
ALIGNMENT, start the allocator on the first half, empty reference table. -/
def init_refs (memory_size : Nat) : gc_state :=
  { heap := []
    ref_table := []
    max_refs := 0
    active_region := false
    pool_size := memory_size / 2 / ALIGNMENT * ALIGNMENT }

/-- Index of the first unused slot of the table, if any. -/
def findFreeSlot : List (Option Nat) → Option Nat
  | [] => none
  | none :: _ => some 0
  | some _ :: t => (findFreeSlot t).map (· + 1)

/-- assign_reference (refs.c:83): scan for the lowest unused slot; if none,
append at index `num_refs`, doubling `max_refs` when the table is full
(INITIAL_SIZE when it was empty). -/
def assign_reference (st : gc_state) (a : Nat) : reference_t × gc_state :=
  match findFreeSlot st.ref_table with
  | some i => (Int.ofNat i, { st with ref_table := st.ref_table.set i (some a) })
  | none =>
    let mr :=
      if st.ref_table.length == st.max_refs then
        (if st.max_refs == 0 then INITIAL_SIZE else st.max_refs * 2)
      else st.max_refs
    (Int.ofNat st.ref_table.length,
      { st with ref_table := st.ref_table ++ [some a], max_refs := mr })

/-- make_ref (refs.c:113): align the size, try to allocate; on failure return
NULL_REF with the state untouched; on success set the type, set
`ref_count = 1` and assign a reference. -/
def make_ref (st : gc_state) (ty : value_type_t) (size : Nat) :
    reference_t × gc_state :=
  let size := (size + ALIGNMENT - 1) / ALIGNMENT * ALIGNMENT
  match mm_malloc st size with
  | none => (NULL_REF, st)
  | some (a, st1) =>
    let v := valAt st1 a
    let st2 := setVal st1 a { v with type := ty, ref_count := 1 }
    assign_reference st2 a

/-- deref (refs.c:139): assert the handle is in range, assert the stored
location is a live pool address, and return it; an assertion failure (a fatal
error in C) is modelled as `none`. -/
def deref (st : gc_state) (ref : reference_t) : Option Nat :=
  if 0 ≤ ref ∧ ref < Int.ofNat st.ref_table.length then
    if is_pool_address st (slotOf st ref) then slotOf st ref else none
  else none

/-- Scan loop of get_ref: index of the first slot holding the location. -/
def findSlotOf (a : Nat) : List (Option Nat) → Option Nat
  | [] => none
  | p :: t => if p = some a then some 0 else (findSlotOf a t).map (· + 1)

/-- get_ref (refs.c:153): linear scan for the first slot holding the given
location; the C assertion failure when there is none is modelled as `none`. -/
def get_ref (st : gc_state) (a : Nat) : Option reference_t :=
  (findSlotOf a st.ref_table).map Int.ofNat

/-- refs_used (refs.c:164): number of non-NULL slots. -/
def refs_used (st : gc_state) : Nat :=
  (st.ref_table.filter (fun p => p.isSome)).length

/-- incref (refs.c:178): deref and bump the count (fatal on invalid handles
in C, modelled as a no-op on the `none` branch which valid callers never
reach). -/
def incref (st : gc_state) (ref : reference_t) : gc_state :=
  match deref st ref with
  | some a => setVal st a { valAt st a with ref_count := uadd1 (valAt st a).ref_count }
  | none => st

/-- The handles embedded in a value's composite payload, in the order the C
traversals visit them: the backing array of a LIST, keys then values of a
DICT, and the entries of a REF_ARRAY other than NULL_REF/TOMBSTONE_REF
(refs.c:185 and refs.c:227 use the same case analysis and skip rule). -/
def child_refs (v : value_t) : List reference_t :=
  match v.type with
  | .VAL_LIST => [v.list_values]
  | .VAL_DICT => [v.dict_keys, v.dict_values]
  | .VAL_REF_ARRAY =>
    v.array_values.filter (fun r => r ≠ NULL_REF && r ≠ TOMBSTONE_REF)
  | _ => []

/-- decref (refs.c:206), fuelled.  If the slot holds a live pool address:
decrement the stored count; if it stays positive stop; otherwise clear the
slot FIRST, then recursively decrement the children (traverse_decref,
refs.c:185), then release the storage.  Out-of-range or stale handles take
the outer else branch and change nothing. -/
def decrefF : Nat → gc_state → reference_t → gc_state
  | 0, st, _ => st
  | fuel + 1, st, ref =>
    if is_pool_address st (slotOf st ref) then
      match slotOf st ref with
      | some a =>
        let v := valAt st a
        let v1 := { v with ref_count := usub1 v.ref_count }
        let st1 := setVal st a v1
        if 0 < v1.ref_count then st1
        else
          let st2 := setSlot st1 ref none
          let st3 := (child_refs v1).foldl (fun s r => decrefF fuel s r) st2
          mm_free st3 a
      | none => st
    else st

/-- traverse_decref (refs.c:185), fuelled: decrement every child handle
embedded in the value's composite payload. -/
def traverse_decref (fuel : Nat) (st : gc_state) (v : value_t) : gc_state :=
  (child_refs v).foldl (fun s r => decrefF fuel s r) st

/-- decref at the fuel that reproduces the C recursion (depth is bounded by
the number of table slots: every deeper level has cleared one more slot). -/
def decref (st : gc_state) (ref : reference_t) : gc_state :=
  decrefF (st.ref_table.length + 1) st ref

/-- copy_contents (refs.c:227), fuelled.  If the slot's location is not in the
(new) active region: allocate a same-size block there, byte-copy the value,
repoint the slot, then recurse into the children of the copied value.  Slots
already pointing into the active region are left alone (this is the guard
that makes relocation idempotent and terminates cycles).  The two branches a
well-formed caller never reaches (a NULL slot, for which the C code would
dereference NULL, and an allocation failure, for which the C code does not
check) are modelled as no-ops. -/
def copy_contentsF : Nat → gc_state → reference_t → gc_state
  | 0, st, _ => st
  | fuel + 1, st, ref =>
    if is_pool_address st (slotOf st ref) then st
    else
      match slotOf st ref with
      | some a =>
        let old := valAt st a
        match mm_malloc st old.value_size with
        | none => st
        | some (a2, st1) =>
          let st2 := setVal st1 a2 old
          let st3 := setSlot st2 ref (some a2)
          (child_refs old).foldl (fun s r => copy_contentsF fuel s r) st3
      | none => st

/-- One step of the sweep loop of collect_garbage (refs.c:268): a slot that is
non-NULL but no longer a pool address after the swap is garbage; recursively
decrement the children of its (stale but intact) value, then clear the slot.
Its own storage is never passed to the allocator. -/
def sweepSlot (fuel : Nat) (s : gc_state) (i : Nat) : gc_state :=
  match s.ref_table.getD i none with
  | some a =>
    if is_pool_address s (some a) then s
    else
      let s1 := traverse_decref fuel s (valAt s a)
      setSlot s1 (Int.ofNat i) none
  | none => s

/-- collect_garbage (refs.c:254).  Re-initialize the allocator over the
reserve region (which swaps the active region), relocate every root and its
transitive children (`foreach_global(copy_contents)` — the root enumeration
callback is external, modelled from the spec as the list of root handles),
then sweep the table, clearing every slot left pointing into the old region
after recursively decrementing its children. -/
def collect_garbage (roots : List reference_t) (st : gc_state) : gc_state :=
  let st1 := mm_init st (!st.active_region)
  let fuel := st1.ref_table.length + 1
  let st2 := roots.foldl (fun s r => copy_contentsF fuel s r) st1
  (List.range st2.ref_table.length).foldl (fun s i => sweepSlot fuel s i) st2

/-- Modelled from the spec: the evaluator mutates a resolved composite value
in place through the pointer `resolve` returns (the evaluator is external to
this core); this helper stores a child handle into a LIST's backing-array
field. -/
def write_list_child (st : gc_state) (ref : reference_t) (c : reference_t) :
    gc_state :=
  match deref st ref with
  | some a => setVal st a { valAt st a with list_values := c }
  | none => st

/-! Specification-side notions used to state the claims: well-formedness of a
module state (the invariants every state reachable through the public API
satisfies), reachability through composite payloads, and bookkeeping sums. -/

/-- The value a handle designates, when its slot is in use. -/
def slotValue (st : gc_state) (r : reference_t) : Option value_t :=
  (slotOf st r).map (valAt st)

/-- Every used slot stores an address inside the heap. -/
def slotsBoundedB (st : gc_state) : Bool :=
  st.ref_table.all (fun p =>
    match p with
    | none => true
    | some a => a < st.heap.length)

/-- No two used slots store the same address. -/
def slotsInjB : List (Option Nat) → Bool
  | [] => true
  | none :: t => slotsInjB t
  | some a :: t => (!t.contains (some a)) && slotsInjB t

/-- Every used slot points to an allocated block of the active region whose
stored count is a nonzero representable unsigned number. -/
def slotsLiveB (st : gc_state) : Bool :=
  st.ref_table.all (fun p =>
    match p with
    | none => true
    | some a =>
      match st.heap[a]? with
      | some b =>
        b.allocated && (b.region == st.active_region) &&
          decide (1 ≤ b.val.ref_count) && decide (b.val.ref_count < UWIDTH)
      | none => false)

/-- Every handle embedded in the composite payload of a live value is a
non-negative handle whose slot is in use. -/
def childrenLiveB (st : gc_state) : Bool :=
  st.ref_table.all (fun p =>
    match p with
    | none => true
    | some a =>
      (child_refs (valAt st a)).all (fun c =>
        decide (0 ≤ c) && (slotOf st c).isSome))

/-- The allocator never hands out more than the region holds. -/
def memBoundB (st : gc_state) : Bool :=
  decide (mem_used st ≤ st.pool_size)

/-- The state invariant every state reachable through the public API
satisfies (used as the hypothesis of the general theorems). -/
def wfB (st : gc_state) : Bool :=
  slotsBoundedB st && slotsInjB st.ref_table && slotsLiveB st &&
    childrenLiveB st && memBoundB st

/-- Transitive reachability of handle `h` from handle `r` through composite
payloads (LIST child, DICT keys/values, REF_ARRAY entries other than the
NULL/TOMBSTONE sentinels), as in the spec's reachability-preservation
property. -/
inductive Reaches (st : gc_state) : reference_t → reference_t → Prop
  | refl (r : reference_t) : Reaches st r r
  | step {r c h : reference_t} (a : Nat) :
      slotOf st r = some a → c ∈ child_refs (valAt st a) →
      Reaches st c h → Reaches st r h

/-- Reachability along paths all of whose nodes are live but not yet
relocated into the active region (the set of handles one call of
`copy_contents` newly relocates). -/
inductive ReachU (st : gc_state) : reference_t → reference_t → Prop
  | single {r : reference_t} (a : Nat) :
      slotOf st r = some a → is_pool_address st (slotOf st r) = false →
      ReachU st r r
  | step {r c h : reference_t} (a : Nat) :
      slotOf st r = some a → is_pool_address st (slotOf st r) = false →
      c ∈ child_refs (valAt st a) →
      ReachU st c h → ReachU st r h

/-- Footprint a single slot still owes the relocation phase: the size of its
value if the slot points outside the active region, zero otherwise. -/
def slotStale (st : gc_state) (p : Option Nat) : Nat :=
  match p with
  | some a => if is_pool_address st (some a) then 0 else (valAt st a).value_size
  | none => 0

/-- Total footprint of the values designated by slots that point outside the
active region (the bytes relocation still has to copy). -/
def staleSum (st : gc_state) : Nat :=
  (st.ref_table.map (slotStale st)).sum

/-- Number of references to handle `g` embedded in the values of the slots
the classification `unr` marks as unreachable. -/
def staleRefCount (st : gc_state) (unr : Nat → Bool) (g : reference_t) : Nat :=
  ((List.range st.ref_table.length).map (fun i =>
    if unr i then
      match st.ref_table.getD i none with
      | some a => (child_refs (valAt st a)).count g
      | none => 0
    else 0)).sum

/-- Equality of everything the collector copies except the mutable reference
count: tag, footprint and embedded handles. -/
def payload_eq (v w : value_t) : Prop :=
  v.type = w.type ∧ v.value_size = w.value_size ∧
    v.list_values = w.list_values ∧ v.dict_keys = w.dict_keys ∧
    v.dict_values = w.dict_values ∧ v.array_values = w.array_values

/-- Stability relation of reference-count decrements (and of the collector's
sweep, which is built from them): the table length, the active region, every
pool-membership judgment, and every block lying outside the active region are
preserved, and table slots only progress towards unused. -/
def sweepStable (s s' : gc_state) : Prop :=
  s'.ref_table.length = s.ref_table.length ∧
    s'.active_region = s.active_region ∧
    (∀ p : Option Nat, is_pool_address s' p = is_pool_address s p) ∧
    (∀ x : reference_t, slotOf s' x = slotOf s x ∨ slotOf s' x = none) ∧
    (∀ (x : Nat) (b : block_t), blockAt s x = some b →
      b.region ≠ s.active_region → blockAt s' x = some b) ∧
    s'.heap.length = s.heap.length

/-- Stability relation of the relocation phase: existing blocks are never
overwritten (fresh copies go to fresh addresses), and the active region and
the table length do not change. -/
def copyStable (s s' : gc_state) : Prop :=
  s'.ref_table.length = s.ref_table.length ∧
    s'.active_region = s.active_region ∧
    s.heap.length ≤ s'.heap.length ∧
    (∀ (x : Nat) (b : block_t), blockAt s x = some b → blockAt s' x = some b)

/-- Number of used slots still outside the active region (the slots the
relocation phase has yet to process; each relocation lowers it by one, which
is why the fuel `num_refs + 1` suffices for the C recursion). -/
def staleUsed (s : gc_state) : Nat :=
  ((List.range s.ref_table.length).map (fun i =>
    match s.ref_table.getD i none with
    | some a => if is_pool_address s (some a) then 0 else 1
    | none => 0)).sum

/-- Number of references to handle `h` embedded in the values of the slots
currently outside the active region (what the sweep loop has yet to
decrement from `h`'s count). -/
def staleRefsCur (s : gc_state) (h : reference_t) : Nat :=
  ((List.range s.ref_table.length).map (fun i =>
    match s.ref_table.getD i none with
    | some a => if is_pool_address s (some a) then 0
        else (child_refs (valAt s a)).count h
    | none => 0)).sum

/-- No two used slots designate the same address (the propositional form of
`slotsInjB`). -/
def slotInj (s : gc_state) : Prop :=
  ∀ (x y : reference_t) (bb : Nat), slotOf s x = some bb →
    slotOf s y = some bb → x = y

/-- Every used slot designates an address inside the heap (the propositional
form of `slotsBoundedB`). -/
def slotBnd (s : gc_state) : Prop :=
  ∀ (x : reference_t) (bb : Nat), slotOf s x = some bb → bb < s.heap.length

/-- Relocation-phase slot dichotomy relative to the post-swap state `s0` and
the set `R` of handles the collection may relocate: each slot either still
holds its pre-copy entry, or has been repointed at a fresh allocated
active-region block carrying a verbatim copy of its original value — and
then its handle belongs to `R`. -/
def copyDich (s0 : gc_state) (R : reference_t → Prop) (s : gc_state) : Prop :=
  ∀ x : reference_t, slotOf s x = slotOf s0 x ∨
    (∃ (a a2 : Nat) (blk : block_t), slotOf s0 x = some a ∧
      slotOf s x = some a2 ∧ blockAt s a2 = some blk ∧
      blk.allocated = true ∧ blk.region = s.active_region ∧
      blk.val = valAt s0 a ∧ R x)

/-- Everything the relocation phase maintains from the post-swap state `s0`:
table injectivity and boundedness, block stability, the allocator capacity
equation, and the slot dichotomy. -/
def CopyInv (s0 : gc_state) (R : reference_t → Prop) (s : gc_state) : Prop :=
  slotInj s ∧ slotBnd s ∧ copyStable s0 s ∧ s.pool_size = s0.pool_size ∧
    mem_used s + staleSum s = mem_used s0 + staleSum s0 ∧ copyDich s0 R s

/-- Closure property the relocation DFS establishes: outside the in-progress
set `E`, every slot already in the active region has children that are
themselves unused or in the active region. -/
def copyClosed (s : gc_state) (E : reference_t → Prop) : Prop :=
  ∀ (x : reference_t) (a2 : Nat), ¬ E x → slotOf s x = some a2 →
    is_pool_address s (some a2) = true →
    ∀ c ∈ child_refs (valAt s a2),
      slotOf s c = none ∨
        ∃ b : Nat, slotOf s c = some b ∧ is_pool_address s (some b) = true

/-- A handle the DFS no longer has to visit: its slot is unused or already
relocated into the active region. -/
def slotSettled (s : gc_state) (r : reference_t) : Prop :=
  slotOf s r = none ∨
    ∃ b : Nat, slotOf s r = some b ∧ is_pool_address s (some b) = true

/-- Per-call progress of the relocation DFS: blocks are preserved, unused
slots stay unused, already-relocated slots are left alone, and the number of
stale used slots never grows. -/
def copyStep (s s' : gc_state) : Prop :=
  copyStable s s' ∧
    (∀ x : reference_t, slotOf s x = none → slotOf s' x = none) ∧
    (∀ (x : reference_t) (b : Nat), slotOf s x = some b →
      is_pool_address s (some b) = true → slotOf s' x = some b) ∧
    staleUsed s' ≤ staleUsed s

/-- Sweep-phase invariant: slots are still injective, and every handle whose
slot points into the active region keeps more reference count than the
remaining stale slots can still take away. -/
def SweepInv (s : gc_state) : Prop :=
  slotInj s ∧
    ∀ (h : reference_t) (b : Nat), slotOf s h = some b →
      is_pool_address s (some b) = true →
      ∃ blk : block_t, blockAt s b = some blk ∧ blk.allocated = true ∧
        staleRefsCur s h < blk.val.ref_count ∧ blk.val.ref_count < UWIDTH

/-- What the decrements of one stale value do to the state: the table, the
region tag, non-active blocks and unreferenced blocks are untouched; the
block a used active-region slot designates loses exactly the deficit `d` of
its handle from its reference count and nothing else. -/
def decStep (s : gc_state) (d : reference_t → Nat) (s1 : gc_state) : Prop :=
  s1.ref_table = s.ref_table ∧ s1.active_region = s.active_region ∧
    s1.heap.length = s.heap.length ∧
    (∀ b : Nat, is_pool_address s (some b) = false →
      blockAt s1 b = blockAt s b) ∧
    (∀ b : Nat, (∀ h : reference_t, slotOf s h ≠ some b) →
      blockAt s1 b = blockAt s b) ∧
    (∀ (h : reference_t) (b : Nat) (blk : block_t), slotOf s h = some b →
      is_pool_address s (some b) = true → blockAt s b = some blk →
      blockAt s1 b = some { blk with val :=
        { blk.val with ref_count := blk.val.ref_count - d h } })

/-- What the sweep preserves of the relocated handles of its entry state
`s0`: the slot still holds the same address, and that address still holds an
allocated block with the same payload. -/
def sweepPres (s0 s : gc_state) : Prop :=
  ∀ (h : reference_t) (b : Nat), slotOf s0 h = some b →
    is_pool_address s0 (some b) = true →
    slotOf s h = some b ∧ is_pool_address s (some b) = true ∧
      ∃ blk : block_t, blockAt s b = some blk ∧ blk.allocated = true ∧
        payload_eq blk.val (valAt s0 b)

/-! Concrete scenario states used by witnesses and counterexamples.  All are
built through the public operations from `init_refs`. -/

/-- A 4096-byte arena. -/
def demo0 : gc_state := init_refs 4096

/-- Three scalars at handles 0, 1, 2. -/
def demo1 : gc_state := (make_ref demo0 .VAL_SCALAR 32).2

def demo2 : gc_state := (make_ref demo1 .VAL_SCALAR 32).2

def demo3 : gc_state := (make_ref demo2 .VAL_SCALAR 32).2

/-- A LIST at handle 3. -/
def demo4 : gc_state := (make_ref demo3 .VAL_LIST 40).2

/-- The LIST at handle 3 made into a self-cycle (its child handle is 3
itself, counted by an increment), after which the evaluator drops its own
binding with one decrement: the cycle now keeps itself alive with
`ref_count = 1`. -/
def demoCycle : gc_state := decref (incref (write_list_child demo4 3 3) 3) 3

/-- A scalar at handle 0 with `ref_count = 1`. -/
def cex1 : gc_state := (make_ref (init_refs 4096) .VAL_SCALAR 32).2

/-- Additionally a LIST at handle 1 whose child is handle 0: the list is
unreachable garbage, and it holds the only counted reference to the
root-reachable scalar at handle 0. -/
def cexC1 : gc_state := write_list_child (make_ref cex1 .VAL_LIST 40).2 1 0

/-- The same arena with handle 1 already released, so slot 1 is unused. -/
def demoFreed : gc_state := decref demo4 1

/-- The LIST at handle 3 holding itself with `ref_count = 1` (the only
reference to it is its own child slot). -/
def demoSelf : gc_state := write_list_child demo4 3 3

/-! Basic lemmas about the primitive state operations. -/

theorem updBlock_ref_table (st : gc_state) (a : Nat) (f : block_t → block_t) :
    (updBlock st a f).ref_table = st.ref_table := by
  unfold updBlock; cases st.heap[a]? <;> rfl

theorem updBlock_active_region (st : gc_state) (a : Nat) (f : block_t → block_t) :
    (updBlock st a f).active_region = st.active_region := by
  unfold updBlock; cases st.heap[a]? <;> rfl

theorem updBlock_pool_size (st : gc_state) (a : Nat) (f : block_t → block_t) :
    (updBlock st a f).pool_size = st.pool_size := by
  unfold updBlock; cases st.heap[a]? <;> rfl

theorem updBlock_max_refs (st : gc_state) (a : Nat) (f : block_t → block_t) :
    (updBlock st a f).max_refs = st.max_refs := by
  unfold updBlock; cases st.heap[a]? <;> rfl

theorem updBlock_heap_length (st : gc_state) (a : Nat) (f : block_t → block_t) :
    (updBlock st a f).heap.length = st.heap.length := by
  unfold updBlock
  cases h : st.heap[a]? <;> simp

theorem blockAt_updBlock_self {st : gc_state} {a : Nat} {b : block_t}
    (f : block_t → block_t) (h : st.heap[a]? = some b) :
    blockAt (updBlock st a f) a = some (f b) := by
  have hlt : a < st.heap.length := by
    rcases List.getElem?_eq_some.mp h with ⟨hl, _⟩
    exact hl
  unfold blockAt updBlock
  rw [h]
  simpa using List.getElem?_set_self hlt

theorem blockAt_updBlock_ne {a a2 : Nat} (st : gc_state)
    (f : block_t → block_t) (h : a ≠ a2) :
    blockAt (updBlock st a f) a2 = blockAt st a2 := by
  unfold blockAt updBlock
  cases hb : st.heap[a]? with
  | none => rfl
  | some b => simpa using List.getElem?_set_ne h

theorem blockAt_setSlot (st : gc_state) (r : reference_t) (p : Option Nat)
    (a : Nat) : blockAt (setSlot st r p) a = blockAt st a := by
  unfold blockAt setSlot
  by_cases h : r < 0 <;> simp [h]

theorem valAt_congr_blockAt {s t : gc_state} {a : Nat}
    (h : blockAt s a = blockAt t a) : valAt s a = valAt t a := by
  unfold valAt
  unfold blockAt at h
  rw [h]

theorem valAt_setVal_self {st : gc_state} {a : Nat} (v : value_t)
    (h : a < st.heap.length) : valAt (setVal st a v) a = v := by
  have hb : st.heap[a]? = some st.heap[a] := List.getElem?_eq_getElem h
  have h2 := blockAt_updBlock_self (fun b => { b with val := v }) hb
  unfold blockAt at h2
  unfold valAt setVal
  rw [h2]

theorem valAt_setVal_ne {a a2 : Nat} (st : gc_state) (v : value_t)
    (h : a ≠ a2) : valAt (setVal st a v) a2 = valAt st a2 :=
  valAt_congr_blockAt (blockAt_updBlock_ne st _ h)

theorem valAt_mm_free (st : gc_state) (a a2 : Nat) :
    valAt (mm_free st a) a2 = valAt st a2 := by
  rcases eq_or_ne a a2 with h | h
  · subst h
    cases hb : st.heap[a]? with
    | none => simp [valAt, mm_free, updBlock, hb]
    | some b =>
      have h2 := blockAt_updBlock_self (fun b => { b with allocated := false }) hb
      unfold blockAt at h2
      unfold valAt mm_free
      rw [h2, hb]
  · exact valAt_congr_blockAt (blockAt_updBlock_ne st _ h)

theorem valAt_setSlot (st : gc_state) (r : reference_t) (p : Option Nat)
    (a : Nat) : valAt (setSlot st r p) a = valAt st a :=
  valAt_congr_blockAt (blockAt_setSlot st r p a)

theorem slotOf_congr_table {s t : gc_state} (h : s.ref_table = t.ref_table)
    (r : reference_t) : slotOf s r = slotOf t r := by
  unfold slotOf; rw [h]

theorem slotOf_updBlock (st : gc_state) (a : Nat) (f : block_t → block_t)
    (r : reference_t) : slotOf (updBlock st a f) r = slotOf st r :=
  slotOf_congr_table (updBlock_ref_table st a f) r

theorem slotOf_nonneg {st : gc_state} {r : reference_t} {a : Nat}
    (h : slotOf st r = some a) : 0 ≤ r := by
  by_contra hlt
  have hr : r < 0 := Int.not_le.mp hlt
  unfold slotOf at h
  rw [if_pos hr] at h
  exact Option.noConfusion h

theorem getD_eq_some {t : List (Option Nat)} {i : Nat} {a : Nat}
    (h : t.getD i none = some a) : t[i]? = some (some a) := by
  rw [List.getD_eq_getElem?_getD] at h
  cases ht : t[i]? with
  | none => rw [ht] at h; exact Option.noConfusion h
  | some p =>
    rw [ht] at h
    simp only [Option.getD_some] at h
    rw [h]

theorem slotOf_lt_length {st : gc_state} {r : reference_t} {a : Nat}
    (h : slotOf st r = some a) : r.toNat < st.ref_table.length := by
  unfold slotOf at h
  by_cases hr : r < 0
  · rw [if_pos hr] at h; exact Option.noConfusion h
  · rw [if_neg hr] at h
    rcases List.getElem?_eq_some.mp (getD_eq_some h) with ⟨hl, _⟩
    exact hl

theorem slotOf_setSlot_self {st : gc_state} {r : reference_t}
    (p : Option Nat) (h0 : ¬ r < 0) (hlt : r.toNat < st.ref_table.length) :
    slotOf (setSlot st r p) r = p := by
  unfold slotOf setSlot
  rw [if_neg h0, if_neg h0, List.getD_eq_getElem?_getD,
    List.getElem?_set_self (by simpa using hlt)]
  rfl

theorem slotOf_setSlot_ne {r r2 : reference_t} (st : gc_state)
    (p : Option Nat) (h : r.toNat ≠ r2.toNat ∨ r < 0) :
    slotOf (setSlot st r p) r2 = slotOf st r2 := by
  unfold slotOf setSlot
  rcases h with h | h
  · by_cases hr : r < 0
    · rw [if_pos hr]
    · rw [if_neg hr]
      by_cases hr2 : r2 < 0
      · rw [if_pos hr2, if_pos hr2]
      · rw [if_neg hr2, if_neg hr2, List.getD_eq_getElem?_getD,
          List.getD_eq_getElem?_getD, List.getElem?_set_ne h]
  · rw [if_pos h]

theorem is_pool_none (st : gc_state) : is_pool_address st none = false := rfl

theorem is_pool_some (st : gc_state) (a : Nat) :
    is_pool_address st (some a) =
      ((blockAt st a).map (fun b => b.region == st.active_region)).getD false := by
  show (match st.heap[a]? with
    | some b => b.region == st.active_region
    | none => false) =
    ((st.heap[a]?).map (fun b => b.region == st.active_region)).getD false
  cases st.heap[a]? <;> rfl

theorem is_pool_congr_region {s t : gc_state}
    (ha : s.active_region = t.active_region)
    (hb : ∀ a : Nat,
      (blockAt s a).map block_t.region = (blockAt t a).map block_t.region)
    (p : Option Nat) : is_pool_address s p = is_pool_address t p := by
  cases p with
  | none => rfl
  | some a =>
    have h := hb a
    rw [is_pool_some, is_pool_some, ha]
    cases h1 : blockAt s a <;> cases h2 : blockAt t a <;> simp_all

theorem blockAt_setVal_region (st : gc_state) (a a2 : Nat) (v : value_t) :
    (blockAt (setVal st a v) a2).map block_t.region =
      (blockAt st a2).map block_t.region := by
  rcases eq_or_ne a a2 with h | h
  · subst h
    cases hb : st.heap[a]? with
    | none => simp [setVal, updBlock, blockAt, hb]
    | some b =>
      rw [show blockAt (setVal st a v) a = some { b with val := v } from
        blockAt_updBlock_self _ hb]
      unfold blockAt
      rw [hb]
      rfl
  · exact congrArg (Option.map block_t.region) (blockAt_updBlock_ne st _ h)

theorem is_pool_setSlot (st : gc_state) (r : reference_t) (q : Option Nat)
    (p : Option Nat) :
    is_pool_address (setSlot st r q) p = is_pool_address st p := by
  refine is_pool_congr_region ?_ (fun a => by rw [blockAt_setSlot]) p
  unfold setSlot
  by_cases h : r < 0 <;> simp [h]

theorem is_pool_setVal (st : gc_state) (a : Nat) (v : value_t)
    (p : Option Nat) :
    is_pool_address (setVal st a v) p = is_pool_address st p :=
  is_pool_congr_region (updBlock_active_region st a _)
    (fun a2 => blockAt_setVal_region st a a2 v) p

theorem blockAt_mm_free_region (st : gc_state) (a a2 : Nat) :
    (blockAt (mm_free st a) a2).map block_t.region =
      (blockAt st a2).map block_t.region := by
  rcases eq_or_ne a a2 with h | h
  · subst h
    cases hb : st.heap[a]? with
    | none => simp [mm_free, updBlock, blockAt, hb]
    | some b =>
      rw [show blockAt (mm_free st a) a = some { b with allocated := false } from
        blockAt_updBlock_self _ hb]
      unfold blockAt
      rw [hb]
      rfl
  · exact congrArg (Option.map block_t.region) (blockAt_updBlock_ne st _ h)

theorem is_pool_mm_free (st : gc_state) (a : Nat) (p : Option Nat) :
    is_pool_address (mm_free st a) p = is_pool_address st p :=
  is_pool_congr_region (updBlock_active_region st a _)
    (fun a2 => blockAt_mm_free_region st a a2) p

theorem child_refs_ref_count (v : value_t) (c : Nat) :
    child_refs { v with ref_count := c } = child_refs v := rfl

theorem decrefF_not_pool {st : gc_state} {ref : reference_t} (fuel : Nat)
    (h : is_pool_address st (slotOf st ref) = false) :
    decrefF fuel st ref = st := by
  cases fuel with
  | zero => rfl
  | succ n => rw [decrefF, if_neg (by simp [h])]

theorem findFreeSlot_some {t : List (Option Nat)} {i : Nat}
    (h : findFreeSlot t = some i) :
    t[i]? = some none ∧ ∀ j, j < i → t[j]? ≠ some none := by
  induction t generalizing i with
  | nil => exact Option.noConfusion h
  | cons p tl ih =>
    cases p with
    | none =>
      have hi : i = 0 := by
        simp [findFreeSlot] at h
        omega
      subst hi
      exact ⟨by simp, fun j hj => absurd hj (Nat.not_lt_zero j)⟩
    | some a =>
      simp only [findFreeSlot, Option.map_eq_some'] at h
      rcases h with ⟨k, hk, hik⟩
      subst hik
      rcases ih hk with ⟨h1, h2⟩
      refine ⟨by simpa using h1, fun j hj => ?_⟩
      cases j with
      | zero => simp
      | succ j2 =>
        have : j2 < k := by omega
        simpa using h2 j2 this

theorem findFreeSlot_none {t : List (Option Nat)}
    (h : findFreeSlot t = none) :
    ∀ j : Nat, t[j]? ≠ some (none : Option Nat) := by
  induction t with
  | nil =>
    intro j
    rw [List.getElem?_eq_none (by simp)]
    exact fun hx => Option.noConfusion hx
  | cons p tl ih =>
    cases p with
    | none => simp [findFreeSlot] at h
    | some a =>
      simp only [findFreeSlot, Option.map_eq_none'] at h
      intro j
      cases j with
      | zero => simp
      | succ j2 =>
        have := ih h j2
        simpa using this

theorem mm_malloc_some {st st1 : gc_state} {sz : Nat} {a : Nat}
    (h : mm_malloc st sz = some (a, st1)) :
    a = st.heap.length ∧
      st1 = { st with heap := st.heap ++ [⟨st.active_region, true, freshValue sz⟩] } := by
  unfold mm_malloc at h
  by_cases hc : mem_used st + sz ≤ st.pool_size
  · rw [if_pos hc] at h
    have h2 := Option.some.inj h
    exact ⟨(congrArg Prod.fst h2).symm, (congrArg Prod.snd h2).symm⟩
  · rw [if_neg hc] at h
    exact Option.noConfusion h

theorem assign_reference_spec (st : gc_state) (a : Nat) :
    ∃ n : Nat, (assign_reference st a).1 = Int.ofNat n ∧
      (assign_reference st a).2.heap = st.heap ∧
      (∀ j : Nat, st.ref_table[j]? = some (none : Option Nat) → n ≤ j) ∧
      slotOf (assign_reference st a).2 (Int.ofNat n) = some a ∧
      (st.ref_table[n]? = some (none : Option Nat) ∨
        ((∀ j : Nat, st.ref_table[j]? ≠ some (none : Option Nat)) ∧
          n = st.ref_table.length ∧
          (assign_reference st a).2.ref_table.length = st.ref_table.length + 1 ∧
          (st.ref_table.length = st.max_refs →
            (assign_reference st a).2.max_refs =
              (if st.max_refs = 0 then INITIAL_SIZE else st.max_refs * 2)))) := by
  cases hf : findFreeSlot st.ref_table with
  | some i =>
    obtain ⟨h1, h2⟩ := findFreeSlot_some hf
    refine ⟨i, ?_, ?_, ?_, ?_, Or.inl h1⟩
    · simp [assign_reference, hf]
    · simp [assign_reference, hf]
    · intro j hj
      by_contra hlt
      exact h2 j (by omega) hj
    · have hilt : i < st.ref_table.length := (List.getElem?_eq_some.mp h1).1
      simp only [assign_reference, hf]
      unfold slotOf
      rw [if_neg (by exact Int.not_lt.mpr (Int.ofNat_nonneg i))]
      simp [List.getD_eq_getElem?_getD, List.getElem?_set_self hilt]
  | none =>
    refine ⟨st.ref_table.length, ?_, ?_,
      fun j hj => absurd hj (findFreeSlot_none hf j), ?_,
      Or.inr ⟨findFreeSlot_none hf, rfl, ?_, ?_⟩⟩
    · simp [assign_reference, hf]
    · simp [assign_reference, hf]
    · simp only [assign_reference, hf]
      unfold slotOf
      rw [if_neg (by exact Int.not_lt.mpr (Int.ofNat_nonneg st.ref_table.length))]
      simp [List.getD_eq_getElem?_getD, List.getElem?_append_right (le_refl st.ref_table.length)]
    · simp [assign_reference, hf]
    · intro hfull
      simp [assign_reference, hf, hfull]

/-- C6: a successful create binds the new value, initialized with
`ref_count = 1` and the given kind, to the lowest-indexed unused table slot
when one exists (the returned handle is no greater than every unused slot
index, which is the slot-reuse property); only when no slot is unused does it
append a new slot at index `num_refs`, doubling the table capacity when the
table is full. -/
theorem make_ref_first_fit (st : gc_state) (ty : value_type_t) (size : Nat)
    (hsucc : (make_ref st ty size).1 ≠ NULL_REF) :
    ∃ n : Nat, (make_ref st ty size).1 = Int.ofNat n ∧
      (∀ j : Nat, st.ref_table[j]? = some (none : Option Nat) → n ≤ j) ∧
      (st.ref_table[n]? = some (none : Option Nat) ∨
        ((∀ j : Nat, st.ref_table[j]? ≠ some (none : Option Nat)) ∧
          n = st.ref_table.length ∧
          (make_ref st ty size).2.ref_table.length = st.ref_table.length + 1 ∧
          (st.ref_table.length = st.max_refs →
            (make_ref st ty size).2.max_refs =
              (if st.max_refs = 0 then INITIAL_SIZE else st.max_refs * 2)))) ∧
      ∃ a2 : Nat, slotOf (make_ref st ty size).2 (Int.ofNat n) = some a2 ∧
        (valAt (make_ref st ty size).2 a2).ref_count = 1 ∧
        (valAt (make_ref st ty size).2 a2).type = ty := by
  cases hm : mm_malloc st ((size + ALIGNMENT - 1) / ALIGNMENT * ALIGNMENT) with
  | none => exact absurd (by simp only [make_ref, hm]) hsucc
  | some pr =>
    obtain ⟨a, st1⟩ := pr
    obtain ⟨ha, hst1⟩ := mm_malloc_some hm
    have hmr : make_ref st ty size =
        assign_reference
          (setVal st1 a { valAt st1 a with type := ty, ref_count := 1 }) a := by
      simp only [make_ref, hm]
    obtain ⟨n, e1, e2, e3, e4, e5⟩ :=
      assign_reference_spec
        (setVal st1 a { valAt st1 a with type := ty, ref_count := 1 }) a
    have htab : (setVal st1 a
        { valAt st1 a with type := ty, ref_count := 1 }).ref_table =
        st.ref_table := by
      rw [show (setVal st1 a { valAt st1 a with type := ty, ref_count := 1 }).ref_table
        = st1.ref_table from updBlock_ref_table st1 a _, hst1]
    have hmax : (setVal st1 a
        { valAt st1 a with type := ty, ref_count := 1 }).max_refs =
        st.max_refs := by
      rw [show (setVal st1 a { valAt st1 a with type := ty, ref_count := 1 }).max_refs
        = st1.max_refs from updBlock_max_refs st1 a _, hst1]
    rw [htab] at e3 e5
    rw [hmax] at e5
    have halt : a < st1.heap.length := by
      rw [hst1, ha]
      simp
    have hbb : blockAt (assign_reference (setVal st1 a
        { valAt st1 a with type := ty, ref_count := 1 }) a).2 a =
        blockAt (setVal st1 a { valAt st1 a with type := ty, ref_count := 1 }) a := by
      unfold blockAt
      rw [e2]
    have hv : valAt (make_ref st ty size).2 a =
        { valAt st1 a with type := ty, ref_count := 1 } := by
      rw [hmr, valAt_congr_blockAt hbb, valAt_setVal_self _ halt]
    exact ⟨n, by rw [hmr]; exact e1, e3, by rw [hmr]; exact e5, a,
      by rw [hmr]; exact e4, by rw [hv], by rw [hv]⟩

/-! Claim theorems. -/

/-- C5: when the allocator cannot satisfy a create request, `make_ref`
returns the NULL sentinel handle and performs no mutation at all: the
reference table's contents, its number of slots and its capacity are exactly
as before the call. -/
theorem make_ref_failure_no_mutation (st : gc_state) (ty : value_type_t)
    (size : Nat)
    (h : st.pool_size < mem_used st + (size + ALIGNMENT - 1) / ALIGNMENT * ALIGNMENT) :
    make_ref st ty size = (NULL_REF, st) ∧
      (make_ref st ty size).2.ref_table = st.ref_table ∧
      (make_ref st ty size).2.ref_table.length = st.ref_table.length ∧
      (make_ref st ty size).2.max_refs = st.max_refs := by
  have hm : mm_malloc st ((size + ALIGNMENT - 1) / ALIGNMENT * ALIGNMENT) = none := by
    unfold mm_malloc
    rw [if_neg (not_le.mpr h)]
  have : make_ref st ty size = (NULL_REF, st) := by
    simp only [make_ref, hm]
  exact ⟨this, by rw [this], by rw [this], by rw [this]⟩

/-- C5 witness: a concrete oversized request fails and mutates nothing. -/
theorem make_ref_failure_no_mutation_witness :
    demo4.pool_size < mem_used demo4 + (5000 + ALIGNMENT - 1) / ALIGNMENT * ALIGNMENT ∧
      make_ref demo4 .VAL_SCALAR 5000 = (NULL_REF, demo4) :=
  ⟨by decide, (make_ref_failure_no_mutation demo4 .VAL_SCALAR 5000 (by decide)).1⟩

/-- C9: for a handle whose index is within the table range but whose slot
does not hold an active-region value (unused, or stale), `decref` is a
silent no-op: the entire module state — reference table, every value, and
allocator bookkeeping — is left unchanged. -/
theorem decref_stale_noop (st : gc_state) (ref : reference_t)
    (h1 : 0 ≤ ref) (h2 : ref < Int.ofNat st.ref_table.length)
    (h3 : is_pool_address st (slotOf st ref) = false) :
    decref st ref = st :=
  decrefF_not_pool _ h3

/-- C9 witness: decrementing the already-released handle 1 changes nothing. -/
theorem decref_stale_noop_witness :
    (0 ≤ (1 : reference_t) ∧ (1 : reference_t) < Int.ofNat demoFreed.ref_table.length ∧
      is_pool_address demoFreed (slotOf demoFreed 1) = false) ∧
      decref demoFreed 1 = demoFreed :=
  ⟨⟨by decide, by decide, by decide⟩,
    decref_stale_noop demoFreed 1 (by decide) (by decide) (by decide)⟩

/-- C6 witness: after releasing handle 1, the next successful create
returns handle 1, the smallest unused slot index. -/
theorem make_ref_first_fit_witness :
    ∃ n : Nat, (make_ref demoFreed .VAL_SCALAR 8).1 = Int.ofNat n ∧
      (∀ j : Nat, demoFreed.ref_table[j]? = some (none : Option Nat) → n ≤ j) := by
  obtain ⟨n, e1, e3, _⟩ := make_ref_first_fit demoFreed .VAL_SCALAR 8 (by decide)
  exact ⟨n, e1, e3⟩

/-- Unfolding of `decref` at a handle whose count is about to hit zero: the
slot is cleared first, then the children are traversed, then the storage is
released. -/
theorem decref_count_one_eq (st : gc_state) (ref : reference_t) (a : Nat)
    (hs : slotOf st ref = some a)
    (hp : is_pool_address st (slotOf st ref) = true)
    (hc : (valAt st a).ref_count = 1) :
    decref st ref =
      mm_free
        (traverse_decref st.ref_table.length
          (setSlot (setVal st a { valAt st a with ref_count := 0 }) ref none)
          { valAt st a with ref_count := 0 }) a := by
  have hu : usub1 (valAt st a).ref_count = 0 := by rw [hc]; decide
  have hp2 : is_pool_address st (some a) = true := by rw [← hs]; exact hp
  unfold decref
  rw [decrefF]
  simp only [hp, hs, hp2, hu, if_true, lt_self_iff_false, if_false,
    traverse_decref]

/-- C3: when a decrement drives a value's count to zero, `decref` is exactly
the composition, in this order, of (a) clearing the handle's table slot, (b)
recursively decrementing every embedded child handle of the value, and (c)
releasing the value's storage to the allocator; and because the slot is
cleared before the recursive decrements, a value whose payload references its
own handle again is not re-entered: the recursive decrement on the
already-cleared slot is a no-op, so the net effect is just (a) then (c). -/
theorem decref_zero_order (st : gc_state) (ref : reference_t) (a : Nat)
    (hs : slotOf st ref = some a)
    (hp : is_pool_address st (slotOf st ref) = true)
    (hc : (valAt st a).ref_count = 1) :
    decref st ref =
      mm_free
        (traverse_decref st.ref_table.length
          (setSlot (setVal st a { valAt st a with ref_count := 0 }) ref none)
          { valAt st a with ref_count := 0 }) a ∧
      (child_refs (valAt st a) = [ref] →
        decref st ref =
          mm_free (setSlot (setVal st a { valAt st a with ref_count := 0 }) ref none)
            a) := by
  have main := decref_count_one_eq st ref a hs hp hc
  refine ⟨main, fun hch => ?_⟩
  rw [main]
  have h0 : ¬ ref < 0 := Int.not_lt.mpr (slotOf_nonneg hs)
  have hlt : ref.toNat <
      (setVal st a { valAt st a with ref_count := 0 }).ref_table.length := by
    rw [show (setVal st a { valAt st a with ref_count := 0 }).ref_table =
      st.ref_table from updBlock_ref_table st a _]
    exact slotOf_lt_length hs
  have hslot : slotOf
      (setSlot (setVal st a { valAt st a with ref_count := 0 }) ref none) ref =
      none := slotOf_setSlot_self none h0 hlt
  have hnp : is_pool_address
      (setSlot (setVal st a { valAt st a with ref_count := 0 }) ref none)
      (slotOf (setSlot (setVal st a { valAt st a with ref_count := 0 }) ref none)
        ref) = false := by
    rw [hslot]; rfl
  unfold traverse_decref
  rw [show child_refs { valAt st a with ref_count := 0 } =
    child_refs (valAt st a) from rfl, hch]
  simp only [List.foldl_cons, List.foldl_nil]
  rw [decrefF_not_pool _ hnp]

/-- C3 witness: the self-referential LIST at handle 3 with count 1 is
released without re-entering itself. -/
theorem decref_zero_order_witness :
    (slotOf demoSelf 3 = some 3 ∧
      is_pool_address demoSelf (slotOf demoSelf 3) = true ∧
      (valAt demoSelf 3).ref_count = 1 ∧ child_refs (valAt demoSelf 3) = [3]) ∧
      decref demoSelf 3 =
        mm_free
          (setSlot (setVal demoSelf 3 { valAt demoSelf 3 with ref_count := 0 })
            3 none) 3 :=
  ⟨⟨by decide, by decide, by decide, by decide⟩,
    (decref_zero_order demoSelf 3 3 (by decide) (by decide) (by decide)).2
      (by decide)⟩

/-- C2: a LIST whose single child handle is itself, unreferenced by any
root, survives the decrement that dropped the evaluator's own binding
(its count stays 1, resolve still succeeds), but the next `collect()` call
reclaims it: afterwards its table slot is cleared and resolving handle 3
fails. -/
theorem cycle_reclaimed_by_collect_only :
    (valAt demoCycle 3).type = .VAL_LIST ∧
      (valAt demoCycle 3).list_values = 3 ∧
      (valAt demoCycle 3).ref_count = 1 ∧
      (deref demoCycle 3).isSome = true ∧
      slotOf (collect_garbage [0, 1, 2] demoCycle) 3 = none ∧
      (deref (collect_garbage [0, 1, 2] demoCycle) 3).isSome = false := by
  exact ⟨by decide, by decide, by decide, by decide, by decide, by decide⟩

theorem usub1_of_lt {c : Nat} (h1 : 1 ≤ c) (h2 : c < UWIDTH) :
    usub1 c = c - 1 := by
  unfold usub1 UWIDTH at *
  omega

theorem refs_used_congr_table {s t : gc_state} (h : s.ref_table = t.ref_table) :
    refs_used s = refs_used t := by
  unfold refs_used
  rw [h]

theorem filter_isSome_set_none (t : List (Option Nat)) (i : Nat) (a : Nat)
    (h : t[i]? = some (some a)) :
    ((t.set i none).filter (fun p => p.isSome)).length + 1 =
      (t.filter (fun p => p.isSome)).length := by
  induction t generalizing i with
  | nil => simp at h
  | cons hd tl ih =>
    cases i with
    | zero =>
      have : hd = some a := by simpa using h
      subst this
      simp
    | succ i2 =>
      have h2 : tl[i2]? = some (some a) := by simpa using h
      have := ih i2 h2
      cases hhd : hd.isSome <;> simp [List.filter_cons, hhd] <;> omega

theorem refs_used_setSlot_none {st : gc_state} {ref : reference_t} {a : Nat}
    (h : slotOf st ref = some a) :
    refs_used (setSlot st ref none) + 1 = refs_used st := by
  have h0 : ¬ ref < 0 := Int.not_lt.mpr (slotOf_nonneg h)
  have hg : st.ref_table[ref.toNat]? = some (some a) := by
    unfold slotOf at h
    rw [if_neg h0] at h
    exact getD_eq_some h
  unfold refs_used setSlot
  rw [if_neg h0]
  exact filter_isSome_set_none st.ref_table ref.toNat a hg

theorem sum_map_set_nat {α : Type} (f : α → Nat) (l : List α) (i : Nat)
    (b x : α) (h : l[i]? = some b) :
    ((l.set i x).map f).sum + f b = (l.map f).sum + f x := by
  induction l generalizing i with
  | nil => simp at h
  | cons hd tl ih =>
    cases i with
    | zero =>
      have : hd = b := by simpa using h
      subst this
      simp only [List.set_cons_zero, List.map_cons, List.sum_cons]
      omega
    | succ i2 =>
      have h2 : tl[i2]? = some b := by simpa using h
      have := ih i2 h2
      simp only [List.set_cons_succ, List.map_cons, List.sum_cons]
      omega

theorem mem_used_setVal {st : gc_state} {a : Nat} {b : block_t} (v : value_t)
    (hb : st.heap[a]? = some b) (hs : v.value_size = b.val.value_size) :
    mem_used (setVal st a v) = mem_used st := by
  have hh : (setVal st a v).heap = st.heap.set a { b with val := v } := by
    unfold setVal updBlock
    rw [hb]
  have har : (setVal st a v).active_region = st.active_region :=
    updBlock_active_region st a _
  unfold mem_used
  rw [hh, har]
  have hset := sum_map_set_nat
    (fun blk => if blk.allocated && blk.region == st.active_region
      then blk.val.value_size else 0) st.heap a b { b with val := v } hb
  dsimp only at hset
  rw [show (if (b.allocated && b.region == st.active_region) = true
      then v.value_size else 0) =
      (if (b.allocated && b.region == st.active_region) = true
      then b.val.value_size else 0) from by rw [hs]] at hset
  omega

theorem mem_used_mm_free_alloc {st : gc_state} {a : Nat} {b : block_t}
    (hb : st.heap[a]? = some b) (hal : b.allocated = true)
    (hr : b.region = st.active_region) :
    mem_used (mm_free st a) + b.val.value_size = mem_used st := by
  have hh : (mm_free st a).heap = st.heap.set a { b with allocated := false } := by
    unfold mm_free updBlock
    rw [hb]
  have har : (mm_free st a).active_region = st.active_region :=
    updBlock_active_region st a _
  unfold mem_used
  rw [hh, har]
  have hset := sum_map_set_nat
    (fun blk => if blk.allocated && blk.region == st.active_region
      then blk.val.value_size else 0) st.heap a b { b with allocated := false } hb
  dsimp only at hset
  rw [show (if (b.allocated && b.region == st.active_region) = true
      then b.val.value_size else 0) = b.val.value_size from by simp [hal, hr]] at hset
  rw [show (if (false && (b.region == st.active_region)) = true
      then b.val.value_size else 0) = 0 from by simp] at hset
  omega



theorem is_pool_block (st : gc_state) (a : Nat)
    (h : is_pool_address st (some a) = true) :
    ∃ b : block_t, st.heap[a]? = some b ∧ b.region = st.active_region := by
  rw [is_pool_some] at h
  cases hb : blockAt st a with
  | none => rw [hb] at h; simp at h
  | some b =>
    rw [hb] at h
    simp at h
    exact ⟨b, hb, h⟩

theorem valAt_of_block {st : gc_state} {a : Nat} {b : block_t}
    (h : st.heap[a]? = some b) : valAt st a = b.val := by
  unfold valAt
  rw [h]

theorem decref_children_fold (a : Nat) (fuel : Nat) (hfu : 0 < fuel)
    (L : List reference_t) :
    ∀ (s : gc_state),
      (∀ (x y : reference_t) (bb : Nat), slotOf s x = some bb →
        slotOf s y = some bb → x = y) →
      (∀ c, c ∈ L → ∀ b, slotOf s c = some b →
        is_pool_address s (some b) = true →
        b ≠ a ∧ (valAt s b).ref_count < UWIDTH ∧
          L.count c < (valAt s b).ref_count) →
      ((L.foldl (fun x r => decrefF fuel x r) s).ref_table = s.ref_table ∧
        mem_used (L.foldl (fun x r => decrefF fuel x r) s) = mem_used s ∧
        (L.foldl (fun x r => decrefF fuel x r) s).active_region =
          s.active_region ∧
        blockAt (L.foldl (fun x r => decrefF fuel x r) s) a = blockAt s a) := by
  induction L with
  | nil => exact fun s _ _ => ⟨rfl, rfl, rfl, rfl⟩
  | cons c L' ih =>
    intro s hinj hb
    simp only [List.foldl_cons]
    by_cases hpool : is_pool_address s (slotOf s c) = true
    · cases hsc : slotOf s c with
      | none => rw [hsc] at hpool; simp [is_pool_address] at hpool
      | some b =>
        rw [hsc] at hpool
        obtain ⟨hba, hlt, hcnt⟩ := hb c (List.mem_cons_self c L') b hsc hpool
        have hc1 : 1 ≤ (c :: L').count c := by
          simp [List.count_cons_self]
        have hcount2 : 2 ≤ (valAt s b).ref_count := by omega
        have hu : usub1 (valAt s b).ref_count = (valAt s b).ref_count - 1 :=
          usub1_of_lt (by omega) hlt
        have hpos : 0 < usub1 (valAt s b).ref_count := by omega
        obtain ⟨bb, hbb, hbr⟩ := is_pool_block s b hpool
        have hblt : b < s.heap.length := (List.getElem?_eq_some.mp hbb).1
        cases fuel with
        | zero => omega
        | succ f =>
          have hstep : decrefF (f + 1) s c =
              setVal s b
                { valAt s b with ref_count := usub1 (valAt s b).ref_count } := by
            rw [decrefF]
            simp only [hsc, hpool, if_true, hpos, if_pos]
          rw [hstep]
          have htab1 : (setVal s b
              { valAt s b with ref_count := usub1 (valAt s b).ref_count }).ref_table =
              s.ref_table := updBlock_ref_table s b _
          have hmem1 : mem_used (setVal s b
              { valAt s b with ref_count := usub1 (valAt s b).ref_count }) =
              mem_used s := by
            refine mem_used_setVal _ hbb ?_
            rw [show ({ valAt s b with
              ref_count := usub1 (valAt s b).ref_count } : value_t).value_size =
              (valAt s b).value_size from rfl, valAt_of_block hbb]
          have hact1 : (setVal s b
              { valAt s b with ref_count := usub1 (valAt s b).ref_count }).active_region =
              s.active_region := updBlock_active_region s b _
          have hblk1 : blockAt (setVal s b
              { valAt s b with ref_count := usub1 (valAt s b).ref_count }) a =
              blockAt s a := blockAt_updBlock_ne s _ hba
          have hslot1 : ∀ x : reference_t, slotOf (setVal s b
              { valAt s b with ref_count := usub1 (valAt s b).ref_count }) x =
              slotOf s x := fun x => slotOf_congr_table htab1 x
          have hb1 : ∀ c', c' ∈ L' → ∀ b', slotOf (setVal s b
              { valAt s b with ref_count := usub1 (valAt s b).ref_count }) c' =
                some b' →
              is_pool_address (setVal s b
                { valAt s b with ref_count := usub1 (valAt s b).ref_count })
                (some b') = true →
              b' ≠ a ∧ (valAt (setVal s b
                { valAt s b with ref_count := usub1 (valAt s b).ref_count })
                  b').ref_count < UWIDTH ∧
                L'.count c' < (valAt (setVal s b
                  { valAt s b with ref_count := usub1 (valAt s b).ref_count })
                  b').ref_count := by
            intro c' hc' b' hsc' hpool'
            rw [hslot1 c'] at hsc'
            rw [is_pool_setVal] at hpool'
            obtain ⟨hba', hlt', hcnt'⟩ :=
              hb c' (List.mem_cons_of_mem c hc') b' hsc' hpool'
            rcases eq_or_ne b' b with hbeq | hbne
            · subst hbeq
              have hceq : c' = c := hinj c' c b' hsc' hsc
              subst hceq
              have hcc : (c' :: L').count c' = L'.count c' + 1 := by
                simp [List.count_cons_self]
              refine ⟨hba', ?_, ?_⟩
              · rw [valAt_setVal_self _ hblt]
                show usub1 (valAt s b').ref_count < UWIDTH
                rw [hu]
                omega
              · rw [valAt_setVal_self _ hblt]
                show L'.count c' < usub1 (valAt s b').ref_count
                rw [hu]
                omega
            · have hval' : valAt (setVal s b
                  { valAt s b with ref_count := usub1 (valAt s b).ref_count }) b' =
                  valAt s b' := valAt_setVal_ne s _ (fun hx => hbne hx.symm)
              rw [hval']
              refine ⟨hba', hlt', ?_⟩
              have : L'.count c' ≤ (c :: L').count c' := by
                rcases eq_or_ne c' c with hcc | hcc
                · subst hcc; simp [List.count_cons_self]
                · rw [List.count_cons_of_ne hcc]
              omega
          obtain ⟨e1, e2, e3, e4⟩ := ih (setVal s b
              { valAt s b with ref_count := usub1 (valAt s b).ref_count })
            (fun x y bb2 h1 h2 => hinj x y bb2 (by rw [← hslot1 x]; exact h1)
              (by rw [← hslot1 y]; exact h2))
            hb1
          exact ⟨e1.trans htab1, e2.trans hmem1, e3.trans hact1,
            e4.trans hblk1⟩
    · have hf : is_pool_address s (slotOf s c) = false := by
        revert hpool
        cases is_pool_address s (slotOf s c) <;> simp
      rw [decrefF_not_pool fuel hf]
      refine ih s hinj ?_
      intro c' hc' b hsc' hpool'
      obtain ⟨h1, h2, h3⟩ := hb c' (List.mem_cons_of_mem c hc') b hsc' hpool'
      refine ⟨h1, h2, ?_⟩
      have : L'.count c' ≤ (c :: L').count c' := by
        rcases eq_or_ne c' c with hcc | hcc
        · subst hcc; simp [List.count_cons_self]
        · rw [List.count_cons_of_ne hcc]
      omega

theorem mem_used_setSlot (st : gc_state) (r : reference_t) (p : Option Nat) :
    mem_used (setSlot st r p) = mem_used st := by
  unfold mem_used setSlot
  by_cases h : r < 0 <;> simp [h]

/-- C7 counterexample: driving an acyclic value's count to zero does not in
general reduce `live_value_count()` by exactly one and `bytes_in_use()` by
exactly that value's footprint: the release cascades through the embedded
children.  In the well-formed, cycle-free state `cexC1` the LIST at handle 1
(footprint 40) holds the sole counted reference to the scalar at handle 0,
so `decrement(1)` releases both values: `live_value_count()` drops from 2 to
0 (not by one) and `bytes_in_use()` from 72 to 0 (not by 40). -/
theorem decref_cascade_cex :
    wfB cexC1 = true ∧
      refs_used cexC1 = 2 ∧ mem_used cexC1 = 72 ∧
      (valAt cexC1 1).ref_count = 1 ∧ (valAt cexC1 1).value_size = 40 ∧
      refs_used (decref cexC1 1) = 0 ∧ mem_used (decref cexC1 1) = 0 :=
  ⟨by decide, by decide, by decide, by decide, by decide, by decide, by decide⟩

/-- C7 (amended): when a decrement drives the count of a value to zero AND
the release does not cascade (each live embedded child keeps a positive
count), the release reduces `live_value_count()` by exactly one and
`bytes_in_use()` by exactly the value's storage footprint, with no collect()
call involved.  The unqualified claim — exactly one slot and exactly one
footprint for every acyclic value — is refuted by the counterexample, where
the recursive decrements of `decref` (refs.c:206) release the children too. -/
theorem decref_acyclic_exact (st : gc_state) (ref : reference_t) (a : Nat)
    (hinj : ∀ (x y : reference_t) (bb : Nat), slotOf st x = some bb →
      slotOf st y = some bb → x = y)
    (hs : slotOf st ref = some a)
    (hp : is_pool_address st (slotOf st ref) = true)
    (hc : (valAt st a).ref_count = 1)
    (hal : ∀ b0 : block_t, st.heap[a]? = some b0 → b0.allocated = true)
    (hchild : ∀ c, c ∈ child_refs (valAt st a) → c ≠ ref → ∀ b,
      slotOf st c = some b → is_pool_address st (some b) = true →
      b ≠ a ∧ (valAt st b).ref_count < UWIDTH ∧
        (child_refs (valAt st a)).count c < (valAt st b).ref_count) :
    refs_used (decref st ref) + 1 = refs_used st ∧
      mem_used (decref st ref) + (valAt st a).value_size = mem_used st := by
  have hmain := decref_count_one_eq st ref a hs hp hc
  have h0 : ¬ ref < 0 := Int.not_lt.mpr (slotOf_nonneg hs)
  have hreflt : ref.toNat < st.ref_table.length := slotOf_lt_length hs
  have hpa : is_pool_address st (some a) = true := by rw [← hs]; exact hp
  obtain ⟨b0, hb0, hb0r⟩ := is_pool_block st a hpa
  have hb0al : b0.allocated = true := hal b0 hb0
  have halt : a < st.heap.length := (List.getElem?_eq_some.mp hb0).1
  -- facts about the intermediate state st2
  have htabv : (setVal st a { valAt st a with ref_count := 0 }).ref_table =
      st.ref_table := updBlock_ref_table st a _
  have hslotv : ∀ x : reference_t,
      slotOf (setVal st a { valAt st a with ref_count := 0 }) x = slotOf st x :=
    fun x => slotOf_congr_table htabv x
  have htab2 : (setSlot (setVal st a { valAt st a with ref_count := 0 }) ref
      none).ref_table = st.ref_table.set ref.toNat none := by
    unfold setSlot
    rw [if_neg h0, htabv]
  have hrefs2 : refs_used (setSlot (setVal st a { valAt st a with ref_count := 0 })
      ref none) + 1 = refs_used st := by
    have hx := @refs_used_setSlot_none
      (setVal st a { valAt st a with ref_count := 0 }) ref a
      (by rw [hslotv]; exact hs)
    rw [refs_used_congr_table htabv] at hx
    exact hx
  have hmem2 : mem_used (setSlot (setVal st a { valAt st a with ref_count := 0 })
      ref none) = mem_used st := by
    rw [mem_used_setSlot]
    refine mem_used_setVal _ hb0 ?_
    rw [show ({ valAt st a with ref_count := 0 } : value_t).value_size =
      (valAt st a).value_size from rfl, valAt_of_block hb0]
  have hact2 : (setSlot (setVal st a { valAt st a with ref_count := 0 }) ref
      none).active_region = st.active_region := by
    have h1 := updBlock_active_region st a
      (fun b => { b with val := { valAt st a with ref_count := 0 } })
    unfold setSlot
    by_cases h : ref < 0 <;> simp [h] <;> exact h1
  have hblk2 : blockAt (setSlot (setVal st a { valAt st a with ref_count := 0 })
      ref none) a = some { b0 with val := { valAt st a with ref_count := 0 } } := by
    rw [blockAt_setSlot]
    exact blockAt_updBlock_self _ hb0
  have hslot2 : ∀ (x : reference_t) (bb : Nat),
      slotOf (setSlot (setVal st a { valAt st a with ref_count := 0 }) ref none) x =
        some bb → slotOf st x = some bb := by
    intro x bb hx
    have hx0 : ¬ x < 0 := Int.not_lt.mpr (slotOf_nonneg hx)
    rcases eq_or_ne x.toNat ref.toNat with he | hne
    · exfalso
      unfold slotOf at hx
      rw [if_neg hx0, htab2, he, List.getD_eq_getElem?_getD,
        List.getElem?_set_self (by simpa using hreflt)] at hx
      simp at hx
    · unfold slotOf at hx ⊢
      rw [if_neg hx0] at hx ⊢
      rw [htab2, List.getD_eq_getElem?_getD, List.getElem?_set_ne (fun hh => hne hh.symm)] at hx
      rw [List.getD_eq_getElem?_getD]
      exact hx
  have hinj2 : ∀ (x y : reference_t) (bb : Nat),
      slotOf (setSlot (setVal st a { valAt st a with ref_count := 0 }) ref none) x =
        some bb →
      slotOf (setSlot (setVal st a { valAt st a with ref_count := 0 }) ref none) y =
        some bb → x = y :=
    fun x y bb h1 h2 => hinj x y bb (hslot2 x bb h1) (hslot2 y bb h2)
  have hpool2 : ∀ p : Option Nat,
      is_pool_address (setSlot (setVal st a { valAt st a with ref_count := 0 }) ref
        none) p = is_pool_address st p := by
    intro p
    rw [is_pool_setSlot, is_pool_setVal]
  have hbudget : ∀ c, c ∈ child_refs ({ valAt st a with ref_count := 0 } : value_t) →
      ∀ b, slotOf (setSlot (setVal st a { valAt st a with ref_count := 0 }) ref none)
        c = some b →
      is_pool_address (setSlot (setVal st a { valAt st a with ref_count := 0 }) ref
        none) (some b) = true →
      b ≠ a ∧
        (valAt (setSlot (setVal st a { valAt st a with ref_count := 0 }) ref none)
          b).ref_count < UWIDTH ∧
        (child_refs ({ valAt st a with ref_count := 0 } : value_t)).count c <
          (valAt (setSlot (setVal st a { valAt st a with ref_count := 0 }) ref none)
            b).ref_count := by
    intro c hcmem b hcb hcp
    have hcsrc : slotOf st c = some b := hslot2 c b hcb
    have hcne : c ≠ ref := by
      intro he
      subst he
      unfold slotOf at hcb
      rw [if_neg h0, htab2, List.getD_eq_getElem?_getD,
        List.getElem?_set_self (by simpa using hreflt)] at hcb
      simp at hcb
    rw [hpool2] at hcp
    obtain ⟨hba, hw, hcnt⟩ := hchild c
      (by rw [show child_refs ({ valAt st a with ref_count := 0 } : value_t) =
        child_refs (valAt st a) from rfl] at hcmem; exact hcmem) hcne b hcsrc hcp
    have hvb : valAt (setSlot (setVal st a { valAt st a with ref_count := 0 }) ref
        none) b = valAt st b := by
      rw [valAt_setSlot]
      exact valAt_setVal_ne st _ (fun hh => hba hh.symm)
    rw [hvb]
    exact ⟨hba, hw, hcnt⟩
  have hL : 0 < st.ref_table.length := by omega
  obtain ⟨e1, e2, e3, e4⟩ := decref_children_fold a st.ref_table.length hL
    (child_refs ({ valAt st a with ref_count := 0 } : value_t))
    (setSlot (setVal st a { valAt st a with ref_count := 0 }) ref none)
    hinj2 hbudget
  have f1 : (traverse_decref st.ref_table.length (setSlot (setVal st a { valAt st a with ref_count := 0 }) ref none)
      ({ valAt st a with ref_count := 0 } : value_t)).ref_table = (setSlot (setVal st a { valAt st a with ref_count := 0 }) ref none).ref_table := e1
  have f2 : mem_used (traverse_decref st.ref_table.length (setSlot (setVal st a { valAt st a with ref_count := 0 }) ref none)
      ({ valAt st a with ref_count := 0 } : value_t)) = mem_used (setSlot (setVal st a { valAt st a with ref_count := 0 }) ref none) := e2
  have f3 : (traverse_decref st.ref_table.length (setSlot (setVal st a { valAt st a with ref_count := 0 }) ref none)
      ({ valAt st a with ref_count := 0 } : value_t)).active_region = (setSlot (setVal st a { valAt st a with ref_count := 0 }) ref none).active_region := e3
  have f4 : blockAt (traverse_decref st.ref_table.length (setSlot (setVal st a { valAt st a with ref_count := 0 }) ref none)
      ({ valAt st a with ref_count := 0 } : value_t)) a = blockAt (setSlot (setVal st a { valAt st a with ref_count := 0 }) ref none) a := e4
  rw [hmain]
  constructor
  · have g1 : refs_used (mm_free (traverse_decref st.ref_table.length (setSlot (setVal st a { valAt st a with ref_count := 0 }) ref none)
      ({ valAt st a with ref_count := 0 } : value_t)) a) = refs_used (traverse_decref st.ref_table.length (setSlot (setVal st a { valAt st a with ref_count := 0 }) ref none)
      ({ valAt st a with ref_count := 0 } : value_t)) :=
      refs_used_congr_table (updBlock_ref_table (traverse_decref st.ref_table.length (setSlot (setVal st a { valAt st a with ref_count := 0 }) ref none)
      ({ valAt st a with ref_count := 0 } : value_t)) a _)
    rw [g1, refs_used_congr_table f1]
    exact hrefs2
  · have hreg : ({ b0 with val := { valAt st a with ref_count := 0 } } : block_t).region =
        (traverse_decref st.ref_table.length (setSlot (setVal st a { valAt st a with ref_count := 0 }) ref none)
      ({ valAt st a with ref_count := 0 } : value_t)).active_region := by
      rw [show ({ b0 with val := { valAt st a with ref_count := 0 } } : block_t).region = b0.region from rfl,
        f3, hact2]
      exact hb0r
    have hheap : (traverse_decref st.ref_table.length (setSlot (setVal st a { valAt st a with ref_count := 0 }) ref none)
      ({ valAt st a with ref_count := 0 } : value_t)).heap[a]? =
        some { b0 with val := { valAt st a with ref_count := 0 } } := f4.trans hblk2
    have hfree := @mem_used_mm_free_alloc (traverse_decref st.ref_table.length (setSlot (setVal st a { valAt st a with ref_count := 0 }) ref none)
      ({ valAt st a with ref_count := 0 } : value_t)) a
      { b0 with val := { valAt st a with ref_count := 0 } } hheap hb0al hreg
    have hfree2 : mem_used (mm_free (traverse_decref st.ref_table.length (setSlot (setVal st a { valAt st a with ref_count := 0 }) ref none)
      ({ valAt st a with ref_count := 0 } : value_t)) a) + (valAt st a).value_size =
        mem_used (traverse_decref st.ref_table.length (setSlot (setVal st a { valAt st a with ref_count := 0 }) ref none)
      ({ valAt st a with ref_count := 0 } : value_t)) := hfree
    exact hfree2.trans (f2.trans hmem2)



theorem table_inj_of_injB {t : List (Option Nat)} (h : slotsInjB t = true) :
    ∀ (i j bb : Nat), t[i]? = some (some bb) → t[j]? = some (some bb) →
      i = j := by
  induction t with
  | nil => intro i j bb hi; simp at hi
  | cons p tl ih =>
    intro i j bb hi hj
    cases p with
    | none =>
      have h2 : slotsInjB tl = true := by simpa [slotsInjB] using h
      cases i with
      | zero => simp at hi
      | succ i2 =>
        cases j with
        | zero => simp at hj
        | succ j2 =>
          have := ih h2 i2 j2 bb (by simpa using hi) (by simpa using hj)
          omega
    | some a =>
      have h2 : tl.contains (some a) = false ∧ slotsInjB tl = true := by
        have := h
        simp [slotsInjB] at this
        exact ⟨by simpa using this.1, this.2⟩
      cases i with
      | zero =>
        cases j with
        | zero => rfl
        | succ j2 =>
          exfalso
          have hba : bb = a := by
            have : some a = some bb := by simpa using hi
            simpa using this.symm
          subst hba
          have hmem : (some bb) ∈ tl := List.getElem?_mem (by simpa using hj)
          have : tl.contains (some bb) = true := List.elem_eq_true_of_mem hmem
          rw [this] at h2
          exact Bool.noConfusion h2.1
      | succ i2 =>
        cases j with
        | zero =>
          exfalso
          have hba : bb = a := by
            have : some a = some bb := by simpa using hj
            simpa using this.symm
          subst hba
          have hmem : (some bb) ∈ tl := List.getElem?_mem (by simpa using hi)
          have : tl.contains (some bb) = true := List.elem_eq_true_of_mem hmem
          rw [this] at h2
          exact Bool.noConfusion h2.1
        | succ j2 =>
          have := ih h2.2 i2 j2 bb (by simpa using hi) (by simpa using hj)
          omega

theorem slot_inj_of_injB {st : gc_state} (h : slotsInjB st.ref_table = true) :
    ∀ (x y : reference_t) (bb : Nat), slotOf st x = some bb →
      slotOf st y = some bb → x = y := by
  intro x y bb hx hy
  have hx0 := slotOf_nonneg hx
  have hy0 := slotOf_nonneg hy
  have hxg : st.ref_table[x.toNat]? = some (some bb) := by
    unfold slotOf at hx
    rw [if_neg (Int.not_lt.mpr hx0)] at hx
    exact getD_eq_some hx
  have hyg : st.ref_table[y.toNat]? = some (some bb) := by
    unfold slotOf at hy
    rw [if_neg (Int.not_lt.mpr hy0)] at hy
    exact getD_eq_some hy
  have heq := table_inj_of_injB h x.toNat y.toNat bb hxg hyg
  rw [← Int.toNat_of_nonneg hx0, ← Int.toNat_of_nonneg hy0, heq]

/-- C7 witness: releasing the single scalar at handle 0 frees exactly one
slot and exactly its 32-byte footprint. -/
theorem decref_acyclic_exact_witness :
    refs_used (decref demo1 0) + 1 = refs_used demo1 ∧
      mem_used (decref demo1 0) + (valAt demo1 0).value_size = mem_used demo1 :=
  decref_acyclic_exact demo1 0 0
    (slot_inj_of_injB (by decide))
    (by decide) (by decide) (by decide)
    (by
      intro b0 hb0
      rw [show demo1.heap[0]? =
        some ⟨false, true, ⟨.VAL_SCALAR, 1, 32, -1, -1, -1, []⟩⟩ from by decide] at hb0
      injection hb0 with h2
      rw [← h2])
    (by
      intro c hc
      rw [show child_refs (valAt demo1 0) = [] from by decide] at hc
      exact absurd hc (List.not_mem_nil c))

theorem setVal_ref_table (st : gc_state) (a : Nat) (v : value_t) :
    (setVal st a v).ref_table = st.ref_table := updBlock_ref_table st a _

theorem setVal_active_region (st : gc_state) (a : Nat) (v : value_t) :
    (setVal st a v).active_region = st.active_region :=
  updBlock_active_region st a _

theorem blockAt_setVal_ne {a x : Nat} (st : gc_state) (v : value_t)
    (h : a ≠ x) : blockAt (setVal st a v) x = blockAt st x :=
  blockAt_updBlock_ne st _ h

theorem slotOf_setVal (st : gc_state) (a : Nat) (v : value_t)
    (x : reference_t) : slotOf (setVal st a v) x = slotOf st x :=
  slotOf_updBlock st a _ x

theorem mm_free_ref_table (st : gc_state) (a : Nat) :
    (mm_free st a).ref_table = st.ref_table := updBlock_ref_table st a _

theorem mm_free_active_region (st : gc_state) (a : Nat) :
    (mm_free st a).active_region = st.active_region :=
  updBlock_active_region st a _

theorem blockAt_mm_free_ne {a x : Nat} (st : gc_state) (h : a ≠ x) :
    blockAt (mm_free st a) x = blockAt st x := blockAt_updBlock_ne st _ h

theorem slotOf_mm_free (st : gc_state) (a : Nat) (x : reference_t) :
    slotOf (mm_free st a) x = slotOf st x := slotOf_updBlock st a _ x

theorem foldl_rel {α : Type} (R : gc_state → gc_state → Prop)
    (hrefl : ∀ s, R s s)
    (htrans : ∀ s1 s2 s3, R s1 s2 → R s2 s3 → R s1 s3)
    (f : gc_state → α → gc_state)
    (hstep : ∀ (s : gc_state) (x : α), R s (f s x)) :
    ∀ (L : List α) (s : gc_state), R s (L.foldl f s) := by
  intro L
  induction L with
  | nil => intro s; exact hrefl s
  | cons c L' ih =>
    intro s
    exact htrans _ _ _ (hstep s c) (ih (f s c))

theorem sweepStable_refl (s : gc_state) : sweepStable s s :=
  ⟨rfl, rfl, fun _ => rfl, fun _ => Or.inl rfl, fun _ _ h _ => h, rfl⟩

theorem sweepStable_trans (s1 s2 s3 : gc_state)
    (h1 : sweepStable s1 s2) (h2 : sweepStable s2 s3) : sweepStable s1 s3 := by
  obtain ⟨l1, a1, p1, sl1, b1, hp1⟩ := h1
  obtain ⟨l2, a2, p2, sl2, b2, hp2⟩ := h2
  refine ⟨l2.trans l1, a2.trans a1, fun p => (p2 p).trans (p1 p), ?_, ?_,
    hp2.trans hp1⟩
  · intro x
    cases sl2 x with
    | inl e =>
      rw [e]
      exact sl1 x
    | inr e => exact Or.inr e
  · intro x b hb hr
    refine b2 x b (b1 x b hb hr) ?_
    rw [a1]
    exact hr

theorem sweepStable_setVal {s : gc_state} {a : Nat} (v : value_t)
    (hp : is_pool_address s (some a) = true) :
    sweepStable s (setVal s a v) := by
  obtain ⟨bb, hbb, hbbr⟩ := is_pool_block s a hp
  refine ⟨by rw [setVal_ref_table], setVal_active_region s a v,
    fun p => is_pool_setVal s a v p,
    fun x => Or.inl (slotOf_setVal s a v x), ?_, updBlock_heap_length s a _⟩
  intro x b hb hr
  rcases eq_or_ne a x with he | hne
  · subst he
    unfold blockAt at hb
    rw [hbb] at hb
    exact absurd (by injection hb with h2; rw [← h2]; exact hbbr) hr
  · rw [blockAt_setVal_ne s v hne]
    exact hb

theorem sweepStable_mm_free {s : gc_state} {a : Nat}
    (hp : is_pool_address s (some a) = true) :
    sweepStable s (mm_free s a) := by
  obtain ⟨bb, hbb, hbbr⟩ := is_pool_block s a hp
  refine ⟨by rw [mm_free_ref_table], mm_free_active_region s a,
    fun p => is_pool_mm_free s a p,
    fun x => Or.inl (slotOf_mm_free s a x), ?_, updBlock_heap_length s a _⟩
  intro x b hb hr
  rcases eq_or_ne a x with he | hne
  · subst he
    unfold blockAt at hb
    rw [hbb] at hb
    exact absurd (by injection hb with h2; rw [← h2]; exact hbbr) hr
  · rw [blockAt_mm_free_ne s hne]
    exact hb

theorem sweepStable_setSlot_none (s : gc_state) (ref : reference_t) :
    sweepStable s (setSlot s ref none) := by
  by_cases h0 : ref < 0
  · unfold setSlot
    rw [if_pos h0]
    exact sweepStable_refl s
  · refine ⟨?_, ?_, fun p => is_pool_setSlot s ref none p, ?_, ?_, by
      unfold setSlot
      rw [if_neg h0]⟩
    · unfold setSlot
      rw [if_neg h0]
      exact List.length_set _ _ _
    · unfold setSlot
      rw [if_neg h0]
    · intro x
      by_cases hx0 : x < 0
      · left
        unfold slotOf
        rw [if_pos hx0, if_pos hx0]
      · rcases eq_or_ne x.toNat ref.toNat with he | hne
        · by_cases hlt : ref.toNat < s.ref_table.length
          · right
            unfold slotOf setSlot
            rw [if_neg h0, if_neg hx0, he, List.getD_eq_getElem?_getD]
            simp only [List.getElem?_set_self (by simpa using hlt)]
            rfl
          · left
            unfold slotOf setSlot
            rw [if_neg h0, if_neg hx0, if_neg hx0,
              List.set_eq_of_length_le (by omega)]
        · left
          unfold slotOf setSlot
          rw [if_neg h0, if_neg hx0, if_neg hx0, List.getD_eq_getElem?_getD,
            List.getD_eq_getElem?_getD,
            List.getElem?_set_ne (fun hh => hne hh.symm)]
    · intro x b hb hr
      rw [blockAt_setSlot]
      exact hb



theorem decrefF_sweepStable :
    ∀ (fuel : Nat) (s : gc_state) (r : reference_t),
      sweepStable s (decrefF fuel s r) := by
  intro fuel
  induction fuel with
  | zero => intro s r; exact sweepStable_refl _
  | succ f ih =>
    intro s r
    by_cases hp : is_pool_address s (slotOf s r) = true
    · cases hsr : slotOf s r with
      | none => rw [hsr] at hp; simp [is_pool_address] at hp
      | some a =>
        have hpa : is_pool_address s (some a) = true := by rw [← hsr]; exact hp
        by_cases hcnt : 0 < usub1 (valAt s a).ref_count
        · have hstep : decrefF (f + 1) s r =
              setVal s a
                { valAt s a with ref_count := usub1 (valAt s a).ref_count } := by
            rw [decrefF]
            simp only [hsr, hp, hpa, if_true, hcnt, if_pos]
          rw [hstep]
          exact sweepStable_setVal _ hpa
        · have hcf : (0 < usub1 (valAt s a).ref_count) = False := eq_false hcnt
          have hstep : decrefF (f + 1) s r =
              mm_free
                ((child_refs
                    { valAt s a with ref_count := usub1 (valAt s a).ref_count }).foldl
                  (fun x c => decrefF f x c)
                  (setSlot
                    (setVal s a
                      { valAt s a with ref_count := usub1 (valAt s a).ref_count })
                    r none)) a := by
            rw [decrefF]
            simp only [hsr, hp, hpa, if_true, hcf, if_false]
          rw [hstep]
          have st1 := sweepStable_setVal
            { valAt s a with ref_count := usub1 (valAt s a).ref_count } hpa
          have st2 := sweepStable_setSlot_none
            (setVal s a
              { valAt s a with ref_count := usub1 (valAt s a).ref_count }) r
          have st3 := foldl_rel sweepStable sweepStable_refl sweepStable_trans
            (fun x c => decrefF f x c) (fun x c => ih x c)
            (child_refs { valAt s a with ref_count := usub1 (valAt s a).ref_count })
            (setSlot
              (setVal s a
                { valAt s a with ref_count := usub1 (valAt s a).ref_count }) r none)
          have hpool3 : is_pool_address
              ((child_refs
                  { valAt s a with ref_count := usub1 (valAt s a).ref_count }).foldl
                (fun x c => decrefF f x c)
                (setSlot
                  (setVal s a
                    { valAt s a with ref_count := usub1 (valAt s a).ref_count })
                  r none)) (some a) = true := by
            rw [st3.2.2.1, st2.2.2.1, st1.2.2.1]
            exact hpa
          exact sweepStable_trans _ _ _ st1
            (sweepStable_trans _ _ _ st2
              (sweepStable_trans _ _ _ st3 (sweepStable_mm_free hpool3)))
    · have hf : is_pool_address s (slotOf s r) = false := by
        revert hp
        cases is_pool_address s (slotOf s r) <;> simp
      rw [decrefF_not_pool _ hf]
      exact sweepStable_refl _

theorem traverse_decref_sweepStable (fuel : Nat) (s : gc_state) (v : value_t) :
    sweepStable s (traverse_decref fuel s v) :=
  foldl_rel sweepStable sweepStable_refl sweepStable_trans
    (fun x c => decrefF fuel x c) (fun x c => decrefF_sweepStable fuel x c)
    (child_refs v) s

theorem sweepSlot_sweepStable (fuel : Nat) (s : gc_state) (i : Nat) :
    sweepStable s (sweepSlot fuel s i) := by
  cases hg : s.ref_table.getD i none with
  | none =>
    have hstep : sweepSlot fuel s i = s := by
      unfold sweepSlot
      rw [hg]
    rw [hstep]
    exact sweepStable_refl s
  | some a =>
    by_cases hp : is_pool_address s (some a) = true
    · have hstep : sweepSlot fuel s i = s := by
        unfold sweepSlot
        rw [hg]
        simp only [hp, if_true]
      rw [hstep]
      exact sweepStable_refl s
    · have hpf : is_pool_address s (some a) = false := by
        revert hp
        cases is_pool_address s (some a) <;> simp
      have hstep : sweepSlot fuel s i =
          setSlot (traverse_decref fuel s (valAt s a)) (Int.ofNat i) none := by
        unfold sweepSlot
        rw [hg]
        simp only [hpf, Bool.false_eq_true, if_false]
      rw [hstep]
      exact sweepStable_trans _ _ _ (traverse_decref_sweepStable fuel s (valAt s a))
        (sweepStable_setSlot_none _ _)



theorem copyStable_refl (s : gc_state) : copyStable s s :=
  ⟨rfl, rfl, le_refl _, fun _ _ h => h⟩

theorem copyStable_trans (s1 s2 s3 : gc_state)
    (h1 : copyStable s1 s2) (h2 : copyStable s2 s3) : copyStable s1 s3 :=
  ⟨h2.1.trans h1.1, h2.2.1.trans h1.2.1, h1.2.2.1.trans h2.2.2.1,
    fun x b hb => h2.2.2.2 x b (h1.2.2.2 x b hb)⟩

theorem copy_contentsF_copyStable :
    ∀ (fuel : Nat) (s : gc_state) (r : reference_t),
      copyStable s (copy_contentsF fuel s r) := by
  intro fuel
  induction fuel with
  | zero => intro s r; exact copyStable_refl _
  | succ f ih =>
    intro s r
    by_cases hp : is_pool_address s (slotOf s r) = true
    · have hstep : copy_contentsF (f + 1) s r = s := by
        rw [copy_contentsF]
        simp only [hp, if_true]
      rw [hstep]
      exact copyStable_refl s
    · have hpf : is_pool_address s (slotOf s r) = false := by
        revert hp
        cases is_pool_address s (slotOf s r) <;> simp
      cases hsr : slotOf s r with
      | none =>
        have hstep : copy_contentsF (f + 1) s r = s := by
          rw [copy_contentsF]
          simp only [hsr, is_pool_none, Bool.false_eq_true, if_false]
        rw [hstep]
        exact copyStable_refl s
      | some a =>
        have hpsa : is_pool_address s (some a) = false := by
          rw [← hsr]
          exact hpf
        cases hm : mm_malloc s (valAt s a).value_size with
        | none =>
          have hstep : copy_contentsF (f + 1) s r = s := by
            rw [copy_contentsF]
            simp only [hsr, hpsa, Bool.false_eq_true, if_false, hm]
          rw [hstep]
          exact copyStable_refl s
        | some pr =>
          obtain ⟨a2, s1⟩ := pr
          obtain ⟨ha2, hs1⟩ := mm_malloc_some hm
          have hstep : copy_contentsF (f + 1) s r =
              (child_refs (valAt s a)).foldl (fun x c => copy_contentsF f x c)
                (setSlot (setVal s1 a2 (valAt s a)) r (some a2)) := by
            rw [copy_contentsF]
            simp only [hsr, hpsa, Bool.false_eq_true, if_false, hm]
          rw [hstep]
          have hcs3 : copyStable s (setSlot (setVal s1 a2 (valAt s a)) r (some a2)) := by
            refine ⟨?_, ?_, ?_, ?_⟩
            · rw [show (setSlot (setVal s1 a2 (valAt s a)) r (some a2)).ref_table.length =
                (setVal s1 a2 (valAt s a)).ref_table.length from by
                  unfold setSlot
                  by_cases h0 : r < 0 <;> simp [h0]]
              rw [setVal_ref_table, hs1]
            · rw [show (setSlot (setVal s1 a2 (valAt s a)) r (some a2)).active_region =
                (setVal s1 a2 (valAt s a)).active_region from by
                  unfold setSlot
                  by_cases h0 : r < 0 <;> simp [h0]]
              rw [setVal_active_region, hs1]
            · rw [show (setSlot (setVal s1 a2 (valAt s a)) r (some a2)).heap =
                (setVal s1 a2 (valAt s a)).heap from by
                  unfold setSlot
                  by_cases h0 : r < 0 <;> simp [h0]]
              rw [show (setVal s1 a2 (valAt s a)).heap.length = s1.heap.length from by
                unfold setVal updBlock
                cases h : s1.heap[a2]? <;> simp [h]]
              rw [hs1]
              simp
            · intro x b hb
              have hxlt : x < s.heap.length := (List.getElem?_eq_some.mp hb).1
              have hb1 : blockAt s1 x = some b := by
                unfold blockAt at hb ⊢
                rw [hs1]
                show (s.heap ++ _)[x]? = some b
                rw [List.getElem?_append, if_pos hxlt]
                exact hb
              have hne : a2 ≠ x := by omega
              rw [blockAt_setSlot, blockAt_setVal_ne _ _ hne]
              exact hb1
          refine copyStable_trans _ _ _ hcs3 ?_
          exact foldl_rel copyStable copyStable_refl copyStable_trans
            (fun x c => copy_contentsF f x c) (fun x c => ih x c)
            (child_refs (valAt s a)) _

theorem mm_init_ref_table (st : gc_state) (r : Bool) :
    (mm_init st r).ref_table = st.ref_table := rfl

theorem mm_init_active (st : gc_state) (r : Bool) :
    (mm_init st r).active_region = r := rfl

theorem mm_init_block_kept {st : gc_state} {x : Nat} {b : block_t} (r : Bool)
    (hb : blockAt st x = some b) (hr : b.region ≠ r) :
    blockAt (mm_init st r) x = some b := by
  unfold blockAt mm_init at *
  simp only [List.getElem?_map, hb, Option.map_some']
  simp [hr]



theorem slot_ok_of_sweepStable {s s' : gc_state} (h : sweepStable s s')
    (j : Nat)
    (hp : slotOf s (Int.ofNat j) = none ∨
      is_pool_address s (slotOf s (Int.ofNat j)) = true) :
    slotOf s' (Int.ofNat j) = none ∨
      is_pool_address s' (slotOf s' (Int.ofNat j)) = true := by
  obtain ⟨_, _, hpool, hslots, _, _⟩ := h
  cases hslots (Int.ofNat j) with
  | inl e =>
    rw [e, hpool]
    exact hp
  | inr e => exact Or.inl e

theorem sweepSlot_establishes (fuel : Nat) (s : gc_state) (i : Nat)
    (hi : i < s.ref_table.length) :
    slotOf (sweepSlot fuel s i) (Int.ofNat i) = none ∨
      is_pool_address (sweepSlot fuel s i)
        (slotOf (sweepSlot fuel s i) (Int.ofNat i)) = true := by
  have hofn : ¬ (Int.ofNat i < 0) := Int.not_lt.mpr (Int.ofNat_nonneg i)
  cases hg : s.ref_table.getD i none with
  | none =>
    have hstep : sweepSlot fuel s i = s := by
      unfold sweepSlot
      rw [hg]
    rw [hstep]
    left
    unfold slotOf
    rw [if_neg hofn]
    simpa using hg
  | some a =>
    by_cases hp : is_pool_address s (some a) = true
    · have hstep : sweepSlot fuel s i = s := by
        unfold sweepSlot
        rw [hg]
        simp only [hp, if_true]
      rw [hstep]
      right
      have : slotOf s (Int.ofNat i) = some a := by
        unfold slotOf
        rw [if_neg hofn]
        simpa using hg
      rw [this]
      exact hp
    · have hpf : is_pool_address s (some a) = false := by
        revert hp
        cases is_pool_address s (some a) <;> simp
      have hstep : sweepSlot fuel s i =
          setSlot (traverse_decref fuel s (valAt s a)) (Int.ofNat i) none := by
        unfold sweepSlot
        rw [hg]
        simp only [hpf, Bool.false_eq_true, if_false]
      rw [hstep]
      left
      refine slotOf_setSlot_self none hofn ?_
      rw [(traverse_decref_sweepStable fuel s (valAt s a)).1]
      simpa using hi

theorem sweep_fold_ok (fuel : Nat) :
    ∀ (l : List Nat) (s : gc_state),
      (∀ j, j ∈ l → j < s.ref_table.length) →
      ∀ j : Nat,
        ((slotOf s (Int.ofNat j) = none ∨
          is_pool_address s (slotOf s (Int.ofNat j)) = true) ∨ j ∈ l) →
        (slotOf (l.foldl (fun x i => sweepSlot fuel x i) s) (Int.ofNat j) = none ∨
          is_pool_address (l.foldl (fun x i => sweepSlot fuel x i) s)
            (slotOf (l.foldl (fun x i => sweepSlot fuel x i) s) (Int.ofNat j)) =
            true) := by
  intro l
  induction l with
  | nil =>
    intro s hbound j hj
    rcases hj with hj | hj
    · exact hj
    · exact absurd hj (List.not_mem_nil j)
  | cons i l' ih =>
    intro s hbound j hj
    simp only [List.foldl_cons]
    have hlen1 : (sweepSlot fuel s i).ref_table.length = s.ref_table.length :=
      (sweepSlot_sweepStable fuel s i).1
    refine ih (sweepSlot fuel s i)
      (fun j2 hj2 => by rw [hlen1]; exact hbound j2 (List.mem_cons_of_mem i hj2))
      j ?_
    rcases hj with hj | hj
    · exact Or.inl (slot_ok_of_sweepStable (sweepSlot_sweepStable fuel s i) j hj)
    · rcases List.mem_cons.mp hj with he | hm
      · subst he
        exact Or.inl (sweepSlot_establishes fuel s j
          (hbound j (List.mem_cons_self j l')))
      · exact Or.inr hm




theorem slotOf_ofNat (s : gc_state) (i : Nat) :
    slotOf s (Int.ofNat i) = s.ref_table.getD i none := by
  unfold slotOf
  rw [if_neg (show ¬ Int.ofNat i < 0 from Int.not_lt.mpr (Int.ofNat_nonneg i))]
  rfl

/-- C10: across a `collect()` call every block of the old active region is
left byte-for-byte intact: the sweep never releases a non-relocated value's
own storage to the allocator — it is abandoned wholesale with the old region
— so any release during the sweep can only touch blocks of the new active
region (children whose counts cascade to zero); moreover every slot that
survives collection points into the new active region, and the sweep step on
a stale slot is exactly the recursive decrement of the stale value's embedded
children followed by clearing the slot. -/
theorem collect_sweep_no_release (roots : List reference_t) (st : gc_state) :
    (∀ (x : Nat) (b : block_t), blockAt st x = some b →
      b.region = st.active_region →
      blockAt (collect_garbage roots st) x = some b) ∧
      (∀ (i a : Nat), slotOf (collect_garbage roots st) (Int.ofNat i) = some a →
        is_pool_address (collect_garbage roots st) (some a) = true) ∧
      (∀ (fuel : Nat) (s : gc_state) (i a : Nat),
        s.ref_table.getD i none = some a →
        is_pool_address s (some a) = false →
        sweepSlot fuel s i =
          setSlot (traverse_decref fuel s (valAt s a)) (Int.ofNat i) none) := by
  have hcg : collect_garbage roots st = ((List.range (roots.foldl (fun s r => copy_contentsF ((mm_init st (!st.active_region)).ref_table.length + 1) s r) (mm_init st (!st.active_region))).ref_table.length).foldl (fun s i => sweepSlot ((mm_init st (!st.active_region)).ref_table.length + 1) s i) (roots.foldl (fun s r => copy_contentsF ((mm_init st (!st.active_region)).ref_table.length + 1) s r) (mm_init st (!st.active_region)))) := by
    simp only [collect_garbage]
  have hcopy : copyStable (mm_init st (!st.active_region)) (roots.foldl (fun s r => copy_contentsF ((mm_init st (!st.active_region)).ref_table.length + 1) s r) (mm_init st (!st.active_region))) :=
    foldl_rel copyStable copyStable_refl copyStable_trans
      (fun s r => copy_contentsF ((mm_init st (!st.active_region)).ref_table.length + 1) s r)
      (fun s r => copy_contentsF_copyStable ((mm_init st (!st.active_region)).ref_table.length + 1) s r) roots (mm_init st (!st.active_region))
  have hsw : sweepStable (roots.foldl (fun s r => copy_contentsF ((mm_init st (!st.active_region)).ref_table.length + 1) s r) (mm_init st (!st.active_region))) ((List.range (roots.foldl (fun s r => copy_contentsF ((mm_init st (!st.active_region)).ref_table.length + 1) s r) (mm_init st (!st.active_region))).ref_table.length).foldl (fun s i => sweepSlot ((mm_init st (!st.active_region)).ref_table.length + 1) s i) (roots.foldl (fun s r => copy_contentsF ((mm_init st (!st.active_region)).ref_table.length + 1) s r) (mm_init st (!st.active_region)))) :=
    foldl_rel sweepStable sweepStable_refl sweepStable_trans
      (fun s i => sweepSlot ((mm_init st (!st.active_region)).ref_table.length + 1) s i)
      (fun s i => sweepSlot_sweepStable ((mm_init st (!st.active_region)).ref_table.length + 1) s i)
      (List.range (roots.foldl (fun s r => copy_contentsF ((mm_init st (!st.active_region)).ref_table.length + 1) s r) (mm_init st (!st.active_region))).ref_table.length) (roots.foldl (fun s r => copy_contentsF ((mm_init st (!st.active_region)).ref_table.length + 1) s r) (mm_init st (!st.active_region)))
  refine ⟨?_, ?_, ?_⟩
  · intro x b hb hr
    have hact : b.region ≠ !st.active_region := by
      rw [hr]
      cases st.active_region <;> simp
    have h1 : blockAt (mm_init st (!st.active_region)) x = some b := mm_init_block_kept _ hb hact
    have h2 : blockAt (roots.foldl (fun s r => copy_contentsF ((mm_init st (!st.active_region)).ref_table.length + 1) s r) (mm_init st (!st.active_region))) x = some b := hcopy.2.2.2 x b h1
    have h3 : blockAt ((List.range (roots.foldl (fun s r => copy_contentsF ((mm_init st (!st.active_region)).ref_table.length + 1) s r) (mm_init st (!st.active_region))).ref_table.length).foldl (fun s i => sweepSlot ((mm_init st (!st.active_region)).ref_table.length + 1) s i) (roots.foldl (fun s r => copy_contentsF ((mm_init st (!st.active_region)).ref_table.length + 1) s r) (mm_init st (!st.active_region)))) x = some b := by
      refine hsw.2.2.2.2.1 x b h2 ?_
      rw [hcopy.2.1, mm_init_active]
      exact hact
    rw [hcg]
    exact h3
  · intro i a hslot
    rw [hcg] at hslot ⊢
    have hok := sweep_fold_ok ((mm_init st (!st.active_region)).ref_table.length + 1) (List.range (roots.foldl (fun s r => copy_contentsF ((mm_init st (!st.active_region)).ref_table.length + 1) s r) (mm_init st (!st.active_region))).ref_table.length) (roots.foldl (fun s r => copy_contentsF ((mm_init st (!st.active_region)).ref_table.length + 1) s r) (mm_init st (!st.active_region)))
      (fun j hj => List.mem_range.mp hj) i ?_
    · rcases hok with hok | hok
      · rw [hslot] at hok
        exact Option.noConfusion hok
      · rw [hslot] at hok
        exact hok
    · by_cases hilt : i < (roots.foldl (fun s r => copy_contentsF ((mm_init st (!st.active_region)).ref_table.length + 1) s r) (mm_init st (!st.active_region))).ref_table.length
      · exact Or.inr (List.mem_range.mpr hilt)
      · left
        left
        rw [slotOf_ofNat, List.getD_eq_getElem?_getD,
          List.getElem?_eq_none (Nat.le_of_not_lt hilt)]
        rfl
  · intro fuel s i a hg hp
    unfold sweepSlot
    rw [hg]
    simp only [hp, Bool.false_eq_true, if_false]

/-- C10 witness: collecting the cycle arena preserves the old-region LIST
block untouched (its storage is abandoned, never released), and the surviving
slot 0 points into the new active region. -/
theorem collect_sweep_no_release_witness :
    blockAt (collect_garbage [0, 1, 2] demoCycle) 3 =
      some ⟨false, true, ⟨.VAL_LIST, 1, 40, 3, -1, -1, []⟩⟩ ∧
      is_pool_address (collect_garbage [0, 1, 2] demoCycle) (some 4) = true :=
  ⟨(collect_sweep_no_release [0, 1, 2] demoCycle).1 3
      ⟨false, true, ⟨.VAL_LIST, 1, 40, 3, -1, -1, []⟩⟩ (by decide) (by decide),
    (collect_sweep_no_release [0, 1, 2] demoCycle).2.1 0 4 (by decide)⟩

theorem foldl_inv {α : Type} (P : gc_state → Prop)
    (f : gc_state → α → gc_state)
    (hstep : ∀ (s : gc_state) (x : α), P s → P (f s x)) :
    ∀ (L : List α) (s : gc_state), P s → P (L.foldl f s) := by
  intro L
  induction L with
  | nil => intro s h; exact h
  | cons c L' ih => intro s h; exact ih (f s c) (hstep s c h)

theorem findSlotOf_first {a : Nat} :
    ∀ (t : List (Option Nat)) (j : Nat), t[j]? = some (some a) →
      ∃ i : Nat, findSlotOf a t = some i ∧ i ≤ j ∧ t[i]? = some (some a) := by
  intro t
  induction t with
  | nil => intro j hj; simp at hj
  | cons p tl ih =>
    intro j hj
    by_cases hpa : p = some a
    · refine ⟨0, ?_, Nat.zero_le j, ?_⟩
      · unfold findSlotOf
        rw [if_pos hpa]
      · simpa using hpa
    · cases j with
      | zero =>
        exfalso
        apply hpa
        simpa using hj
      | succ j2 =>
        obtain ⟨i2, hf2, hle2, hg2⟩ := ih j2 (by simpa using hj)
        refine ⟨i2 + 1, ?_, by omega, by simpa using hg2⟩
        unfold findSlotOf
        rw [if_neg hpa, hf2]
        rfl

theorem slot_bnd_of_B {st : gc_state} (h : slotsBoundedB st = true) :
    ∀ (x : reference_t) (bb : Nat), slotOf st x = some bb →
      bb < st.heap.length := by
  intro x bb hx
  have hx0 := slotOf_nonneg hx
  have hg : st.ref_table[x.toNat]? = some (some bb) := by
    unfold slotOf at hx
    rw [if_neg (Int.not_lt.mpr hx0)] at hx
    exact getD_eq_some hx
  have hmem : (some bb) ∈ st.ref_table := List.getElem?_mem hg
  have := (List.all_eq_true.mp h) (some bb) hmem
  simpa using this

theorem slotOf_of_getElem {s : gc_state} {i : Nat} {a : Nat}
    (h : s.ref_table[i]? = some (some a)) :
    slotOf s (Int.ofNat i) = some a := by
  rw [slotOf_ofNat, List.getD_eq_getElem?_getD, h]
  rfl

theorem resolve_roundtrip (s : gc_state)
    (hinj : ∀ (x y : reference_t) (bb : Nat), slotOf s x = some bb →
      slotOf s y = some bb → x = y)
    (h : reference_t) (a : Nat) (hs : slotOf s h = some a)
    (hp : is_pool_address s (some a) = true) :
    deref s h = some a ∧ get_ref s a = some h := by
  have h0 : 0 ≤ h := slotOf_nonneg hs
  have hlt : h.toNat < s.ref_table.length := slotOf_lt_length hs
  have h2 : ((h.toNat : Nat) : Int) < ((s.ref_table.length : Nat) : Int) := by
    exact_mod_cast hlt
  rw [Int.toNat_of_nonneg h0] at h2
  constructor
  · unfold deref
    rw [if_pos (show 0 ≤ h ∧ h < Int.ofNat s.ref_table.length from ⟨h0, h2⟩)]
    simp only [hs, hp, if_true]
  · have hg : s.ref_table[h.toNat]? = some (some a) := by
      unfold slotOf at hs
      rw [if_neg (Int.not_lt.mpr h0)] at hs
      exact getD_eq_some hs
    obtain ⟨i, hf, hle, hgi⟩ := findSlotOf_first s.ref_table h.toNat hg
    have hsi : slotOf s (Int.ofNat i) = some a := slotOf_of_getElem hgi
    have heq : Int.ofNat i = h := hinj (Int.ofNat i) h a hsi hs
    unfold get_ref
    rw [hf]
    simpa using heq



theorem slotOf_eq_of_toNat {s : gc_state} {x y : reference_t}
    (hx : 0 ≤ x) (hy : 0 ≤ y) (h : x.toNat = y.toNat) :
    slotOf s x = slotOf s y := by
  unfold slotOf
  rw [if_neg (Int.not_lt.mpr hx), if_neg (Int.not_lt.mpr hy), h]

theorem eq_of_toNat_nonneg {x y : reference_t}
    (hx : 0 ≤ x) (hy : 0 ≤ y) (h : x.toNat = y.toNat) : x = y := by
  rw [← Int.toNat_of_nonneg hx, ← Int.toNat_of_nonneg hy, h]

theorem copy_contentsF_wf :
    ∀ (fuel : Nat) (s : gc_state) (r : reference_t),
      (∀ (x y : reference_t) (bb : Nat), slotOf s x = some bb →
        slotOf s y = some bb → x = y) →
      (∀ (x : reference_t) (bb : Nat), slotOf s x = some bb →
        bb < s.heap.length) →
      ((∀ (x y : reference_t) (bb : Nat),
          slotOf (copy_contentsF fuel s r) x = some bb →
          slotOf (copy_contentsF fuel s r) y = some bb → x = y) ∧
        (∀ (x : reference_t) (bb : Nat),
          slotOf (copy_contentsF fuel s r) x = some bb →
          bb < (copy_contentsF fuel s r).heap.length)) := by
  intro fuel
  induction fuel with
  | zero => intro s r hinj hbnd; exact ⟨hinj, hbnd⟩
  | succ f ih =>
    intro s r hinj hbnd
    by_cases hp : is_pool_address s (slotOf s r) = true
    · have hstep : copy_contentsF (f + 1) s r = s := by
        rw [copy_contentsF]
        simp only [hp, if_true]
      rw [hstep]
      exact ⟨hinj, hbnd⟩
    · have hpf : is_pool_address s (slotOf s r) = false := by
        revert hp
        cases is_pool_address s (slotOf s r) <;> simp
      cases hsr : slotOf s r with
      | none =>
        have hstep : copy_contentsF (f + 1) s r = s := by
          rw [copy_contentsF]
          simp only [hsr, is_pool_none, Bool.false_eq_true, if_false]
        rw [hstep]
        exact ⟨hinj, hbnd⟩
      | some a =>
        have hpsa : is_pool_address s (some a) = false := by
          rw [← hsr]
          exact hpf
        cases hm : mm_malloc s (valAt s a).value_size with
        | none =>
          have hstep : copy_contentsF (f + 1) s r = s := by
            rw [copy_contentsF]
            simp only [hsr, hpsa, Bool.false_eq_true, if_false, hm]
          rw [hstep]
          exact ⟨hinj, hbnd⟩
        | some pr =>
          obtain ⟨a2, s1⟩ := pr
          obtain ⟨ha2, hs1⟩ := mm_malloc_some hm
          have hstep : copy_contentsF (f + 1) s r =
              (child_refs (valAt s a)).foldl (fun x c => copy_contentsF f x c)
                (setSlot (setVal s1 a2 (valAt s a)) r (some a2)) := by
            rw [copy_contentsF]
            simp only [hsr, hpsa, Bool.false_eq_true, if_false, hm]
          rw [hstep]
          have hr0 : 0 ≤ r := slotOf_nonneg hsr
          have hrlt : r.toNat < s.ref_table.length := slotOf_lt_length hsr
          have htab1 : (setVal s1 a2 (valAt s a)).ref_table = s.ref_table := by
            rw [setVal_ref_table, hs1]
          have hslotv : ∀ x : reference_t,
              slotOf (setVal s1 a2 (valAt s a)) x = slotOf s x :=
            fun x => slotOf_congr_table htab1 x
          have hlen3 : (setSlot (setVal s1 a2 (valAt s a)) r
              (some a2)).heap.length = s.heap.length + 1 := by
            rw [show (setSlot (setVal s1 a2 (valAt s a)) r (some a2)).heap =
              (setVal s1 a2 (valAt s a)).heap from by
                unfold setSlot
                by_cases h0 : r < 0 <;> simp [h0]]
            rw [show (setVal s1 a2 (valAt s a)).heap.length = s1.heap.length from
              updBlock_heap_length s1 a2 _]
            rw [hs1]
            simp
          have hslot3 : ∀ x : reference_t,
              slotOf (setSlot (setVal s1 a2 (valAt s a)) r (some a2)) x =
                (if 0 ≤ x ∧ x.toNat = r.toNat then some a2 else slotOf s x) := by
            intro x
            by_cases hx0 : x < 0
            · rw [if_neg (fun hc => absurd hc.1 (Int.not_le.mpr hx0))]
              unfold slotOf setSlot
              by_cases h0 : r < 0 <;> rw [if_pos hx0] <;> simp [h0, hx0]
            · rcases eq_or_ne x.toNat r.toNat with he | hne
              · rw [if_pos ⟨Int.not_lt.mp hx0, he⟩]
                have hxr : x = r := eq_of_toNat_nonneg (Int.not_lt.mp hx0) hr0 he
                subst hxr
                refine slotOf_setSlot_self (some a2) hx0 ?_
                rw [htab1]
                exact he ▸ hrlt
              · rw [if_neg (by
                  intro hcon
                  exact hne hcon.2)]
                rw [slotOf_setSlot_ne _ (some a2) (Or.inl (fun hh => hne hh.symm)),
                  hslotv]
          have hinj3 : ∀ (x y : reference_t) (bb : Nat),
              slotOf (setSlot (setVal s1 a2 (valAt s a)) r (some a2)) x = some bb →
              slotOf (setSlot (setVal s1 a2 (valAt s a)) r (some a2)) y = some bb →
              x = y := by
            intro x y bb hx hy
            rw [hslot3 x] at hx
            rw [hslot3 y] at hy
            by_cases hxr : 0 ≤ x ∧ x.toNat = r.toNat
            · rw [if_pos hxr] at hx
              by_cases hyr : 0 ≤ y ∧ y.toNat = r.toNat
              · exact (eq_of_toNat_nonneg hxr.1 hyr.1 (hxr.2.trans hyr.2.symm))
              · rw [if_neg hyr] at hy
                exfalso
                have hbb : bb = a2 := by injection hx with hh; exact hh.symm
                subst hbb
                have := hbnd y bb hy
                omega
            · rw [if_neg hxr] at hx
              by_cases hyr : 0 ≤ y ∧ y.toNat = r.toNat
              · rw [if_pos hyr] at hy
                exfalso
                have hbb : bb = a2 := by injection hy with hh; exact hh.symm
                subst hbb
                have := hbnd x bb hx
                omega
              · rw [if_neg hyr] at hy
                exact hinj x y bb hx hy
          have hbnd3 : ∀ (x : reference_t) (bb : Nat),
              slotOf (setSlot (setVal s1 a2 (valAt s a)) r (some a2)) x = some bb →
              bb < (setSlot (setVal s1 a2 (valAt s a)) r (some a2)).heap.length := by
            intro x bb hx
            rw [hslot3 x] at hx
            rw [hlen3]
            by_cases hxr : 0 ≤ x ∧ x.toNat = r.toNat
            · rw [if_pos hxr] at hx
              have hbb : bb = a2 := by injection hx with hh; exact hh.symm
              omega
            · rw [if_neg hxr] at hx
              have := hbnd x bb hx
              omega
          have := foldl_inv
            (fun s2 => (∀ (x y : reference_t) (bb : Nat), slotOf s2 x = some bb →
                slotOf s2 y = some bb → x = y) ∧
              (∀ (x : reference_t) (bb : Nat), slotOf s2 x = some bb →
                bb < s2.heap.length))
            (fun x c => copy_contentsF f x c)
            (fun s2 c hP => ih s2 c hP.1 hP.2)
            (child_refs (valAt s a))
            (setSlot (setVal s1 a2 (valAt s a)) r (some a2))
            ⟨hinj3, hbnd3⟩
          exact this




theorem wf_of_sweepStable {s s' : gc_state} (h : sweepStable s s') :
    ((∀ (x y : reference_t) (bb : Nat), slotOf s x = some bb →
        slotOf s y = some bb → x = y) →
      (∀ (x y : reference_t) (bb : Nat), slotOf s' x = some bb →
        slotOf s' y = some bb → x = y)) ∧
      ((∀ (x : reference_t) (bb : Nat), slotOf s x = some bb →
          bb < s.heap.length) →
        (∀ (x : reference_t) (bb : Nat), slotOf s' x = some bb →
          bb < s'.heap.length)) := by
  obtain ⟨_, _, _, hslots, _, hlen⟩ := h
  have hback : ∀ (x : reference_t) (bb : Nat), slotOf s' x = some bb →
      slotOf s x = some bb := by
    intro x bb hx
    cases hslots x with
    | inl e => rw [← e]; exact hx
    | inr e => rw [e] at hx; exact Option.noConfusion hx
  constructor
  · intro hinj x y bb hx hy
    exact hinj x y bb (hback x bb hx) (hback y bb hy)
  · intro hbnd x bb hx
    rw [hlen]
    exact hbnd x bb (hback x bb hx)

theorem mm_init_heap_length (st : gc_state) (r : Bool) :
    (mm_init st r).heap.length = st.heap.length := by
  unfold mm_init
  simp

/-- C4: for every live handle (an in-range slot holding a value located in
the active region) the reverse lookup of the resolved value yields the same
handle number — `handle_of(resolve(h)) = h` — both before a `collect()` call
and after it: collection never changes the handle number of a live value. -/
theorem handle_stability (roots : List reference_t) (st : gc_state)
    (hinjB : slotsInjB st.ref_table = true)
    (hbndB : slotsBoundedB st = true) :
    (∀ (h : reference_t) (a : Nat), slotOf st h = some a →
      is_pool_address st (some a) = true →
      deref st h = some a ∧ get_ref st a = some h) ∧
      (∀ (h : reference_t) (a : Nat),
        slotOf (collect_garbage roots st) h = some a →
        is_pool_address (collect_garbage roots st) (some a) = true →
        deref (collect_garbage roots st) h = some a ∧
          get_ref (collect_garbage roots st) a = some h) := by
  have hinj := slot_inj_of_injB hinjB
  have hbnd := slot_bnd_of_B hbndB
  refine ⟨fun h a hs hp => resolve_roundtrip st hinj h a hs hp, ?_⟩
  have hcg : collect_garbage roots st = ((List.range (roots.foldl (fun s r => copy_contentsF ((mm_init st (!st.active_region)).ref_table.length + 1) s r) (mm_init st (!st.active_region))).ref_table.length).foldl (fun s i => sweepSlot ((mm_init st (!st.active_region)).ref_table.length + 1) s i) (roots.foldl (fun s r => copy_contentsF ((mm_init st (!st.active_region)).ref_table.length + 1) s r) (mm_init st (!st.active_region)))) := by
    simp only [collect_garbage]
  have hslot1 : ∀ x : reference_t, slotOf (mm_init st (!st.active_region)) x = slotOf st x :=
    fun x => slotOf_congr_table (mm_init_ref_table st (!st.active_region)) x
  have hinj1 : ∀ (x y : reference_t) (bb : Nat), slotOf (mm_init st (!st.active_region)) x = some bb →
      slotOf (mm_init st (!st.active_region)) y = some bb → x = y := by
    intro x y bb hx hy
    rw [hslot1 x] at hx
    rw [hslot1 y] at hy
    exact hinj x y bb hx hy
  have hbnd1 : ∀ (x : reference_t) (bb : Nat), slotOf (mm_init st (!st.active_region)) x = some bb →
      bb < (mm_init st (!st.active_region)).heap.length := by
    intro x bb hx
    rw [hslot1 x] at hx
    rw [mm_init_heap_length]
    exact hbnd x bb hx
  have hwf2 := foldl_inv
    (fun s2 => (∀ (x y : reference_t) (bb : Nat), slotOf s2 x = some bb →
        slotOf s2 y = some bb → x = y) ∧
      (∀ (x : reference_t) (bb : Nat), slotOf s2 x = some bb →
        bb < s2.heap.length))
    (fun s2 r => copy_contentsF ((mm_init st (!st.active_region)).ref_table.length + 1) s2 r)
    (fun s2 r hP => copy_contentsF_wf ((mm_init st (!st.active_region)).ref_table.length + 1) s2 r hP.1 hP.2)
    roots (mm_init st (!st.active_region)) ⟨hinj1, hbnd1⟩
  have hsw : sweepStable (roots.foldl (fun s r => copy_contentsF ((mm_init st (!st.active_region)).ref_table.length + 1) s r) (mm_init st (!st.active_region))) ((List.range (roots.foldl (fun s r => copy_contentsF ((mm_init st (!st.active_region)).ref_table.length + 1) s r) (mm_init st (!st.active_region))).ref_table.length).foldl (fun s i => sweepSlot ((mm_init st (!st.active_region)).ref_table.length + 1) s i) (roots.foldl (fun s r => copy_contentsF ((mm_init st (!st.active_region)).ref_table.length + 1) s r) (mm_init st (!st.active_region)))) :=
    foldl_rel sweepStable sweepStable_refl sweepStable_trans
      (fun s2 i => sweepSlot ((mm_init st (!st.active_region)).ref_table.length + 1) s2 i)
      (fun s2 i => sweepSlot_sweepStable ((mm_init st (!st.active_region)).ref_table.length + 1) s2 i)
      (List.range (roots.foldl (fun s r => copy_contentsF ((mm_init st (!st.active_region)).ref_table.length + 1) s r) (mm_init st (!st.active_region))).ref_table.length) (roots.foldl (fun s r => copy_contentsF ((mm_init st (!st.active_region)).ref_table.length + 1) s r) (mm_init st (!st.active_region)))
  have hinjSW := (wf_of_sweepStable hsw).1 hwf2.1
  intro h a hs hp
  rw [hcg] at hs hp ⊢
  exact resolve_roundtrip _ hinjSW h a hs hp

/-- C4 witness: the scalar at handle 0 resolves back to handle 0 before the
collection, and after it (now relocated to address 4) still resolves back to
handle 0. -/
theorem handle_stability_witness :
    (deref demoCycle 0 = some 0 ∧ get_ref demoCycle 0 = some 0) ∧
      (deref (collect_garbage [0, 1, 2] demoCycle) 0 = some 4 ∧
        get_ref (collect_garbage [0, 1, 2] demoCycle) 4 = some 0) :=
  ⟨(handle_stability [0, 1, 2] demoCycle (by decide) (by decide)).1 0 0
      (by decide) (by decide),
    (handle_stability [0, 1, 2] demoCycle (by decide) (by decide)).2 0 4
      (by decide) (by decide)⟩



theorem valAt_mm_init (st : gc_state) (r : Bool) (a : Nat) :
    valAt (mm_init st r) a = valAt st a := by
  unfold valAt mm_init
  simp only [List.getElem?_map]
  cases st.heap[a]? with
  | none => rfl
  | some b =>
    simp only [Option.map_some']
    by_cases h : b.region == r <;> simp [h]

theorem mem_used_mm_init (st : gc_state) (r : Bool) :
    mem_used (mm_init st r) = 0 := by
  unfold mem_used mm_init
  simp only [List.map_map]
  refine List.sum_eq_zero ?_
  intro x hx
  rcases List.mem_map.mp hx with ⟨b, hb, hfb⟩
  rw [← hfb]
  simp only [Function.comp]
  cases h : b.region == r
  · simp [h]
  · simp [h]

theorem mem_used_append_fresh (s : gc_state) (size : Nat) :
    mem_used { s with heap :=
      s.heap ++ [⟨s.active_region, true, freshValue size⟩] } =
      mem_used s + size := by
  unfold mem_used
  simp [freshValue]

theorem mem_used_mm_free_le (s : gc_state) (a : Nat) :
    mem_used (mm_free s a) ≤ mem_used s := by
  cases hb : s.heap[a]? with
  | none =>
    have : mm_free s a = s := by
      unfold mm_free updBlock
      rw [hb]
    rw [this]
  | some b =>
    have hh : (mm_free s a).heap = s.heap.set a { b with allocated := false } := by
      unfold mm_free updBlock
      rw [hb]
    have har : (mm_free s a).active_region = s.active_region :=
      updBlock_active_region s a _
    unfold mem_used
    rw [hh, har]
    have hset := sum_map_set_nat
      (fun blk => if blk.allocated && blk.region == s.active_region
        then blk.val.value_size else 0) s.heap a b { b with allocated := false } hb
    dsimp only at hset
    rw [show (if (false && (b.region == s.active_region)) = true
        then b.val.value_size else 0) = 0 from by simp] at hset
    omega

theorem setSlot_active_region (st : gc_state) (r : reference_t) (p : Option Nat) :
    (setSlot st r p).active_region = st.active_region := by
  unfold setSlot
  by_cases h : r < 0 <;> simp [h]

theorem is_pool_congr_blockAt {s t : gc_state} {b : Nat}
    (hb : blockAt s b = blockAt t b) (ha : s.active_region = t.active_region) :
    is_pool_address s (some b) = is_pool_address t (some b) := by
  rw [is_pool_some, is_pool_some, hb, ha]

theorem slotStale_congr {s t : gc_state} {p : Option Nat}
    (h : ∀ b : Nat, p = some b → blockAt s b = blockAt t b ∧
      s.active_region = t.active_region) :
    slotStale s p = slotStale t p := by
  cases p with
  | none => rfl
  | some b =>
    obtain ⟨hb, ha⟩ := h b rfl
    show (if is_pool_address s (some b) = true then 0 else (valAt s b).value_size) =
      (if is_pool_address t (some b) = true then 0 else (valAt t b).value_size)
    rw [is_pool_congr_blockAt hb ha, valAt_congr_blockAt hb]

theorem staleSum_of_set {s' : gc_state} {t : List (Option Nat)} {i : Nat}
    {pOld pNew : Option Nat}
    (htab : s'.ref_table = t.set i pNew) (hE : t[i]? = some pOld) :
    staleSum s' + slotStale s' pOld =
      (t.map (slotStale s')).sum + slotStale s' pNew := by
  unfold staleSum
  rw [htab]
  exact sum_map_set_nat (slotStale s') t i pOld pNew hE

theorem reloc_accounting (s s1 s3 : gc_state) (ref : reference_t) (a a2 : Nat)
    (hbnd : ∀ (x : reference_t) (bb : Nat), slotOf s x = some bb →
      bb < s.heap.length)
    (hsr : slotOf s ref = some a)
    (hpf : is_pool_address s (some a) = false)
    (hm : mm_malloc s (valAt s a).value_size = some (a2, s1))
    (h3 : s3 = setSlot (setVal s1 a2 (valAt s a)) ref (some a2)) :
    mem_used s3 + staleSum s3 = mem_used s + staleSum s := by
  have h0 : ¬ ref < 0 := Int.not_lt.mpr (slotOf_nonneg hsr)
  have halt : a < s.heap.length := hbnd ref a hsr
  unfold mm_malloc at hm
  by_cases hle : mem_used s + (valAt s a).value_size ≤ s.pool_size
  swap
  · rw [if_neg hle] at hm
    exact absurd hm (by simp)
  rw [if_pos hle] at hm
  have hpair := Option.some.inj hm
  have ha2 : a2 = s.heap.length := (congrArg Prod.fst hpair).symm
  have hs1 : s1 = { s with heap := s.heap ++
      [⟨s.active_region, true, freshValue (valAt s a).value_size⟩] } :=
    (congrArg Prod.snd hpair).symm
  subst ha2
  subst hs1
  have hBat : ({ s with heap := s.heap ++
      [⟨s.active_region, true, freshValue (valAt s a).value_size⟩] } :
        gc_state).heap[s.heap.length]? =
      some ⟨s.active_region, true, freshValue (valAt s a).value_size⟩ := by
    show (s.heap ++
      [⟨s.active_region, true, freshValue (valAt s a).value_size⟩])[s.heap.length]? = _
    simp
  have hactive3 : s3.active_region = s.active_region := by
    rw [h3, setSlot_active_region, setVal_active_region]
  have hblt : ∀ b : Nat, b < s.heap.length → blockAt s3 b = blockAt s b := by
    intro b hb
    rw [h3, blockAt_setSlot, blockAt_setVal_ne _ _ (Nat.ne_of_gt hb)]
    show (s.heap ++
      [⟨s.active_region, true, freshValue (valAt s a).value_size⟩])[b]? = s.heap[b]?
    rw [List.getElem?_append, if_pos hb]
  have htab3 : s3.ref_table = s.ref_table.set ref.toNat (some s.heap.length) := by
    rw [h3]
    unfold setSlot
    rw [if_neg h0]
    show (setVal _ s.heap.length (valAt s a)).ref_table.set ref.toNat
      (some s.heap.length) = _
    rw [setVal_ref_table]
  have hE : s.ref_table[ref.toNat]? = some (some a) := by
    unfold slotOf at hsr
    rw [if_neg h0] at hsr
    exact getD_eq_some hsr
  have hb3 : blockAt s3 s.heap.length =
      some ⟨s.active_region, true, valAt s a⟩ := by
    rw [h3, blockAt_setSlot]
    exact blockAt_updBlock_self (fun b => { b with val := valAt s a }) hBat
  have hpool_new : is_pool_address s3 (some s.heap.length) = true := by
    rw [is_pool_some, hb3, hactive3]
    simp
  have hnew : slotStale s3 (some s.heap.length) = 0 := by
    show (if is_pool_address s3 (some s.heap.length) = true then 0
      else (valAt s3 s.heap.length).value_size) = 0
    rw [hpool_new]
    simp
  have hold2 : slotStale s3 (some a) = (valAt s a).value_size := by
    show (if is_pool_address s3 (some a) = true then 0
      else (valAt s3 a).value_size) = (valAt s a).value_size
    rw [is_pool_congr_blockAt (hblt a halt) hactive3, hpf,
      valAt_congr_blockAt (hblt a halt)]
    simp
  have hscongr : ∀ p ∈ s.ref_table, slotStale s3 p = slotStale s p := by
    intro p hp
    refine slotStale_congr ?_
    intro b hpb
    subst hpb
    obtain ⟨j, hj⟩ := List.mem_iff_getElem?.mp hp
    have hbj := hbnd (Int.ofNat j) b (slotOf_of_getElem hj)
    exact ⟨hblt b hbj, hactive3⟩
  have hmapeq : (s.ref_table.map (slotStale s3)).sum = staleSum s := by
    unfold staleSum
    rw [List.map_congr_left hscongr]
  have hkey := staleSum_of_set htab3 hE
  rw [hold2, hnew, hmapeq] at hkey
  have hmem : mem_used s3 = mem_used s + (valAt s a).value_size := by
    rw [h3, mem_used_setSlot, mem_used_setVal (valAt s a) hBat rfl]
    exact mem_used_append_fresh s (valAt s a).value_size
  omega

theorem reloc_step_wf (s s1 : gc_state) (r : reference_t) (a a2 : Nat)
    (hinj : ∀ (x y : reference_t) (bb : Nat), slotOf s x = some bb →
      slotOf s y = some bb → x = y)
    (hbnd : ∀ (x : reference_t) (bb : Nat), slotOf s x = some bb →
      bb < s.heap.length)
    (hsr : slotOf s r = some a)
    (hm : mm_malloc s (valAt s a).value_size = some (a2, s1)) :
    (∀ (x y : reference_t) (bb : Nat),
        slotOf (setSlot (setVal s1 a2 (valAt s a)) r (some a2)) x = some bb →
        slotOf (setSlot (setVal s1 a2 (valAt s a)) r (some a2)) y = some bb →
        x = y) ∧
      (∀ (x : reference_t) (bb : Nat),
        slotOf (setSlot (setVal s1 a2 (valAt s a)) r (some a2)) x = some bb →
        bb < (setSlot (setVal s1 a2 (valAt s a)) r (some a2)).heap.length) := by
  obtain ⟨ha2, hs1⟩ := mm_malloc_some hm
  have hr0 : 0 ≤ r := slotOf_nonneg hsr
  have hrlt : r.toNat < s.ref_table.length := slotOf_lt_length hsr
  have htab1 : (setVal s1 a2 (valAt s a)).ref_table = s.ref_table := by
    rw [setVal_ref_table, hs1]
  have hslotv : ∀ x : reference_t,
      slotOf (setVal s1 a2 (valAt s a)) x = slotOf s x :=
    fun x => slotOf_congr_table htab1 x
  have hlen3 : (setSlot (setVal s1 a2 (valAt s a)) r
      (some a2)).heap.length = s.heap.length + 1 := by
    rw [show (setSlot (setVal s1 a2 (valAt s a)) r (some a2)).heap =
      (setVal s1 a2 (valAt s a)).heap from by
        unfold setSlot
        by_cases h0 : r < 0 <;> simp [h0]]
    rw [show (setVal s1 a2 (valAt s a)).heap.length = s1.heap.length from
      updBlock_heap_length s1 a2 _]
    rw [hs1]
    simp
  have hslot3 : ∀ x : reference_t,
      slotOf (setSlot (setVal s1 a2 (valAt s a)) r (some a2)) x =
        (if 0 ≤ x ∧ x.toNat = r.toNat then some a2 else slotOf s x) := by
    intro x
    by_cases hx0 : x < 0
    · rw [if_neg (fun hc => absurd hc.1 (Int.not_le.mpr hx0))]
      unfold slotOf setSlot
      by_cases h0 : r < 0 <;> rw [if_pos hx0] <;> simp [h0, hx0]
    · rcases eq_or_ne x.toNat r.toNat with he | hne
      · rw [if_pos ⟨Int.not_lt.mp hx0, he⟩]
        have hxr : x = r := eq_of_toNat_nonneg (Int.not_lt.mp hx0) hr0 he
        subst hxr
        refine slotOf_setSlot_self (some a2) hx0 ?_
        rw [htab1]
        exact he ▸ hrlt
      · rw [if_neg (by
          intro hcon
          exact hne hcon.2)]
        rw [slotOf_setSlot_ne _ (some a2) (Or.inl (fun hh => hne hh.symm)),
          hslotv]
  have ha2len : a2 = s.heap.length := ha2
  constructor
  · intro x y bb hx hy
    rw [hslot3 x] at hx
    rw [hslot3 y] at hy
    by_cases hxr : 0 ≤ x ∧ x.toNat = r.toNat
    · rw [if_pos hxr] at hx
      by_cases hyr : 0 ≤ y ∧ y.toNat = r.toNat
      · exact (eq_of_toNat_nonneg hxr.1 hyr.1 (hxr.2.trans hyr.2.symm))
      · rw [if_neg hyr] at hy
        exfalso
        have hbb : bb = a2 := by injection hx with hh; exact hh.symm
        subst hbb
        have := hbnd y bb hy
        omega
    · rw [if_neg hxr] at hx
      by_cases hyr : 0 ≤ y ∧ y.toNat = r.toNat
      · rw [if_pos hyr] at hy
        exfalso
        have hbb : bb = a2 := by injection hy with hh; exact hh.symm
        subst hbb
        have := hbnd x bb hx
        omega
      · rw [if_neg hyr] at hy
        exact hinj x y bb hx hy
  · intro x bb hx
    rw [hslot3 x] at hx
    rw [hlen3]
    by_cases hxr : 0 ≤ x ∧ x.toNat = r.toNat
    · rw [if_pos hxr] at hx
      have hbb : bb = a2 := by injection hx with hh; exact hh.symm
      omega
    · rw [if_neg hxr] at hx
      have := hbnd x bb hx
      omega

theorem copy_contentsF_mem :
    ∀ (fuel : Nat) (s : gc_state) (r : reference_t),
      (∀ (x y : reference_t) (bb : Nat), slotOf s x = some bb →
        slotOf s y = some bb → x = y) →
      (∀ (x : reference_t) (bb : Nat), slotOf s x = some bb →
        bb < s.heap.length) →
      mem_used (copy_contentsF fuel s r) + staleSum (copy_contentsF fuel s r) =
        mem_used s + staleSum s := by
  intro fuel
  induction fuel with
  | zero => intro s r _ _; rfl
  | succ f ih =>
    intro s r hinj hbnd
    by_cases hp : is_pool_address s (slotOf s r) = true
    · have hstep : copy_contentsF (f + 1) s r = s := by
        rw [copy_contentsF]
        simp only [hp, if_true]
      rw [hstep]
    · have hpf : is_pool_address s (slotOf s r) = false := by
        revert hp
        cases is_pool_address s (slotOf s r) <;> simp
      cases hsr : slotOf s r with
      | none =>
        have hstep : copy_contentsF (f + 1) s r = s := by
          rw [copy_contentsF]
          simp only [hsr, is_pool_none, Bool.false_eq_true, if_false]
        rw [hstep]
      | some a =>
        have hpsa : is_pool_address s (some a) = false := by
          rw [← hsr]
          exact hpf
        cases hm : mm_malloc s (valAt s a).value_size with
        | none =>
          have hstep : copy_contentsF (f + 1) s r = s := by
            rw [copy_contentsF]
            simp only [hsr, hpsa, Bool.false_eq_true, if_false, hm]
          rw [hstep]
        | some pr =>
          obtain ⟨a2, s1⟩ := pr
          have hstep : copy_contentsF (f + 1) s r =
              (child_refs (valAt s a)).foldl (fun x c => copy_contentsF f x c)
                (setSlot (setVal s1 a2 (valAt s a)) r (some a2)) := by
            rw [copy_contentsF]
            simp only [hsr, hpsa, Bool.false_eq_true, if_false, hm]
          rw [hstep]
          obtain ⟨hinj3, hbnd3⟩ := reloc_step_wf s s1 r a a2 hinj hbnd hsr hm
          have hacc := reloc_accounting s s1
            (setSlot (setVal s1 a2 (valAt s a)) r (some a2)) r a a2
            hbnd hsr hpsa hm rfl
          have hfold := foldl_inv
            (fun s2 => ((∀ (x y : reference_t) (bb : Nat), slotOf s2 x = some bb →
                slotOf s2 y = some bb → x = y) ∧
              (∀ (x : reference_t) (bb : Nat), slotOf s2 x = some bb →
                bb < s2.heap.length)) ∧
              mem_used s2 + staleSum s2 = mem_used s + staleSum s)
            (fun x c => copy_contentsF f x c)
            (fun s2 c hP => ⟨copy_contentsF_wf f s2 c hP.1.1 hP.1.2,
              (ih s2 c hP.1.1 hP.1.2).trans hP.2⟩)
            (child_refs (valAt s a))
            (setSlot (setVal s1 a2 (valAt s a)) r (some a2))
            ⟨⟨hinj3, hbnd3⟩, hacc⟩
          exact hfold.2

theorem decrefF_mem_le :
    ∀ (fuel : Nat) (s : gc_state) (r : reference_t),
      mem_used (decrefF fuel s r) ≤ mem_used s := by
  intro fuel
  induction fuel with
  | zero => intro s r; exact Nat.le_refl _
  | succ f ih =>
    intro s r
    by_cases hp : is_pool_address s (slotOf s r) = true
    · cases hsr : slotOf s r with
      | none => rw [hsr] at hp; simp [is_pool_address] at hp
      | some a =>
        have hpa : is_pool_address s (some a) = true := by rw [← hsr]; exact hp
        obtain ⟨b, hb, _⟩ := is_pool_block s a hpa
        have hsv : mem_used (setVal s a
            { valAt s a with ref_count := usub1 (valAt s a).ref_count }) =
            mem_used s := by
          refine mem_used_setVal _ hb ?_
          show (valAt s a).value_size = b.val.value_size
          unfold valAt
          rw [hb]
        by_cases hcnt : 0 < usub1 (valAt s a).ref_count
        · have hstep : decrefF (f + 1) s r =
              setVal s a
                { valAt s a with ref_count := usub1 (valAt s a).ref_count } := by
            rw [decrefF]
            simp only [hsr, hp, hpa, if_true, hcnt, if_pos]
          rw [hstep, hsv]
        · have hcf : (0 < usub1 (valAt s a).ref_count) = False := eq_false hcnt
          have hstep : decrefF (f + 1) s r =
              mm_free
                ((child_refs
                    { valAt s a with ref_count := usub1 (valAt s a).ref_count }).foldl
                  (fun x c => decrefF f x c)
                  (setSlot
                    (setVal s a
                      { valAt s a with ref_count := usub1 (valAt s a).ref_count })
                    r none)) a := by
            rw [decrefF]
            simp only [hsr, hp, hpa, if_true, hcf, if_false]
          rw [hstep]
          have h1 := mem_used_mm_free_le
            ((child_refs
                { valAt s a with ref_count := usub1 (valAt s a).ref_count }).foldl
              (fun x c => decrefF f x c)
              (setSlot
                (setVal s a
                  { valAt s a with ref_count := usub1 (valAt s a).ref_count })
                r none)) a
          have h2 := foldl_rel (fun x y => mem_used y ≤ mem_used x)
            (fun x => Nat.le_refl _)
            (fun x y z hxy hyz => Nat.le_trans hyz hxy)
            (fun x c => decrefF f x c) (fun x c => ih x c)
            (child_refs { valAt s a with ref_count := usub1 (valAt s a).ref_count })
            (setSlot
              (setVal s a
                { valAt s a with ref_count := usub1 (valAt s a).ref_count }) r none)
          have h3 : mem_used (setSlot
              (setVal s a
                { valAt s a with ref_count := usub1 (valAt s a).ref_count }) r none) =
              mem_used s := by
            rw [mem_used_setSlot, hsv]
          omega
    · have hf : is_pool_address s (slotOf s r) = false := by
        revert hp
        cases is_pool_address s (slotOf s r) <;> simp
      rw [decrefF_not_pool _ hf]

theorem traverse_decref_mem_le (fuel : Nat) (s : gc_state) (v : value_t) :
    mem_used (traverse_decref fuel s v) ≤ mem_used s :=
  foldl_rel (fun x y => mem_used y ≤ mem_used x)
    (fun x => Nat.le_refl _)
    (fun x y z hxy hyz => Nat.le_trans hyz hxy)
    (fun x c => decrefF fuel x c) (fun x c => decrefF_mem_le fuel x c)
    (child_refs v) s

theorem sweepSlot_mem_le (fuel : Nat) (s : gc_state) (i : Nat) :
    mem_used (sweepSlot fuel s i) ≤ mem_used s := by
  cases hg : s.ref_table.getD i none with
  | none =>
    have hstep : sweepSlot fuel s i = s := by
      unfold sweepSlot
      rw [hg]
    rw [hstep]
  | some a =>
    by_cases hp : is_pool_address s (some a) = true
    · have hstep : sweepSlot fuel s i = s := by
        unfold sweepSlot
        rw [hg]
        simp only [hp, if_true]
      rw [hstep]
    · have hpf : is_pool_address s (some a) = false := by
        revert hp
        cases is_pool_address s (some a) <;> simp
      have hstep : sweepSlot fuel s i =
          setSlot (traverse_decref fuel s (valAt s a)) (Int.ofNat i) none := by
        unfold sweepSlot
        rw [hg]
        simp only [hpf, Bool.false_eq_true, if_false]
      rw [hstep, mem_used_setSlot]
      exact traverse_decref_mem_le fuel s (valAt s a)

theorem slot_sizes_le_mem_used :
    ∀ (t : List (Option Nat)) (s : gc_state),
      slotsInjB t = true →
      (∀ b : Nat, (some b) ∈ t → ∃ blk : block_t, s.heap[b]? = some blk ∧
        blk.allocated = true ∧ blk.region = s.active_region) →
      (t.map (fun p => match p with
        | some b => (valAt s b).value_size
        | none => 0)).sum ≤ mem_used s := by
  intro t
  induction t with
  | nil =>
    intro s _ _
    simp only [List.map_nil, List.sum_nil]
    exact Nat.zero_le _
  | cons hd tl ih =>
    intro s hinj hlive
    cases hd with
    | none =>
      simp only [List.map_cons, List.sum_cons]
      have hinj2 : slotsInjB tl = true := by simpa [slotsInjB] using hinj
      have := ih s hinj2 (fun b hb => hlive b (List.mem_cons_of_mem _ hb))
      omega
    | some b =>
      simp only [List.map_cons, List.sum_cons]
      have hpair : tl.contains (some b) = false ∧ slotsInjB tl = true := by
        have := hinj
        simp [slotsInjB] at this
        exact ⟨by simpa using this.1, this.2⟩
      obtain ⟨blk, hb, hal, hr⟩ := hlive b (List.mem_cons_self _ _)
      have hsplit := mem_used_mm_free_alloc hb hal hr
      have hlive2 : ∀ c : Nat, (some c) ∈ tl → ∃ blk2 : block_t,
          (mm_free s b).heap[c]? = some blk2 ∧ blk2.allocated = true ∧
            blk2.region = (mm_free s b).active_region := by
        intro c hc
        have hcb : b ≠ c := by
          intro he
          subst he
          have hct : tl.contains (some b) = true := List.elem_eq_true_of_mem hc
          rw [hct] at hpair
          exact Bool.noConfusion hpair.1
        obtain ⟨blk2, hb2, hal2, hr2⟩ := hlive c (List.mem_cons_of_mem _ hc)
        refine ⟨blk2, ?_, hal2, ?_⟩
        · have hpres := blockAt_mm_free_ne s hcb
          unfold blockAt at hpres
          rw [hpres, hb2]
        · rw [mm_free_active_region]
          exact hr2
      have hih := ih (mm_free s b) hpair.2 hlive2
      have hfeq : (fun p => match p with
          | some c => (valAt (mm_free s b) c).value_size
          | none => 0) = (fun p : Option Nat => match p with
          | some c => (valAt s c).value_size
          | none => 0) := by
        funext p
        cases p with
        | none => rfl
        | some c =>
          show (valAt (mm_free s b) c).value_size = (valAt s c).value_size
          rw [valAt_mm_free]
      rw [hfeq] at hih
      have hhd : (valAt s b).value_size = blk.val.value_size := by
        unfold valAt
        rw [hb]
      omega

theorem staleSum_mm_init_le (st : gc_state) (r : Bool)
    (hinjB : slotsInjB st.ref_table = true)
    (hliveB : slotsLiveB st = true) :
    staleSum (mm_init st r) ≤ mem_used st := by
  have htab : (mm_init st r).ref_table = st.ref_table := rfl
  unfold staleSum
  rw [htab]
  have h1 : ∀ p ∈ st.ref_table, slotStale (mm_init st r) p ≤
      (fun p : Option Nat => match p with
        | some b => (valAt st b).value_size
        | none => 0) p := by
    intro p hp
    cases p with
    | none => exact Nat.le_refl _
    | some b =>
      show (if is_pool_address (mm_init st r) (some b) = true then 0
        else (valAt (mm_init st r) b).value_size) ≤ (valAt st b).value_size
      rw [valAt_mm_init]
      by_cases hq : is_pool_address (mm_init st r) (some b) = true
      · rw [if_pos hq]
        exact Nat.zero_le _
      · rw [if_neg hq]
  refine Nat.le_trans (List.sum_le_sum h1) ?_
  refine slot_sizes_le_mem_used st.ref_table st hinjB ?_
  intro b hbm
  have h2 := List.all_eq_true.mp hliveB (some b) hbm
  have h3 : (match st.heap[b]? with
    | some blk =>
      blk.allocated && (blk.region == st.active_region) &&
        decide (1 ≤ blk.val.ref_count) && decide (blk.val.ref_count < UWIDTH)
    | none => false) = true := h2
  cases hb : st.heap[b]? with
  | none =>
    rw [hb] at h3
    exact Bool.noConfusion h3
  | some blk =>
    rw [hb] at h3
    simp only [Bool.and_eq_true, beq_iff_eq] at h3
    exact ⟨blk, rfl, h3.1.1.1, h3.1.1.2⟩

/-- C8 counterexample: `bytes_in_use()` does not strictly decrease across
every `collect()` call.  In `cex1` the only value (a 32-byte scalar at handle
0) is a root, so the collection relocates it and reclaims nothing: `mem_used`
is exactly the same before and after. -/
theorem collect_mem_used_not_strict_cex :
    mem_used (collect_garbage [0] cex1) = mem_used cex1 ∧
      mem_used cex1 = 32 := by
  exact ⟨by decide, by decide⟩

/-- C8 (amended): across a `collect()` call `bytes_in_use()` never increases;
it drops by the total size of the values reclaimed during the cycle, which is
zero when every value is reachable from a root, so the decrease is not strict
in general.  Hypotheses: the entry state has injective, in-bounds table slots,
each designating an allocated block of the active region. -/
theorem collect_mem_used_le (roots : List reference_t) (st : gc_state)
    (hinjB : slotsInjB st.ref_table = true)
    (hbndB : slotsBoundedB st = true)
    (hliveB : slotsLiveB st = true) :
    mem_used (collect_garbage roots st) ≤ mem_used st := by
  have hinj := slot_inj_of_injB hinjB
  have hbnd := slot_bnd_of_B hbndB
  have hcg : collect_garbage roots st = ((List.range (roots.foldl (fun s r => copy_contentsF ((mm_init st (!st.active_region)).ref_table.length + 1) s r) (mm_init st (!st.active_region))).ref_table.length).foldl (fun s i => sweepSlot ((mm_init st (!st.active_region)).ref_table.length + 1) s i) (roots.foldl (fun s r => copy_contentsF ((mm_init st (!st.active_region)).ref_table.length + 1) s r) (mm_init st (!st.active_region)))) := by
    simp only [collect_garbage]
  have hslot1 : ∀ x : reference_t, slotOf (mm_init st (!st.active_region)) x = slotOf st x :=
    fun x => slotOf_congr_table (mm_init_ref_table st (!st.active_region)) x
  have hinj1 : ∀ (x y : reference_t) (bb : Nat), slotOf (mm_init st (!st.active_region)) x = some bb →
      slotOf (mm_init st (!st.active_region)) y = some bb → x = y := by
    intro x y bb hx hy
    rw [hslot1 x] at hx
    rw [hslot1 y] at hy
    exact hinj x y bb hx hy
  have hbnd1 : ∀ (x : reference_t) (bb : Nat), slotOf (mm_init st (!st.active_region)) x = some bb →
      bb < (mm_init st (!st.active_region)).heap.length := by
    intro x bb hx
    rw [hslot1 x] at hx
    rw [mm_init_heap_length]
    exact hbnd x bb hx
  have hP := foldl_inv
    (fun s2 => ((∀ (x y : reference_t) (bb : Nat), slotOf s2 x = some bb →
        slotOf s2 y = some bb → x = y) ∧
      (∀ (x : reference_t) (bb : Nat), slotOf s2 x = some bb →
        bb < s2.heap.length)) ∧
      mem_used s2 + staleSum s2 = mem_used (mm_init st (!st.active_region)) + staleSum (mm_init st (!st.active_region)))
    (fun s2 r => copy_contentsF ((mm_init st (!st.active_region)).ref_table.length + 1) s2 r)
    (fun s2 r hPp => ⟨copy_contentsF_wf ((mm_init st (!st.active_region)).ref_table.length + 1) s2 r hPp.1.1 hPp.1.2,
      (copy_contentsF_mem ((mm_init st (!st.active_region)).ref_table.length + 1) s2 r hPp.1.1 hPp.1.2).trans hPp.2⟩)
    roots (mm_init st (!st.active_region)) ⟨⟨hinj1, hbnd1⟩, rfl⟩
  have hmem1 : mem_used (mm_init st (!st.active_region)) = 0 := mem_used_mm_init st (!st.active_region)
  have hstale1 : staleSum (mm_init st (!st.active_region)) ≤ mem_used st :=
    staleSum_mm_init_le st (!st.active_region) hinjB hliveB
  have hswle : mem_used ((List.range (roots.foldl (fun s r => copy_contentsF ((mm_init st (!st.active_region)).ref_table.length + 1) s r) (mm_init st (!st.active_region))).ref_table.length).foldl (fun s i => sweepSlot ((mm_init st (!st.active_region)).ref_table.length + 1) s i) (roots.foldl (fun s r => copy_contentsF ((mm_init st (!st.active_region)).ref_table.length + 1) s r) (mm_init st (!st.active_region)))) ≤ mem_used (roots.foldl (fun s r => copy_contentsF ((mm_init st (!st.active_region)).ref_table.length + 1) s r) (mm_init st (!st.active_region))) :=
    foldl_rel (fun x y => mem_used y ≤ mem_used x)
      (fun x => Nat.le_refl _) (fun x y z hxy hyz => Nat.le_trans hyz hxy)
      (fun s i => sweepSlot ((mm_init st (!st.active_region)).ref_table.length + 1) s i) (fun s i => sweepSlot_mem_le ((mm_init st (!st.active_region)).ref_table.length + 1) s i)
      (List.range (roots.foldl (fun s r => copy_contentsF ((mm_init st (!st.active_region)).ref_table.length + 1) s r) (mm_init st (!st.active_region))).ref_table.length) (roots.foldl (fun s r => copy_contentsF ((mm_init st (!st.active_region)).ref_table.length + 1) s r) (mm_init st (!st.active_region)))
  have h2 := hP.2
  rw [hcg]
  omega

/-- C8 witness: the four-value cycle state satisfies all three hypotheses and
its collection does not increase `bytes_in_use()`. -/
theorem collect_mem_used_le_witness :
    slotsInjB demoCycle.ref_table = true ∧ slotsBoundedB demoCycle = true ∧
      slotsLiveB demoCycle = true ∧
      mem_used (collect_garbage [0, 1, 2] demoCycle) ≤ mem_used demoCycle :=
  ⟨by decide, by decide, by decide,
    collect_mem_used_le [0, 1, 2] demoCycle (by decide) (by decide) (by decide)⟩



theorem sum_range_congr_except (f g : Nat → Nat) :
    ∀ (n i : Nat), i < n → (∀ j, j < n → j ≠ i → f j = g j) →
      ((List.range n).map f).sum + g i = ((List.range n).map g).sum + f i := by
  intro n
  induction n with
  | zero => intro i hi; omega
  | succ m ih =>
    intro i hi hfg
    rw [List.range_succ, List.map_append, List.map_append, List.sum_append,
      List.sum_append]
    simp only [List.map_cons, List.map_nil, List.sum_cons, List.sum_nil]
    rcases Nat.lt_or_ge i m with him | him
    · have hfm : f m = g m := hfg m (Nat.lt_succ_self m) (by omega)
      have := ih i him (fun j hj hne => hfg j (by omega) hne)
      omega
    · have him2 : i = m := by omega
      subst him2
      have hcongr : (List.range i).map f = (List.range i).map g := by
        refine List.map_congr_left ?_
        intro j hj
        exact hfg j (by
          have := List.mem_range.mp hj
          omega) (by
          have := List.mem_range.mp hj
          omega)
      rw [hcongr]
      omega

theorem sum_range_map_le (f g : Nat → Nat) :
    ∀ n : Nat, (∀ j, j < n → f j ≤ g j) →
      ((List.range n).map f).sum ≤ ((List.range n).map g).sum := by
  intro n
  induction n with
  | zero => intro _; simp
  | succ m ih =>
    intro h
    rw [List.range_succ, List.map_append, List.map_append, List.sum_append,
      List.sum_append]
    simp only [List.map_cons, List.map_nil, List.sum_cons, List.sum_nil]
    have h1 := ih (fun j hj => h j (by omega))
    have h2 := h m (Nat.lt_succ_self m)
    omega

theorem sum_range_le_const (f : Nat → Nat) :
    ∀ n : Nat, (∀ j, j < n → f j ≤ 1) → ((List.range n).map f).sum ≤ n := by
  intro n
  induction n with
  | zero => intro _; simp
  | succ m ih =>
    intro h
    rw [List.range_succ, List.map_append, List.sum_append]
    simp only [List.map_cons, List.map_nil, List.sum_cons, List.sum_nil]
    have h1 := ih (fun j hj => h j (by omega))
    have h2 := h m (Nat.lt_succ_self m)
    omega

theorem term_le_sum_range (f : Nat → Nat) :
    ∀ (n i : Nat), i < n → f i ≤ ((List.range n).map f).sum := by
  intro n
  induction n with
  | zero => intro i hi; omega
  | succ m ih =>
    intro i hi
    rw [List.range_succ, List.map_append, List.sum_append]
    simp only [List.map_cons, List.map_nil, List.sum_cons, List.sum_nil]
    rcases Nat.lt_or_ge i m with him | him
    · have := ih i him
      omega
    · have : i = m := by omega
      subst this
      omega

theorem entry_le_sum_map {α : Type} (f : α → Nat) :
    ∀ (l : List α) (i : Nat) (b : α), l[i]? = some b → f b ≤ (l.map f).sum := by
  intro l
  induction l with
  | nil => intro i b hb; simp at hb
  | cons hd tl ih =>
    intro i b hb
    simp only [List.map_cons, List.sum_cons]
    cases i with
    | zero =>
      have : hd = b := by simpa using hb
      subst this
      omega
    | succ i2 =>
      have := ih i2 b (by simpa using hb)
      omega

theorem slotStale_le_staleSum {s : gc_state} {i : Nat} {p : Option Nat}
    (h : s.ref_table[i]? = some p) : slotStale s p ≤ staleSum s :=
  entry_le_sum_map (slotStale s) s.ref_table i p h

theorem is_pool_mono {s s' : gc_state} (hc : copyStable s s') {b : Nat}
    (hp : is_pool_address s (some b) = true) :
    is_pool_address s' (some b) = true := by
  obtain ⟨blk, hblk, hr⟩ := is_pool_block s b hp
  have hpres : blockAt s' b = some blk := hc.2.2.2 b blk hblk
  rw [is_pool_some, hpres, hc.2.1]
  simp [hr]

theorem mm_malloc_ok {s : gc_state} {sz : Nat}
    (h : mem_used s + sz ≤ s.pool_size) :
    mm_malloc s sz = some (s.heap.length,
      { s with heap := s.heap ++ [⟨s.active_region, true, freshValue sz⟩] }) := by
  unfold mm_malloc
  rw [if_pos h]

theorem copyStep_refl (s : gc_state) : copyStep s s :=
  ⟨copyStable_refl s, fun _ h => h, fun _ _ h _ => h, Nat.le_refl _⟩

theorem copyStep_trans {s1 s2 s3 : gc_state} (h12 : copyStep s1 s2)
    (h23 : copyStep s2 s3) : copyStep s1 s3 := by
  refine ⟨copyStable_trans _ _ _ h12.1 h23.1, ?_, ?_, Nat.le_trans h23.2.2.2 h12.2.2.2⟩
  · intro x hx
    exact h23.2.1 x (h12.2.1 x hx)
  · intro x b hx hp
    have h2 := h12.2.2.1 x b hx hp
    exact h23.2.2.1 x b h2 (is_pool_mono h12.1 hp)

theorem slotSettled_mono {s s' : gc_state} (hstep : copyStep s s')
    {r : reference_t} (h : slotSettled s r) : slotSettled s' r := by
  cases h with
  | inl hn => exact Or.inl (hstep.2.1 r hn)
  | inr hp =>
    obtain ⟨b, hb, hpb⟩ := hp
    exact Or.inr ⟨b, hstep.2.2.1 r b hb hpb, is_pool_mono hstep.1 hpb⟩

theorem setSlot_heap (st : gc_state) (r : reference_t) (p : Option Nat) :
    (setSlot st r p).heap = st.heap := by
  unfold setSlot
  by_cases h : r < 0 <;> simp [h]

theorem setSlot_pool_size (st : gc_state) (r : reference_t) (p : Option Nat) :
    (setSlot st r p).pool_size = st.pool_size := by
  unfold setSlot
  by_cases h : r < 0 <;> simp [h]

theorem setVal_pool_size (st : gc_state) (a : Nat) (v : value_t) :
    (setVal st a v).pool_size = st.pool_size := updBlock_pool_size st a _

theorem reloc_facts (s s1 s3 : gc_state) (ref : reference_t) (a a2 : Nat)
    (hbnd : slotBnd s)
    (hsr : slotOf s ref = some a)
    (hpsa : is_pool_address s (some a) = false)
    (hm : mm_malloc s (valAt s a).value_size = some (a2, s1))
    (h3 : s3 = setSlot (setVal s1 a2 (valAt s a)) ref (some a2)) :
    copyStable s s3 ∧
      (∀ x : reference_t, slotOf s3 x =
        (if 0 ≤ x ∧ x.toNat = ref.toNat then some a2 else slotOf s x)) ∧
      blockAt s3 a2 = some ⟨s.active_region, true, valAt s a⟩ ∧
      a2 = s.heap.length ∧
      (∀ b : Nat, b < s.heap.length → blockAt s3 b = blockAt s b) ∧
      s3.active_region = s.active_region ∧
      staleUsed s3 + 1 = staleUsed s ∧
      s3.pool_size = s.pool_size ∧
      s3.ref_table = s.ref_table.set ref.toNat (some a2) := by
  have h0 : ¬ ref < 0 := Int.not_lt.mpr (slotOf_nonneg hsr)
  have hr0 : (0 : Int) ≤ ref := Int.not_lt.mp h0
  have hrlt : ref.toNat < s.ref_table.length := slotOf_lt_length hsr
  have halt : a < s.heap.length := hbnd ref a hsr
  obtain ⟨ha2, hs1⟩ := mm_malloc_some hm
  subst ha2
  subst hs1
  have hBat : ({ s with heap := s.heap ++
      [⟨s.active_region, true, freshValue (valAt s a).value_size⟩] } :
        gc_state).heap[s.heap.length]? =
      some ⟨s.active_region, true, freshValue (valAt s a).value_size⟩ := by
    show (s.heap ++
      [⟨s.active_region, true, freshValue (valAt s a).value_size⟩])[s.heap.length]? = _
    simp
  have hactive3 : s3.active_region = s.active_region := by
    rw [h3, setSlot_active_region, setVal_active_region]
  have hblt : ∀ b : Nat, b < s.heap.length → blockAt s3 b = blockAt s b := by
    intro b hb
    rw [h3, blockAt_setSlot, blockAt_setVal_ne _ _ (Nat.ne_of_gt hb)]
    show (s.heap ++
      [⟨s.active_region, true, freshValue (valAt s a).value_size⟩])[b]? = s.heap[b]?
    rw [List.getElem?_append, if_pos hb]
  have htab3 : s3.ref_table = s.ref_table.set ref.toNat (some s.heap.length) := by
    rw [h3]
    unfold setSlot
    rw [if_neg h0]
    show (setVal _ s.heap.length (valAt s a)).ref_table.set ref.toNat
      (some s.heap.length) = _
    rw [setVal_ref_table]
  have hb3 : blockAt s3 s.heap.length =
      some ⟨s.active_region, true, valAt s a⟩ := by
    rw [h3, blockAt_setSlot]
    exact blockAt_updBlock_self (fun b => { b with val := valAt s a }) hBat
  have hlen3 : s3.heap.length = s.heap.length + 1 := by
    rw [h3, setSlot_heap]
    rw [show (setVal { s with heap := s.heap ++
        [⟨s.active_region, true, freshValue (valAt s a).value_size⟩] }
        s.heap.length (valAt s a)).heap.length =
      ({ s with heap := s.heap ++
        [⟨s.active_region, true, freshValue (valAt s a).value_size⟩] } :
          gc_state).heap.length from
      updBlock_heap_length _ s.heap.length _]
    simp
  have hcs : copyStable s s3 := by
    refine ⟨?_, hactive3, ?_, ?_⟩
    · rw [htab3]
      simp
    · omega
    · intro x b hxb
      have hx : x < s.heap.length := by
        unfold blockAt at hxb
        exact (List.getElem?_eq_some.mp hxb).1
      rw [hblt x hx]
      exact hxb
  have hslot3 : ∀ x : reference_t, slotOf s3 x =
      (if 0 ≤ x ∧ x.toNat = ref.toNat then some s.heap.length
        else slotOf s x) := by
    intro x
    by_cases hx0 : x < 0
    · rw [if_neg (fun hc => absurd hc.1 (Int.not_le.mpr hx0))]
      unfold slotOf
      rw [htab3]
      rw [if_pos hx0, if_pos hx0]
    · rcases eq_or_ne x.toNat ref.toNat with he | hne
      · rw [if_pos ⟨Int.not_lt.mp hx0, he⟩]
        have hxr : x = ref := eq_of_toNat_nonneg (Int.not_lt.mp hx0) hr0 he
        subst hxr
        unfold slotOf
        rw [if_neg hx0, htab3, List.getD_eq_getElem?_getD, he,
          List.getElem?_set_self hrlt]
        rfl
      · rw [if_neg (fun hc => hne hc.2)]
        unfold slotOf
        rw [if_neg hx0, if_neg hx0, htab3, List.getD_eq_getElem?_getD,
          List.getElem?_set_ne (fun he => hne he.symm),
          ← List.getD_eq_getElem?_getD]
  have hpool3 : ∀ b : Nat, b < s.heap.length →
      is_pool_address s3 (some b) = is_pool_address s (some b) :=
    fun b hb => is_pool_congr_blockAt (hblt b hb) hactive3
  have hpoolnew : is_pool_address s3 (some s.heap.length) = true := by
    rw [is_pool_some, hb3, hactive3]
    simp
  have hstale : staleUsed s3 + 1 = staleUsed s := by
    unfold staleUsed
    have hlen : s3.ref_table.length = s.ref_table.length := by
      rw [htab3]
      simp
    rw [hlen]
    have hkey := sum_range_congr_except
      (fun i => match s3.ref_table.getD i none with
        | some b => if is_pool_address s3 (some b) then 0 else 1
        | none => 0)
      (fun i => match s.ref_table.getD i none with
        | some b => if is_pool_address s (some b) then 0 else 1
        | none => 0)
      s.ref_table.length ref.toNat hrlt ?_
    · have hterm3 : (fun i => match s3.ref_table.getD i none with
          | some b => if is_pool_address s3 (some b) then 0 else 1
          | none => 0) ref.toNat = 0 := by
        show (match s3.ref_table.getD ref.toNat none with
          | some b => if is_pool_address s3 (some b) then 0 else 1
          | none => 0) = 0
        rw [htab3, List.getD_eq_getElem?_getD, List.getElem?_set_self hrlt]
        show (if is_pool_address s3 (some s.heap.length) then 0 else 1) = 0
        rw [hpoolnew]
        rfl
      have htermS : (fun i => match s.ref_table.getD i none with
          | some b => if is_pool_address s (some b) then 0 else 1
          | none => 0) ref.toNat = 1 := by
        show (match s.ref_table.getD ref.toNat none with
          | some b => if is_pool_address s (some b) then 0 else 1
          | none => 0) = 1
        have hg : s.ref_table.getD ref.toNat none = some a := by
          unfold slotOf at hsr
          rw [if_neg h0] at hsr
          exact hsr
        rw [hg]
        show (if is_pool_address s (some a) then 0 else 1) = 1
        rw [hpsa]
        rfl
      omega
    · intro j hj hne
      show (match s3.ref_table.getD j none with
          | some b => if is_pool_address s3 (some b) then 0 else 1
          | none => 0) =
        (match s.ref_table.getD j none with
          | some b => if is_pool_address s (some b) then 0 else 1
          | none => 0)
      have hgd : s3.ref_table.getD j none = s.ref_table.getD j none := by
        rw [htab3, List.getD_eq_getElem?_getD,
          List.getElem?_set_ne (fun he => hne he.symm),
          ← List.getD_eq_getElem?_getD]
      rw [hgd]
      cases hg : s.ref_table.getD j none with
      | none => rfl
      | some b =>
        have hsb : slotOf s (Int.ofNat j) = some b := by
          rw [slotOf_ofNat, hg]
        have hblt2 := hbnd (Int.ofNat j) b hsb
        show (if is_pool_address s3 (some b) then 0 else 1) =
          (if is_pool_address s (some b) then 0 else 1)
        rw [hpool3 b hblt2]
  have hps : s3.pool_size = s.pool_size := by
    rw [h3, setSlot_pool_size, setVal_pool_size]
  exact ⟨hcs, hslot3, hb3, rfl, hblt, hactive3, hstale, hps, htab3⟩

theorem valAt_of_blockAt {s : gc_state} {x : Nat} {blk : block_t}
    (h : blockAt s x = some blk) : valAt s x = blk.val := by
  unfold valAt
  unfold blockAt at h
  rw [h]

theorem copy_dfs (s0 : gc_state) (R : reference_t → Prop)
    (hbnd0 : slotBnd s0)
    (hcl : ∀ (x : reference_t) (a : Nat), R x → slotOf s0 x = some a →
      ∀ c ∈ child_refs (valAt s0 a), R c)
    (hcap0 : mem_used s0 + staleSum s0 ≤ s0.pool_size) :
    ∀ (fuel : Nat) (s : gc_state) (r : reference_t) (E : reference_t → Prop),
      staleUsed s < fuel → CopyInv s0 R s → copyClosed s E → R r →
      CopyInv s0 R (copy_contentsF fuel s r) ∧
        copyClosed (copy_contentsF fuel s r) E ∧
        slotSettled (copy_contentsF fuel s r) r ∧
        copyStep s (copy_contentsF fuel s r) := by
  intro fuel
  induction fuel with
  | zero =>
    intro s r E hf
    exact absurd hf (Nat.not_lt_zero _)
  | succ f ih =>
    intro s r E hfuel hInv hCl hR
    obtain ⟨hinj, hbnd, hcs0, hps, hmem, hdich⟩ := hInv
    by_cases hp : is_pool_address s (slotOf s r) = true
    · have hstep : copy_contentsF (f + 1) s r = s := by
        rw [copy_contentsF]
        simp only [hp, if_true]
      rw [hstep]
      refine ⟨⟨hinj, hbnd, hcs0, hps, hmem, hdich⟩, hCl, ?_, copyStep_refl s⟩
      cases hsr : slotOf s r with
      | none => rw [hsr] at hp; simp [is_pool_address] at hp
      | some b =>
        rw [hsr] at hp
        exact Or.inr ⟨b, hsr, hp⟩
    · have hpf : is_pool_address s (slotOf s r) = false := by
        revert hp
        cases is_pool_address s (slotOf s r) <;> simp
      cases hsr : slotOf s r with
      | none =>
        have hstep : copy_contentsF (f + 1) s r = s := by
          rw [copy_contentsF]
          simp only [hsr, is_pool_none, Bool.false_eq_true, if_false]
        rw [hstep]
        exact ⟨⟨hinj, hbnd, hcs0, hps, hmem, hdich⟩, hCl, Or.inl hsr,
          copyStep_refl s⟩
      | some a =>
        have hpsa : is_pool_address s (some a) = false := by
          rw [← hsr]
          exact hpf
        have hr0 : (0 : Int) ≤ r := slotOf_nonneg hsr
        have hgE : s.ref_table[r.toNat]? = some (some a) := by
          unfold slotOf at hsr
          rw [if_neg (Int.not_lt.mpr hr0)] at hsr
          exact getD_eq_some hsr
        have hsize : (valAt s a).value_size ≤ staleSum s := by
          have h1 := slotStale_le_staleSum hgE
          have h2 : slotStale s (some a) = (valAt s a).value_size := by
            show (if is_pool_address s (some a) = true then 0
              else (valAt s a).value_size) = (valAt s a).value_size
            rw [hpsa]
            simp
          rw [h2] at h1
          exact h1
        have hcap : mem_used s + (valAt s a).value_size ≤ s.pool_size := by
          rw [hps]
          omega
        have hmok := mm_malloc_ok hcap
        cases hm2 : mm_malloc s (valAt s a).value_size with
        | none =>
          rw [hmok] at hm2
          exact Option.noConfusion hm2
        | some pr =>
          obtain ⟨a2, s1⟩ := pr
          have hstep : copy_contentsF (f + 1) s r =
              (child_refs (valAt s a)).foldl (fun x c => copy_contentsF f x c)
                (setSlot (setVal s1 a2 (valAt s a)) r (some a2)) := by
            rw [copy_contentsF]
            simp only [hsr, hpsa, Bool.false_eq_true, if_false, hm2]
          rw [hstep]
          obtain ⟨hcs, hslot3, hb3, ha2, hblt, hact3, hstale3, hps3, htab3⟩ :=
            reloc_facts s s1
              (setSlot (setVal s1 a2 (valAt s a)) r (some a2)) r a a2
              hbnd hsr hpsa hm2 rfl
          obtain ⟨hinj3, hbnd3⟩ := reloc_step_wf s s1 r a a2 hinj hbnd hsr hm2
          have hacc := reloc_accounting s s1
            (setSlot (setVal s1 a2 (valAt s a)) r (some a2)) r a a2
            hbnd hsr hpsa hm2 rfl
          have hpool2 : is_pool_address
              (setSlot (setVal s1 a2 (valAt s a)) r (some a2)) (some a2) = true := by
            rw [is_pool_some, hb3, hact3]
            simp
          have hs0r : slotOf s0 r = some a := by
            rcases hdich r with hunch | hrel
            · rw [← hunch]
              exact hsr
            · exfalso
              obtain ⟨a', a2', blk', hsa', hsr', hblk', hal', hreg', hval', hRr'⟩ := hrel
              rw [hsr] at hsr'
              have haa : a = a2' := Option.some.inj hsr'
              subst haa
              have hpa : is_pool_address s (some a) = true := by
                rw [is_pool_some, show blockAt s a = some blk' from hblk']
                simp only [Option.map_some', Option.getD_some]
                rw [hreg']
                simp
              rw [hpa] at hpsa
              exact Bool.noConfusion hpsa
          have ha0 : a < s0.heap.length := hbnd0 r a hs0r
          have hblk0 : blockAt s0 a = some s0.heap[a] := by
            unfold blockAt
            exact List.getElem?_eq_getElem ha0
          have hvaleq : valAt s a = valAt s0 a :=
            valAt_congr_blockAt ((hcs0.2.2.2 a _ hblk0).trans hblk0.symm)
          -- copyStep s ST3
          have hstep3 : copyStep s (setSlot (setVal s1 a2 (valAt s a)) r (some a2)) := by
            refine ⟨hcs, ?_, ?_, by omega⟩
            · intro x hx
              rw [hslot3 x]
              by_cases hcond : 0 ≤ x ∧ x.toNat = r.toNat
              · exfalso
                have hxr : x = r := eq_of_toNat_nonneg hcond.1 hr0 hcond.2
                subst hxr
                rw [hx] at hsr
                exact Option.noConfusion hsr
              · rw [if_neg hcond]
                exact hx
            · intro x b hx hpb
              rw [hslot3 x]
              by_cases hcond : 0 ≤ x ∧ x.toNat = r.toNat
              · exfalso
                have hxr : x = r := eq_of_toNat_nonneg hcond.1 hr0 hcond.2
                subst hxr
                rw [hx] at hsr
                have hba : b = a := Option.some.inj hsr
                subst hba
                rw [hpb] at hpsa
                exact Bool.noConfusion hpsa
              · rw [if_neg hcond]
                exact hx
          -- CopyInv at ST3
          have hInv3 : CopyInv s0 R
              (setSlot (setVal s1 a2 (valAt s a)) r (some a2)) := by
            refine ⟨hinj3, hbnd3, copyStable_trans _ _ _ hcs0 hcs,
              hps3.trans hps, hacc.trans hmem, ?_⟩
            intro x
            by_cases hcond : 0 ≤ x ∧ x.toNat = r.toNat
            · have hxr : x = r := eq_of_toNat_nonneg hcond.1 hr0 hcond.2
              subst hxr
              refine Or.inr ⟨a, a2, ⟨s.active_region, true, valAt s a⟩,
                hs0r, ?_, hb3, rfl, hact3.symm, ?_, hR⟩
              · rw [hslot3 x, if_pos hcond]
              · show valAt s a = valAt s0 a
                exact hvaleq
            · rcases hdich x with hunch | hrel
              · refine Or.inl ?_
                rw [hslot3 x, if_neg hcond, hunch]
              · obtain ⟨a', a2', blk', hsa', hsx', hblk', hal', hreg', hval', hRx'⟩ := hrel
                have ha2lt : a2' < s.heap.length := by
                  unfold blockAt at hblk'
                  exact (List.getElem?_eq_some.mp hblk').1
                refine Or.inr ⟨a', a2', blk', hsa', ?_, ?_, hal', ?_, hval', hRx'⟩
                · rw [hslot3 x, if_neg hcond]
                  exact hsx'
                · rw [hblt a2' ha2lt]
                  exact hblk'
                · rw [hact3]
                  exact hreg'
          -- copyClosed at ST3 for the extended in-progress set
          have hCl3 : copyClosed
              (setSlot (setVal s1 a2 (valAt s a)) r (some a2))
              (fun x => E x ∨ x = r) := by
            intro x b2 hEx hsx hpx c hc
            have hxr : ¬ (0 ≤ x ∧ x.toNat = r.toNat) := by
              intro hcond
              exact hEx (Or.inr (eq_of_toNat_nonneg hcond.1 hr0 hcond.2))
            rw [hslot3 x, if_neg hxr] at hsx
            have hb2lt : b2 < s.heap.length := hbnd x b2 hsx
            have hpxs : is_pool_address s (some b2) = true := by
              rw [← is_pool_congr_blockAt (hblt b2 hb2lt) hact3]
              exact hpx
            have hval2 : valAt (setSlot (setVal s1 a2 (valAt s a)) r (some a2)) b2 =
                valAt s b2 := valAt_congr_blockAt (hblt b2 hb2lt)
            rw [hval2] at hc
            have hex : ¬ E x := fun he => hEx (Or.inl he)
            rcases hCl x b2 hex hsx hpxs c hc with hnone | ⟨b3, hsc, hpc⟩
            · refine Or.inl ?_
              rw [hslot3 c]
              by_cases hcond : 0 ≤ c ∧ c.toNat = r.toNat
              · exfalso
                have hcr : c = r := eq_of_toNat_nonneg hcond.1 hr0 hcond.2
                subst hcr
                rw [hnone] at hsr
                exact Option.noConfusion hsr
              · rw [if_neg hcond]
                exact hnone
            · refine Or.inr ⟨b3, ?_, ?_⟩
              · rw [hslot3 c]
                by_cases hcond : 0 ≤ c ∧ c.toNat = r.toNat
                · exfalso
                  have hcr : c = r := eq_of_toNat_nonneg hcond.1 hr0 hcond.2
                  subst hcr
                  rw [hsc] at hsr
                  have hba : b3 = a := Option.some.inj hsr
                  subst hba
                  rw [hpc] at hpsa
                  exact Bool.noConfusion hpsa
                · rw [if_neg hcond]
                  exact hsc
              · have hb3lt : b3 < s.heap.length := hbnd c b3 hsc
                rw [is_pool_congr_blockAt (hblt b3 hb3lt) hact3]
                exact hpc
          -- the fold over the children
          have hfold : ∀ (L : List reference_t), (∀ c ∈ L, R c) →
              ∀ s2, staleUsed s2 < f → CopyInv s0 R s2 →
                copyClosed s2 (fun x => E x ∨ x = r) →
              CopyInv s0 R (L.foldl (fun x c => copy_contentsF f x c) s2) ∧
                copyClosed (L.foldl (fun x c => copy_contentsF f x c) s2)
                  (fun x => E x ∨ x = r) ∧
                copyStep s2 (L.foldl (fun x c => copy_contentsF f x c) s2) ∧
                ∀ c ∈ L, slotSettled
                  (L.foldl (fun x c => copy_contentsF f x c) s2) c := by
            intro L
            induction L with
            | nil =>
              intro _ s2 _ h1 h2
              refine ⟨h1, h2, copyStep_refl s2, ?_⟩
              intro c hc
              simp at hc
            | cons c L2 ihL =>
              intro hRs s2 hf2 h1 h2
              have hRc : R c := hRs c (List.mem_cons_self _ _)
              obtain ⟨hInvM, hClM, hSetM, hStepM⟩ := ih s2 c
                (fun x => E x ∨ x = r) hf2 h1 h2 hRc
              have hfM : staleUsed (copy_contentsF f s2 c) < f :=
                Nat.lt_of_le_of_lt hStepM.2.2.2 hf2
              obtain ⟨hInvF, hClF, hStepF, hSetF⟩ := ihL
                (fun c2 hc2 => hRs c2 (List.mem_cons_of_mem _ hc2))
                (copy_contentsF f s2 c) hfM hInvM hClM
              simp only [List.foldl_cons]
              refine ⟨hInvF, hClF, copyStep_trans hStepM hStepF, ?_⟩
              intro c2 hc2
              rcases List.mem_cons.mp hc2 with he | hmm
              · subst he
                exact slotSettled_mono hStepF hSetM
              · exact hSetF c2 hmm
          have hRchildren : ∀ c ∈ child_refs (valAt s a), R c := by
            rw [hvaleq]
            exact hcl r a hR hs0r
          have hf3 : staleUsed (setSlot (setVal s1 a2 (valAt s a)) r (some a2)) < f := by
            omega
          obtain ⟨hInvF, hClF, hStepF, hSetF⟩ := hfold (child_refs (valAt s a))
            hRchildren (setSlot (setVal s1 a2 (valAt s a)) r (some a2))
            hf3 hInv3 hCl3
          have hslotr : slotOf (setSlot (setVal s1 a2 (valAt s a)) r (some a2)) r =
              some a2 := by
            rw [hslot3 r, if_pos ⟨hr0, rfl⟩]
          have hslotrF : slotOf ((child_refs (valAt s a)).foldl
              (fun x c => copy_contentsF f x c)
              (setSlot (setVal s1 a2 (valAt s a)) r (some a2))) r = some a2 :=
            hStepF.2.2.1 r a2 hslotr hpool2
          have hpool2F : is_pool_address ((child_refs (valAt s a)).foldl
              (fun x c => copy_contentsF f x c)
              (setSlot (setVal s1 a2 (valAt s a)) r (some a2))) (some a2) = true :=
            is_pool_mono hStepF.1 hpool2
          refine ⟨hInvF, ?_, Or.inr ⟨a2, hslotrF, hpool2F⟩,
            copyStep_trans hstep3 hStepF⟩
          -- copyClosed for the original set E
          intro x b2 hEx hsx hpx c hc
          by_cases hxr : x = r
          · rw [hxr] at hsx
            rw [hslotrF] at hsx
            have hba : b2 = a2 := (Option.some.inj hsx).symm
            have hvF : valAt ((child_refs (valAt s a)).foldl
                (fun x c => copy_contentsF f x c)
                (setSlot (setVal s1 a2 (valAt s a)) r (some a2))) b2 =
                valAt s a := by
              have hbF : blockAt ((child_refs (valAt s a)).foldl
                  (fun x c => copy_contentsF f x c)
                  (setSlot (setVal s1 a2 (valAt s a)) r (some a2))) b2 =
                  some ⟨s.active_region, true, valAt s a⟩ := by
                rw [hba]
                exact hStepF.1.2.2.2 a2 _ hb3
              exact valAt_of_blockAt hbF
            rw [hvF] at hc
            exact hSetF c hc
          · exact hClF x b2 (fun he => match he with
              | Or.inl h1 => hEx h1
              | Or.inr h2 => hxr h2) hsx hpx c hc

theorem copy_dfs_fold (s0 : gc_state) (R : reference_t → Prop)
    (hbnd0 : slotBnd s0)
    (hcl : ∀ (x : reference_t) (a : Nat), R x → slotOf s0 x = some a →
      ∀ c ∈ child_refs (valAt s0 a), R c)
    (hcap0 : mem_used s0 + staleSum s0 ≤ s0.pool_size) (fuel : Nat) :
    ∀ (L : List reference_t), (∀ c ∈ L, R c) →
      ∀ (s : gc_state) (E : reference_t → Prop), staleUsed s < fuel →
        CopyInv s0 R s → copyClosed s E →
        CopyInv s0 R (L.foldl (fun x c => copy_contentsF fuel x c) s) ∧
          copyClosed (L.foldl (fun x c => copy_contentsF fuel x c) s) E ∧
          copyStep s (L.foldl (fun x c => copy_contentsF fuel x c) s) ∧
          ∀ c ∈ L, slotSettled
            (L.foldl (fun x c => copy_contentsF fuel x c) s) c := by
  intro L
  induction L with
  | nil =>
    intro _ s E _ h1 h2
    refine ⟨h1, h2, copyStep_refl s, ?_⟩
    intro c hc
    simp at hc
  | cons c L2 ihL =>
    intro hRs s E hf hInv hCl
    have hRc : R c := hRs c (List.mem_cons_self _ _)
    obtain ⟨hInvM, hClM, hSetM, hStepM⟩ :=
      copy_dfs s0 R hbnd0 hcl hcap0 fuel s c E hf hInv hCl hRc
    have hfM : staleUsed (copy_contentsF fuel s c) < fuel :=
      Nat.lt_of_le_of_lt hStepM.2.2.2 hf
    obtain ⟨hInvF, hClF, hStepF, hSetF⟩ := ihL
      (fun c2 hc2 => hRs c2 (List.mem_cons_of_mem _ hc2))
      (copy_contentsF fuel s c) E hfM hInvM hClM
    simp only [List.foldl_cons]
    refine ⟨hInvF, hClF, copyStep_trans hStepM hStepF, ?_⟩
    intro c2 hc2
    rcases List.mem_cons.mp hc2 with he | hmem2
    · subst he
      exact slotSettled_mono hStepF hSetM
    · exact hSetF c2 hmem2

theorem reaches_snoc {st : gc_state} {r x c : reference_t}
    (hr : Reaches st r x) :
    ∀ a : Nat, slotOf st x = some a → c ∈ child_refs (valAt st a) →
      Reaches st r c := by
  induction hr with
  | refl y =>
    intro a hs hc
    exact Reaches.step a hs hc (Reaches.refl c)
  | step a2 hs2 hc2 _ ihr =>
    intro a hs hc
    exact Reaches.step a2 hs2 hc2 (ihr a hs hc)

theorem slots_live_spec {st : gc_state} (hlive : slotsLiveB st = true)
    {x : reference_t} {a : Nat} (hs : slotOf st x = some a) :
    ∃ blk : block_t, blockAt st a = some blk ∧ blk.allocated = true ∧
      blk.region = st.active_region ∧ 1 ≤ blk.val.ref_count ∧
      blk.val.ref_count < UWIDTH := by
  have h0 : ¬ x < 0 := Int.not_lt.mpr (slotOf_nonneg hs)
  have hg : st.ref_table[x.toNat]? = some (some a) := by
    unfold slotOf at hs
    rw [if_neg h0] at hs
    exact getD_eq_some hs
  have hmem : (some a) ∈ st.ref_table := List.getElem?_mem hg
  have h2 := List.all_eq_true.mp hlive (some a) hmem
  have h3 : (match st.heap[a]? with
    | some b =>
      b.allocated && (b.region == st.active_region) &&
        decide (1 ≤ b.val.ref_count) && decide (b.val.ref_count < UWIDTH)
    | none => false) = true := h2
  cases hb : st.heap[a]? with
  | none =>
    rw [hb] at h3
    exact Bool.noConfusion h3
  | some blk =>
    rw [hb] at h3
    simp only [Bool.and_eq_true, beq_iff_eq, decide_eq_true_eq] at h3
    exact ⟨blk, hb, h3.1.1.1, h3.1.1.2, h3.1.2, h3.2⟩

theorem children_live_spec {st : gc_state} (hch : childrenLiveB st = true)
    {x : reference_t} {a : Nat} (hs : slotOf st x = some a) :
    ∀ c ∈ child_refs (valAt st a), 0 ≤ c ∧ (slotOf st c).isSome = true := by
  have h0 : ¬ x < 0 := Int.not_lt.mpr (slotOf_nonneg hs)
  have hg : st.ref_table[x.toNat]? = some (some a) := by
    unfold slotOf at hs
    rw [if_neg h0] at hs
    exact getD_eq_some hs
  have hmem : (some a) ∈ st.ref_table := List.getElem?_mem hg
  have h2 := List.all_eq_true.mp hch (some a) hmem
  have h3 : ((child_refs (valAt st a)).all (fun c =>
      decide (0 ≤ c) && (slotOf st c).isSome)) = true := h2
  intro c hc
  have h4 := List.all_eq_true.mp h3 c hc
  simp only [Bool.and_eq_true, decide_eq_true_eq] at h4
  exact h4

theorem no_pool_mm_init {st : gc_state} (hlive : slotsLiveB st = true)
    {x : reference_t} {a : Nat}
    (hs : slotOf (mm_init st (!st.active_region)) x = some a) :
    is_pool_address (mm_init st (!st.active_region)) (some a) = false := by
  have hs2 : slotOf st x = some a := by
    rw [← slotOf_congr_table (mm_init_ref_table st (!st.active_region)) x]
    exact hs
  obtain ⟨blk, hb, _, hreg, _, _⟩ := slots_live_spec hlive hs2
  have hkept : blockAt (mm_init st (!st.active_region)) a = some blk := by
    refine mm_init_block_kept _ hb ?_
    rw [hreg]
    cases st.active_region <;> simp
  rw [is_pool_some, hkept, mm_init_active]
  simp only [Option.map_some', Option.getD_some]
  rw [hreg]
  cases st.active_region <;> simp

theorem staleUsed_le_length (s : gc_state) :
    staleUsed s ≤ s.ref_table.length := by
  unfold staleUsed
  refine sum_range_le_const _ _ ?_
  intro j _
  cases s.ref_table.getD j none with
  | none => exact Nat.zero_le _
  | some a =>
    show (if is_pool_address s (some a) then 0 else 1) ≤ 1
    by_cases h : is_pool_address s (some a) = true
    · rw [if_pos h]
      omega
    · rw [if_neg h]

theorem copy_phase_reloc (roots : List reference_t) (st : gc_state)
    (hwf : wfB st = true) :
    CopyInv (mm_init st (!st.active_region)) (fun h => ∃ r ∈ roots, Reaches st r h) (roots.foldl (fun s r => copy_contentsF ((mm_init st (!st.active_region)).ref_table.length + 1) s r) (mm_init st (!st.active_region))) ∧
      copyClosed (roots.foldl (fun s r => copy_contentsF ((mm_init st (!st.active_region)).ref_table.length + 1) s r) (mm_init st (!st.active_region))) (fun _ => False) ∧
      (∀ (h : reference_t) (a : Nat), (∃ r ∈ roots, Reaches st r h) →
        slotOf st h = some a →
        ∃ (a2 : Nat) (blk : block_t), slotOf (roots.foldl (fun s r => copy_contentsF ((mm_init st (!st.active_region)).ref_table.length + 1) s r) (mm_init st (!st.active_region))) h = some a2 ∧
          blockAt (roots.foldl (fun s r => copy_contentsF ((mm_init st (!st.active_region)).ref_table.length + 1) s r) (mm_init st (!st.active_region))) a2 = some blk ∧ blk.allocated = true ∧
          blk.region = (roots.foldl (fun s r => copy_contentsF ((mm_init st (!st.active_region)).ref_table.length + 1) s r) (mm_init st (!st.active_region))).active_region ∧ blk.val = valAt st a) := by
  have hwfconj : (slotsBoundedB st && slotsInjB st.ref_table && slotsLiveB st &&
      childrenLiveB st && memBoundB st) = true := hwf
  simp only [Bool.and_eq_true] at hwfconj
  obtain ⟨⟨⟨⟨hbndB, hinjB⟩, hliveB⟩, hchB⟩, hmemB⟩ := hwfconj
  have hinj := slot_inj_of_injB hinjB
  have hbnd := slot_bnd_of_B hbndB
  have hslotT1 : ∀ x : reference_t, slotOf (mm_init st (!st.active_region)) x = slotOf st x :=
    fun x => slotOf_congr_table (mm_init_ref_table st (!st.active_region)) x
  have hinj1 : slotInj (mm_init st (!st.active_region)) := by
    intro x y bb hx hy
    rw [hslotT1 x] at hx
    rw [hslotT1 y] at hy
    exact hinj x y bb hx hy
  have hbnd1 : slotBnd (mm_init st (!st.active_region)) := by
    intro x bb hx
    rw [hslotT1 x] at hx
    rw [mm_init_heap_length]
    exact hbnd x bb hx
  have hcap1 : mem_used (mm_init st (!st.active_region)) + staleSum (mm_init st (!st.active_region)) ≤ (mm_init st (!st.active_region)).pool_size := by
    have h1 : mem_used (mm_init st (!st.active_region)) = 0 := mem_used_mm_init st (!st.active_region)
    have h2 : staleSum (mm_init st (!st.active_region)) ≤ mem_used st :=
      staleSum_mm_init_le st (!st.active_region) hinjB hliveB
    have h3 : mem_used st ≤ st.pool_size := of_decide_eq_true hmemB
    have h4 : (mm_init st (!st.active_region)).pool_size = st.pool_size := rfl
    omega
  have hcl1 : ∀ (x : reference_t) (a : Nat),
      (∃ r ∈ roots, Reaches st r x) → slotOf (mm_init st (!st.active_region)) x = some a →
      ∀ c ∈ child_refs (valAt (mm_init st (!st.active_region)) a), (∃ r ∈ roots, Reaches st r c) := by
    intro x a hRx hs c hc
    obtain ⟨r, hrmem, hre⟩ := hRx
    rw [hslotT1 x] at hs
    rw [valAt_mm_init] at hc
    exact ⟨r, hrmem, reaches_snoc hre a hs hc⟩
  have hInv1 : CopyInv (mm_init st (!st.active_region)) (fun h => ∃ r ∈ roots, Reaches st r h) (mm_init st (!st.active_region)) :=
    ⟨hinj1, hbnd1, copyStable_refl _, rfl, rfl, fun x => Or.inl rfl⟩
  have hCl1 : copyClosed (mm_init st (!st.active_region)) (fun _ => False) := by
    intro x a2 _ hsx hpx c hc
    exfalso
    rw [no_pool_mm_init hliveB hsx] at hpx
    exact Bool.noConfusion hpx
  have hfuel1 : staleUsed (mm_init st (!st.active_region)) < ((mm_init st (!st.active_region)).ref_table.length + 1) :=
    Nat.lt_succ_of_le (staleUsed_le_length (mm_init st (!st.active_region)))
  obtain ⟨hInv2, hCl2, hStep2, hSet2⟩ := copy_dfs_fold (mm_init st (!st.active_region))
    (fun h => ∃ r ∈ roots, Reaches st r h) hbnd1 hcl1 hcap1 ((mm_init st (!st.active_region)).ref_table.length + 1) roots
    (fun c hc => ⟨c, hc, Reaches.refl c⟩) (mm_init st (!st.active_region)) (fun _ => False)
    hfuel1 hInv1 hCl1
  have hreloc : ∀ (y : reference_t) (a : Nat), slotSettled (roots.foldl (fun s r => copy_contentsF ((mm_init st (!st.active_region)).ref_table.length + 1) s r) (mm_init st (!st.active_region))) y →
      slotOf st y = some a →
      ∃ (a2 : Nat) (blk : block_t), slotOf (roots.foldl (fun s r => copy_contentsF ((mm_init st (!st.active_region)).ref_table.length + 1) s r) (mm_init st (!st.active_region))) y = some a2 ∧
        blockAt (roots.foldl (fun s r => copy_contentsF ((mm_init st (!st.active_region)).ref_table.length + 1) s r) (mm_init st (!st.active_region))) a2 = some blk ∧ blk.allocated = true ∧
        blk.region = (roots.foldl (fun s r => copy_contentsF ((mm_init st (!st.active_region)).ref_table.length + 1) s r) (mm_init st (!st.active_region))).active_region ∧ blk.val = valAt st a := by
    intro y a hset hs
    obtain ⟨_, _, hcs12, _, _, hdich⟩ := hInv2
    rcases hdich y with hunch | hrel
    · exfalso
      have hsy2 : slotOf (roots.foldl (fun s r => copy_contentsF ((mm_init st (!st.active_region)).ref_table.length + 1) s r) (mm_init st (!st.active_region))) y = some a := by
        rw [hunch, hslotT1]
        exact hs
      rcases hset with hn | hbp
      · rw [hn] at hsy2
        exact Option.noConfusion hsy2
      · obtain ⟨b, hb, hpb⟩ := hbp
        rw [hb] at hsy2
        have hba : b = a := Option.some.inj hsy2
        subst hba
        obtain ⟨blk, hblkst, _, hreg, _, _⟩ := slots_live_spec hliveB hs
        have hkept1 : blockAt (mm_init st (!st.active_region)) b = some blk := by
          refine mm_init_block_kept _ hblkst ?_
          rw [hreg]
          cases st.active_region <;> simp
        have hkept2 : blockAt (roots.foldl (fun s r => copy_contentsF ((mm_init st (!st.active_region)).ref_table.length + 1) s r) (mm_init st (!st.active_region))) b = some blk := hcs12.2.2.2 b blk hkept1
        rw [is_pool_some, hkept2] at hpb
        simp only [Option.map_some', Option.getD_some] at hpb
        rw [show (roots.foldl (fun s r => copy_contentsF ((mm_init st (!st.active_region)).ref_table.length + 1) s r) (mm_init st (!st.active_region))).active_region = (mm_init st (!st.active_region)).active_region from hcs12.2.1,
          mm_init_active, hreg] at hpb
        revert hpb
        cases st.active_region <;> simp
    · obtain ⟨a', a2', blk', hsa', hsy', hblk', hal', hreg', hval', _⟩ := hrel
      rw [hslotT1 y] at hsa'
      rw [hs] at hsa'
      have haa : a = a' := Option.some.inj hsa'
      refine ⟨a2', blk', hsy', hblk', hal', hreg', ?_⟩
      rw [hval', ← haa, valAt_mm_init]
  have hkey : ∀ (r h : reference_t), Reaches st r h → slotSettled (roots.foldl (fun s r => copy_contentsF ((mm_init st (!st.active_region)).ref_table.length + 1) s r) (mm_init st (!st.active_region))) r →
      ∀ a : Nat, slotOf st h = some a →
      ∃ (a2 : Nat) (blk : block_t), slotOf (roots.foldl (fun s r => copy_contentsF ((mm_init st (!st.active_region)).ref_table.length + 1) s r) (mm_init st (!st.active_region))) h = some a2 ∧
        blockAt (roots.foldl (fun s r => copy_contentsF ((mm_init st (!st.active_region)).ref_table.length + 1) s r) (mm_init st (!st.active_region))) a2 = some blk ∧ blk.allocated = true ∧
        blk.region = (roots.foldl (fun s r => copy_contentsF ((mm_init st (!st.active_region)).ref_table.length + 1) s r) (mm_init st (!st.active_region))).active_region ∧ blk.val = valAt st a := by
    intro r h hre
    induction hre with
    | refl y =>
      intro hset a hs
      exact hreloc y a hset hs
    | step a0 hs0 hc0 hrest ihr =>
      intro hset a hs
      obtain ⟨a2r, blkr, hs2r, hb2r, _, hregr, hvalr⟩ := hreloc _ a0 hset hs0
      have hpoolr : is_pool_address (roots.foldl (fun s r => copy_contentsF ((mm_init st (!st.active_region)).ref_table.length + 1) s r) (mm_init st (!st.active_region))) (some a2r) = true := by
        rw [is_pool_some, hb2r]
        simp only [Option.map_some', Option.getD_some]
        rw [hregr]
        simp
      have hsetc := hCl2 _ a2r not_false hs2r hpoolr
      have hv : valAt (roots.foldl (fun s r => copy_contentsF ((mm_init st (!st.active_region)).ref_table.length + 1) s r) (mm_init st (!st.active_region))) a2r = valAt st a0 := by
        rw [valAt_of_blockAt hb2r, hvalr]
      rw [hv] at hsetc
      exact ihr (hsetc _ hc0) a hs
  refine ⟨hInv2, hCl2, ?_⟩
  intro h a hR hs
  obtain ⟨r, hrmem, hre⟩ := hR
  exact hkey r h hre (hSet2 r hrmem) a hs

theorem decStep_refl (s : gc_state) : decStep s (fun _ => 0) s := by
  refine ⟨rfl, rfl, rfl, fun _ _ => rfl, fun _ _ => rfl, ?_⟩
  intro h b blk _ _ hb
  exact hb

theorem decStep_ext {s : gc_state} {d d2 : reference_t → Nat} {s1 : gc_state}
    (h : decStep s d s1)
    (he : ∀ (x : reference_t) (b : Nat), slotOf s x = some b →
      is_pool_address s (some b) = true → d2 x = d x) : decStep s d2 s1 := by
  refine ⟨h.1, h.2.1, h.2.2.1, h.2.2.2.1, h.2.2.2.2.1, ?_⟩
  intro hh b blk hs hp hb
  rw [he hh b hs hp]
  exact h.2.2.2.2.2 hh b blk hs hp hb

theorem dec_fold (f : Nat) (s : gc_state) (hinj : slotInj s) :
    ∀ (L : List reference_t) (d : reference_t → Nat) (s1 : gc_state),
      decStep s d s1 →
      (∀ (h : reference_t) (b : Nat) (blk : block_t), slotOf s h = some b →
        is_pool_address s (some b) = true → blockAt s b = some blk →
        d h + L.count h < blk.val.ref_count ∧ blk.val.ref_count < UWIDTH) →
      decStep s (fun h => d h + L.count h)
        (L.foldl (fun x c => decrefF (f + 1) x c) s1) := by
  intro L
  induction L with
  | nil =>
    intro d s1 hDS _
    simp only [List.foldl_nil]
    refine decStep_ext hDS ?_
    intro x b _ _
    simp
  | cons c L2 ihL =>
    intro d s1 hDS hbud
    simp only [List.foldl_cons]
    obtain ⟨htab, hact, hlen, hnonpool, hunptd, hpooled⟩ := hDS
    have hs1c : ∀ x : reference_t, slotOf s1 x = slotOf s x :=
      fun x => slotOf_congr_table htab x
    by_cases hpc : ∃ bc : Nat, slotOf s c = some bc ∧
        is_pool_address s (some bc) = true
    · -- the child is a live relocated handle: one real decrement
      obtain ⟨bc, hsc, hpbc⟩ := hpc
      obtain ⟨blk, hblk, hregblk⟩ := is_pool_block s bc hpbc
      have hb1 : blockAt s1 bc = some { blk with val :=
          { blk.val with ref_count := blk.val.ref_count - d c } } :=
        hpooled c bc blk hsc hpbc hblk
      obtain ⟨hcnt, hw⟩ := hbud c bc blk hsc hpbc hblk
      have hccount : (c :: L2).count c = L2.count c + 1 := List.count_cons_self c L2
      have hcnt2 : d c + 1 < blk.val.ref_count + 1 := by omega
      have hs1cc : slotOf s1 c = some bc := by
        rw [hs1c c]
        exact hsc
      have hp1bc : is_pool_address s1 (some bc) = true := by
        rw [is_pool_some, hb1]
        simp only [Option.map_some', Option.getD_some]
        show ({ blk with val :=
          { blk.val with ref_count := blk.val.ref_count - d c } }.region ==
            s1.active_region) = true
        rw [hact]
        show (blk.region == s.active_region) = true
        rw [hregblk]
        simp
      have hp1 : is_pool_address s1 (slotOf s1 c) = true := by
        rw [hs1cc]
        exact hp1bc
      have hv1 : valAt s1 bc = { blk.val with ref_count := blk.val.ref_count - d c } :=
        valAt_of_blockAt hb1
      have husub : usub1 (valAt s1 bc).ref_count = blk.val.ref_count - d c - 1 := by
        rw [hv1]
        show usub1 (blk.val.ref_count - d c) = blk.val.ref_count - d c - 1
        refine usub1_of_lt ?_ ?_
        · omega
        · omega
      have hpos : 0 < ({ valAt s1 bc with
          ref_count := usub1 (valAt s1 bc).ref_count } : value_t).ref_count := by
        show 0 < usub1 (valAt s1 bc).ref_count
        rw [husub]
        omega
      have hstep : decrefF (f + 1) s1 c = setVal s1 bc
          { valAt s1 bc with ref_count := usub1 (valAt s1 bc).ref_count } := by
        rw [decrefF]
        simp only [hs1cc, hp1, hp1bc, if_true, hpos, if_pos]
      rw [hstep]
      -- the new deficit assignment
      have hDS2 : decStep s (fun h => if h = c then d h + 1 else d h)
          (setVal s1 bc
            { valAt s1 bc with ref_count := usub1 (valAt s1 bc).ref_count }) := by
        have hbc1 : s1.heap[bc]? = some { blk with val :=
            { blk.val with ref_count := blk.val.ref_count - d c } } := hb1
        refine ⟨?_, ?_, ?_, ?_, ?_, ?_⟩
        · rw [setVal_ref_table]
          exact htab
        · rw [setVal_active_region]
          exact hact
        · rw [show (setVal s1 bc { valAt s1 bc with
              ref_count := usub1 (valAt s1 bc).ref_count }).heap.length =
              s1.heap.length from updBlock_heap_length s1 bc _]
          exact hlen
        · intro b hbf
          have hbne : bc ≠ b := by
            intro he
            rw [← he] at hbf
            rw [hpbc] at hbf
            exact Bool.noConfusion hbf
          rw [blockAt_setVal_ne _ _ hbne]
          exact hnonpool b hbf
        · intro b hbu
          have hbne : bc ≠ b := by
            intro he
            exact hbu c (he ▸ hsc)
          rw [blockAt_setVal_ne _ _ hbne]
          exact hunptd b hbu
        · intro h b blk2 hsh hph hbh
          show blockAt (setVal s1 bc { valAt s1 bc with
              ref_count := usub1 (valAt s1 bc).ref_count }) b =
            some { blk2 with val := { blk2.val with
              ref_count := blk2.val.ref_count -
                (if h = c then d h + 1 else d h) } }
          by_cases hbbc : b = bc
          · have hscb : slotOf s c = some b := by
              rw [hbbc]
              exact hsc
            have hhc : h = c := hinj h c b hsh hscb
            have hblk2 : blk2 = blk := by
              have hbh2 : blockAt s bc = some blk2 := by
                rw [← hbbc]
                exact hbh
              exact Option.some.inj (hbh2.symm.trans hblk)
            rw [if_pos hhc, hbbc, hblk2, hhc]
            have hbset : blockAt (setVal s1 bc { valAt s1 bc with
                ref_count := usub1 (valAt s1 bc).ref_count }) bc =
                some { { blk with val :=
                  { blk.val with ref_count := blk.val.ref_count - d c } } with
                  val := { valAt s1 bc with
                    ref_count := usub1 (valAt s1 bc).ref_count } } :=
              blockAt_updBlock_self _ hbc1
            rw [hbset, husub, hv1]
            show some (⟨blk.region, blk.allocated,
              { blk.val with ref_count := blk.val.ref_count - d c - 1 }⟩ :
                block_t) =
              some ⟨blk.region, blk.allocated,
                { blk.val with ref_count := blk.val.ref_count - (d c + 1) }⟩
            rw [show blk.val.ref_count - d c - 1 =
              blk.val.ref_count - (d c + 1) from by omega]
          · have hne : bc ≠ b := fun he => hbbc he.symm
            rw [blockAt_setVal_ne _ _ hne]
            have hhc : ¬ h = c := by
              intro he
              rw [he] at hsh
              rw [hsh] at hsc
              exact hbbc (Option.some.inj hsc)
            rw [if_neg hhc]
            exact hpooled h b blk2 hsh hph hbh
      have hbud2 : ∀ (h : reference_t) (b : Nat) (blk2 : block_t),
          slotOf s h = some b → is_pool_address s (some b) = true →
          blockAt s b = some blk2 →
          (if h = c then d h + 1 else d h) + L2.count h < blk2.val.ref_count ∧
            blk2.val.ref_count < UWIDTH := by
        intro h b blk2 hsh hph hbh
        obtain ⟨hc2, hw2⟩ := hbud h b blk2 hsh hph hbh
        by_cases hhc : h = c
        · subst hhc
          rw [if_pos rfl]
          rw [List.count_cons_self] at hc2
          exact ⟨by omega, hw2⟩
        · rw [if_neg hhc]
          rw [List.count_cons_of_ne hhc] at hc2
          exact ⟨hc2, hw2⟩
      have hrec := ihL (fun h => if h = c then d h + 1 else d h) _ hDS2 hbud2
      refine decStep_ext hrec ?_
      intro x b hsx hpx
      show d x + (c :: L2).count x =
        (if x = c then d x + 1 else d x) + L2.count x
      by_cases hxc : x = c
      · rw [if_pos hxc, hxc, List.count_cons_self]
        omega
      · rw [if_neg hxc, List.count_cons_of_ne hxc]
    · -- the child's slot is unused or stale: the decrement is a no-op
      have hnoop : decrefF (f + 1) s1 c = s1 := by
        refine decrefF_not_pool _ ?_
        rw [hs1c c]
        cases hsc : slotOf s c with
        | none => exact is_pool_none s1
        | some bc =>
          have hnp : is_pool_address s (some bc) = false := by
            by_cases hq : is_pool_address s (some bc) = true
            · exact absurd ⟨bc, hsc, hq⟩ hpc
            · revert hq
              cases is_pool_address s (some bc) <;> simp
          rw [is_pool_some]
          rw [show blockAt s1 bc = blockAt s bc from hnonpool bc hnp]
          rw [show s1.active_region = s.active_region from hact]
          rw [← is_pool_some]
          exact hnp
      rw [hnoop]
      have hbud2 : ∀ (h : reference_t) (b : Nat) (blk2 : block_t),
          slotOf s h = some b → is_pool_address s (some b) = true →
          blockAt s b = some blk2 →
          d h + L2.count h < blk2.val.ref_count ∧
            blk2.val.ref_count < UWIDTH := by
        intro h b blk2 hsh hph hbh
        obtain ⟨hc2, hw2⟩ := hbud h b blk2 hsh hph hbh
        have hhc : ¬ h = c := by
          intro he
          subst he
          exact hpc ⟨b, hsh, hph⟩
        rw [List.count_cons_of_ne hhc] at hc2
        exact ⟨hc2, hw2⟩
      have hrec := ihL d s1 ⟨htab, hact, hlen, hnonpool, hunptd, hpooled⟩ hbud2
      refine decStep_ext hrec ?_
      intro x b hsx hpx
      show d x + (c :: L2).count x = d x + L2.count x
      have hxc : ¬ x = c := by
        intro he
        subst he
        exact hpc ⟨b, hsx, hpx⟩
      rw [List.count_cons_of_ne hxc]

theorem getD_lt_length {t : List (Option Nat)} {i : Nat} {p : Nat}
    (h : t.getD i none = some p) : i < t.length := by
  by_contra hcon
  have hge : t.length ≤ i := Nat.le_of_not_lt hcon
  rw [List.getD_eq_getElem?_getD, List.getElem?_eq_none hge] at h
  exact Option.noConfusion h

theorem payload_eq_count (v : value_t) (n : Nat) :
    payload_eq { v with ref_count := n } v := ⟨rfl, rfl, rfl, rfl, rfl, rfl⟩

theorem payload_eq_trans {u v w : value_t} (h1 : payload_eq u v)
    (h2 : payload_eq v w) : payload_eq u w :=
  ⟨h1.1.trans h2.1, h1.2.1.trans h2.2.1, h1.2.2.1.trans h2.2.2.1,
    h1.2.2.2.1.trans h2.2.2.2.1, h1.2.2.2.2.1.trans h2.2.2.2.2.1,
    h1.2.2.2.2.2.trans h2.2.2.2.2.2⟩

theorem sweep_step (f : Nat) (s0sw : gc_state) (s : gc_state) (i : Nat)
    (hSI : SweepInv s) (hPres : sweepPres s0sw s) :
    SweepInv (sweepSlot (f + 1) s i) ∧
      sweepPres s0sw (sweepSlot (f + 1) s i) := by
  obtain ⟨hinjS, hSIpool⟩ := hSI
  cases hg : s.ref_table.getD i none with
  | none =>
    have hstep : sweepSlot (f + 1) s i = s := by
      unfold sweepSlot
      rw [hg]
    rw [hstep]
    exact ⟨⟨hinjS, hSIpool⟩, hPres⟩
  | some a =>
    by_cases hpa : is_pool_address s (some a) = true
    · have hstep : sweepSlot (f + 1) s i = s := by
        unfold sweepSlot
        rw [hg]
        simp only [hpa, if_true]
      rw [hstep]
      exact ⟨⟨hinjS, hSIpool⟩, hPres⟩
    · have hpaf : is_pool_address s (some a) = false := by
        revert hpa
        cases is_pool_address s (some a) <;> simp
      have hstep : sweepSlot (f + 1) s i =
          setSlot (traverse_decref (f + 1) s (valAt s a)) (Int.ofNat i) none := by
        unfold sweepSlot
        rw [hg]
        simp only [hpaf, Bool.false_eq_true, if_false]
      rw [hstep]
      have hilt : i < s.ref_table.length := getD_lt_length hg
      have hsia : slotOf s (Int.ofNat i) = some a := by
        rw [slotOf_ofNat, hg]
      have hbud0 : ∀ (h : reference_t) (b : Nat) (blk : block_t),
          slotOf s h = some b → is_pool_address s (some b) = true →
          blockAt s b = some blk →
          (fun _ : reference_t => 0) h + (child_refs (valAt s a)).count h <
            blk.val.ref_count ∧ blk.val.ref_count < UWIDTH := by
        intro h b blk hsh hph hbh
        obtain ⟨blk2, hb2, hal2, hbudget2, hw2⟩ := hSIpool h b hsh hph
        have hbe : blk2 = blk := Option.some.inj (hb2.symm.trans hbh)
        subst hbe
        have hterm : (child_refs (valAt s a)).count h ≤ staleRefsCur s h := by
          have hle := term_le_sum_range (fun j =>
            match s.ref_table.getD j none with
            | some aj => if is_pool_address s (some aj) then 0
                else (child_refs (valAt s aj)).count h
            | none => 0) s.ref_table.length i hilt
          have hterm2 : (fun j =>
              match s.ref_table.getD j none with
              | some aj => if is_pool_address s (some aj) then 0
                  else (child_refs (valAt s aj)).count h
              | none => 0) i = (child_refs (valAt s a)).count h := by
            show (match s.ref_table.getD i none with
              | some aj => if is_pool_address s (some aj) then 0
                  else (child_refs (valAt s aj)).count h
              | none => 0) = _
            rw [hg]
            show (if is_pool_address s (some a) = true then 0
              else (child_refs (valAt s a)).count h) = _
            rw [hpaf]
            simp
          rw [hterm2] at hle
          exact hle
        refine ⟨?_, hw2⟩
        show 0 + (child_refs (valAt s a)).count h < blk2.val.ref_count
        omega
      have hDS := dec_fold f s hinjS (child_refs (valAt s a)) (fun _ => 0) s
        (decStep_refl s) hbud0
      have htrav : traverse_decref (f + 1) s (valAt s a) =
          (child_refs (valAt s a)).foldl (fun x c => decrefF (f + 1) x c) s := rfl
      rw [← htrav] at hDS
      obtain ⟨htab, hact, hlen, hnonpool, hunptd, hpooled⟩ := hDS
      have hi0 : ¬ (Int.ofNat i) < 0 := Int.not_lt.mpr (Int.ofNat_nonneg i)
      have htabF : (setSlot (traverse_decref (f + 1) s (valAt s a))
          (Int.ofNat i) none).ref_table = s.ref_table.set i none := by
        unfold setSlot
        rw [if_neg hi0]
        show (traverse_decref (f + 1) s (valAt s a)).ref_table.set
          (Int.ofNat i).toNat none = _
        rw [htab]
        simp
      have hactF : (setSlot (traverse_decref (f + 1) s (valAt s a))
          (Int.ofNat i) none).active_region = s.active_region := by
        rw [setSlot_active_region]
        exact hact
      have hslotF : ∀ x : reference_t,
          slotOf (setSlot (traverse_decref (f + 1) s (valAt s a))
            (Int.ofNat i) none) x =
          (if 0 ≤ x ∧ x.toNat = i then none else slotOf s x) := by
        intro x
        by_cases hx0 : x < 0
        · rw [if_neg (fun hc => absurd hc.1 (Int.not_le.mpr hx0))]
          unfold slotOf setSlot
          rw [if_neg hi0, if_pos hx0, if_pos hx0]
        · rcases eq_or_ne x.toNat i with he | hne
          · rw [if_pos ⟨Int.not_lt.mp hx0, he⟩]
            have hxi : x = Int.ofNat i := by
              refine eq_of_toNat_nonneg (Int.not_lt.mp hx0) (Int.ofNat_nonneg i) ?_
              rw [he]
              simp
            subst hxi
            refine slotOf_setSlot_self none hi0 ?_
            rw [htab]
            simpa using hilt
          · rw [if_neg (fun hc => hne hc.2)]
            rw [slotOf_setSlot_ne _ none (Or.inl (by
              simpa using fun hh => hne hh.symm))]
            exact slotOf_congr_table htab x
      have hpoolpt : ∀ (h : reference_t) (b : Nat), slotOf s h = some b →
          is_pool_address s (some b) = true →
          ∃ blk : block_t, blockAt s b = some blk ∧
            blockAt (setSlot (traverse_decref (f + 1) s (valAt s a))
              (Int.ofNat i) none) b =
              some { blk with val := { blk.val with ref_count :=
                blk.val.ref_count - (child_refs (valAt s a)).count h } } ∧
            is_pool_address (setSlot (traverse_decref (f + 1) s (valAt s a))
              (Int.ofNat i) none) (some b) = true := by
        intro h b hsh hph
        obtain ⟨blk, hblk, hreg⟩ := is_pool_block s b hph
        have hbT : blockAt (traverse_decref (f + 1) s (valAt s a)) b =
            some { blk with val := { blk.val with ref_count :=
              blk.val.ref_count - (0 + (child_refs (valAt s a)).count h) } } :=
          hpooled h b blk hsh hph hblk
        simp only [Nat.zero_add] at hbT
        have hbF : blockAt (setSlot (traverse_decref (f + 1) s (valAt s a))
            (Int.ofNat i) none) b =
            some { blk with val := { blk.val with ref_count :=
              blk.val.ref_count - (child_refs (valAt s a)).count h } } := by
          rw [blockAt_setSlot]
          exact hbT
        refine ⟨blk, hblk, hbF, ?_⟩
        rw [is_pool_some, hbF, hactF]
        simp only [Option.map_some', Option.getD_some]
        show (blk.region == s.active_region) = true
        rw [hreg]
        simp
      have hSRF : ∀ h : reference_t,
          staleRefsCur (setSlot (traverse_decref (f + 1) s (valAt s a))
            (Int.ofNat i) none) h + (child_refs (valAt s a)).count h =
          staleRefsCur s h := by
        intro h
        unfold staleRefsCur
        have hlenF : (setSlot (traverse_decref (f + 1) s (valAt s a))
            (Int.ofNat i) none).ref_table.length = s.ref_table.length := by
          rw [htabF]
          simp
        rw [hlenF]
        have hkey := sum_range_congr_except
          (fun j => match (setSlot (traverse_decref (f + 1) s (valAt s a))
              (Int.ofNat i) none).ref_table.getD j none with
            | some aj => if is_pool_address (setSlot
                (traverse_decref (f + 1) s (valAt s a)) (Int.ofNat i) none)
                (some aj) then 0
              else (child_refs (valAt (setSlot
                (traverse_decref (f + 1) s (valAt s a)) (Int.ofNat i) none)
                  aj)).count h
            | none => 0)
          (fun j => match s.ref_table.getD j none with
            | some aj => if is_pool_address s (some aj) then 0
                else (child_refs (valAt s aj)).count h
            | none => 0)
          s.ref_table.length i hilt ?_
        · have htermF : (fun j => match (setSlot
              (traverse_decref (f + 1) s (valAt s a))
              (Int.ofNat i) none).ref_table.getD j none with
              | some aj => if is_pool_address (setSlot
                  (traverse_decref (f + 1) s (valAt s a)) (Int.ofNat i) none)
                  (some aj) then 0
                else (child_refs (valAt (setSlot
                  (traverse_decref (f + 1) s (valAt s a)) (Int.ofNat i) none)
                    aj)).count h
              | none => 0) i = 0 := by
            show (match (setSlot (traverse_decref (f + 1) s (valAt s a))
                (Int.ofNat i) none).ref_table.getD i none with
              | some aj => if is_pool_address (setSlot
                  (traverse_decref (f + 1) s (valAt s a)) (Int.ofNat i) none)
                  (some aj) then 0
                else (child_refs (valAt (setSlot
                  (traverse_decref (f + 1) s (valAt s a)) (Int.ofNat i) none)
                    aj)).count h
              | none => 0) = 0
            rw [htabF, List.getD_eq_getElem?_getD, List.getElem?_set_self hilt]
            rfl
          have htermS : (fun j => match s.ref_table.getD j none with
              | some aj => if is_pool_address s (some aj) then 0
                  else (child_refs (valAt s aj)).count h
              | none => 0) i = (child_refs (valAt s a)).count h := by
            show (match s.ref_table.getD i none with
              | some aj => if is_pool_address s (some aj) then 0
                  else (child_refs (valAt s aj)).count h
              | none => 0) = _
            rw [hg]
            show (if is_pool_address s (some a) = true then 0
              else (child_refs (valAt s a)).count h) = _
            rw [hpaf]
            simp
          rw [htermF, htermS] at hkey
          omega
        · intro j hj hne
          show (match (setSlot (traverse_decref (f + 1) s (valAt s a))
              (Int.ofNat i) none).ref_table.getD j none with
            | some aj => if is_pool_address (setSlot
                (traverse_decref (f + 1) s (valAt s a)) (Int.ofNat i) none)
                (some aj) then 0
              else (child_refs (valAt (setSlot
                (traverse_decref (f + 1) s (valAt s a)) (Int.ofNat i) none)
                  aj)).count h
            | none => 0) =
            (match s.ref_table.getD j none with
            | some aj => if is_pool_address s (some aj) then 0
                else (child_refs (valAt s aj)).count h
            | none => 0)
          have hgdF : (setSlot (traverse_decref (f + 1) s (valAt s a))
              (Int.ofNat i) none).ref_table.getD j none =
              s.ref_table.getD j none := by
            rw [htabF, List.getD_eq_getElem?_getD,
              List.getElem?_set_ne (fun he => hne he.symm),
              ← List.getD_eq_getElem?_getD]
          rw [hgdF]
          cases hgj : s.ref_table.getD j none with
          | none => rfl
          | some aj =>
            have hsj : slotOf s (Int.ofNat j) = some aj := by
              rw [slotOf_ofNat, hgj]
            show (if is_pool_address (setSlot
                (traverse_decref (f + 1) s (valAt s a)) (Int.ofNat i) none)
                (some aj) = true then 0
              else (child_refs (valAt (setSlot
                (traverse_decref (f + 1) s (valAt s a)) (Int.ofNat i) none)
                  aj)).count h) =
              (if is_pool_address s (some aj) = true then 0
                else (child_refs (valAt s aj)).count h)
            by_cases hpj : is_pool_address s (some aj) = true
            · obtain ⟨blkj, _, hbFj, hpFj⟩ := hpoolpt _ aj hsj hpj
              rw [hpFj, hpj]
              simp
            · have hpjf : is_pool_address s (some aj) = false := by
                revert hpj
                cases is_pool_address s (some aj) <;> simp
              have hbj : blockAt (setSlot (traverse_decref (f + 1) s (valAt s a))
                  (Int.ofNat i) none) aj = blockAt s aj := by
                rw [blockAt_setSlot]
                exact hnonpool aj hpjf
              rw [is_pool_congr_blockAt hbj hactF,
                valAt_congr_blockAt hbj]
      constructor
      · constructor
        · intro x y bb hx hy
          rw [hslotF x] at hx
          rw [hslotF y] at hy
          by_cases hcx : 0 ≤ x ∧ x.toNat = i
          · rw [if_pos hcx] at hx
            exact Option.noConfusion hx
          · rw [if_neg hcx] at hx
            by_cases hcy : 0 ≤ y ∧ y.toNat = i
            · rw [if_pos hcy] at hy
              exact Option.noConfusion hy
            · rw [if_neg hcy] at hy
              exact hinjS x y bb hx hy
        · intro h b hsb hpb
          rw [hslotF h] at hsb
          by_cases hch : 0 ≤ h ∧ h.toNat = i
          · rw [if_pos hch] at hsb
            exact Option.noConfusion hsb
          · rw [if_neg hch] at hsb
            by_cases hps2 : is_pool_address s (some b) = true
            · obtain ⟨blk, hblk, hbF, hpF⟩ := hpoolpt h b hsb hps2
              obtain ⟨blk2, hb2, hal2, hbud2, hw2⟩ := hSIpool h b hsb hps2
              have hbe : blk2 = blk := Option.some.inj (hb2.symm.trans hblk)
              subst hbe
              refine ⟨{ blk2 with val := { blk2.val with ref_count :=
                blk2.val.ref_count - (child_refs (valAt s a)).count h } },
                hbF, ?_, ?_, ?_⟩
              · show blk2.allocated = true
                exact hal2
              · show staleRefsCur (setSlot (traverse_decref (f + 1) s (valAt s a))
                  (Int.ofNat i) none) h <
                  blk2.val.ref_count - (child_refs (valAt s a)).count h
                have h1 := hSRF h
                have h2 : (child_refs (valAt s a)).count h ≤ staleRefsCur s h := by
                  omega
                omega
              · show blk2.val.ref_count - (child_refs (valAt s a)).count h < UWIDTH
                omega
            · exfalso
              have hpsf : is_pool_address s (some b) = false := by
                revert hps2
                cases is_pool_address s (some b) <;> simp
              have hbF : blockAt (setSlot (traverse_decref (f + 1) s (valAt s a))
                  (Int.ofNat i) none) b = blockAt s b := by
                rw [blockAt_setSlot]
                exact hnonpool b hpsf
              rw [is_pool_congr_blockAt hbF hactF, hpsf] at hpb
              exact Bool.noConfusion hpb
      · intro h b hsb0 hpb0
        obtain ⟨hslots, hpool_s, blkP, hbP, halP, hpayP⟩ := hPres h b hsb0 hpb0
        obtain ⟨blk, hblk, hbF, hpF⟩ := hpoolpt h b hslots hpool_s
        have hbe : blkP = blk := Option.some.inj (hbP.symm.trans hblk)
        subst hbe
        refine ⟨?_, hpF, { blkP with val := { blkP.val with ref_count :=
          blkP.val.ref_count - (child_refs (valAt s a)).count h } }, hbF, ?_, ?_⟩
        · rw [hslotF h]
          by_cases hch : 0 ≤ h ∧ h.toNat = i
          · exfalso
            have hhi : h = Int.ofNat i := by
              refine eq_of_toNat_nonneg hch.1 (Int.ofNat_nonneg i) ?_
              rw [hch.2]
              simp
            rw [hhi, hsia] at hslots
            have hba : b = a := (Option.some.inj hslots).symm
            rw [hba] at hpool_s
            rw [hpool_s] at hpaf
            exact Bool.noConfusion hpaf
          · rw [if_neg hch]
            exact hslots
        · show blkP.allocated = true
          exact halP
        · show payload_eq { blkP.val with ref_count :=
            blkP.val.ref_count - (child_refs (valAt s a)).count h } (valAt s0sw b)
          exact payload_eq_trans (payload_eq_count blkP.val _) hpayP

/-- C1 (amended): `collect()` preserves every root-reachable handle — the
slot resolves afterwards, under the same handle number, to an allocated
active-region copy of the original value — PROVIDED each reachable handle's
stored `ref_count` exceeds the number of references to it from the
unreachable (`unr`-classified) slots, which is what the sweep will decrement;
the original "regardless of the value's stored ref_count" is refuted by the
counterexample. -/
theorem collect_reachable_preserved (roots : List reference_t) (st : gc_state)
    (unr : Nat → Bool)
    (hwf : wfB st = true)
    (hcov : ∀ i : Nat, i < st.ref_table.length → unr i = false →
      st.ref_table.getD i none ≠ none →
      ∃ r ∈ roots, Reaches st r (Int.ofNat i))
    (hsound : ∀ i : Nat, i < st.ref_table.length →
      (∃ r ∈ roots, Reaches st r (Int.ofNat i)) → unr i = false)
    (hbudget : ∀ i : Nat, i < st.ref_table.length → unr i = false →
      ∀ a : Nat, st.ref_table.getD i none = some a →
      staleRefCount st unr (Int.ofNat i) < (valAt st a).ref_count) :
    ∀ (h : reference_t) (a : Nat), (∃ r ∈ roots, Reaches st r h) →
      slotOf st h = some a →
      ∃ (a2 : Nat) (blk : block_t),
        deref (collect_garbage roots st) h = some a2 ∧
        blockAt (collect_garbage roots st) a2 = some blk ∧
        blk.allocated = true ∧
        payload_eq blk.val (valAt st a) := by
  have hwfconj : (slotsBoundedB st && slotsInjB st.ref_table && slotsLiveB st &&
      childrenLiveB st && memBoundB st) = true := hwf
  simp only [Bool.and_eq_true] at hwfconj
  obtain ⟨⟨⟨⟨hbndB, hinjB⟩, hliveB⟩, hchB⟩, hmemB⟩ := hwfconj
  have hslotT1st : ∀ x : reference_t, slotOf (mm_init st (!st.active_region)) x = slotOf st x :=
    fun x => slotOf_congr_table (mm_init_ref_table st (!st.active_region)) x
  obtain ⟨hInv2, hCl2, hRel⟩ := copy_phase_reloc roots st hwf
  have hlen2 : (roots.foldl (fun s r => copy_contentsF ((mm_init st (!st.active_region)).ref_table.length + 1) s r) (mm_init st (!st.active_region))).ref_table.length = st.ref_table.length := by
    rw [hInv2.2.2.1.1,
      show (mm_init st (!st.active_region)).ref_table = st.ref_table from mm_init_ref_table st _]
  have hact2 : (roots.foldl (fun s r => copy_contentsF ((mm_init st (!st.active_region)).ref_table.length + 1) s r) (mm_init st (!st.active_region))).active_region = (!st.active_region) := by
    rw [hInv2.2.2.1.2.1, mm_init_active]
  have hkept2 : ∀ (x : reference_t) (b : Nat), slotOf st x = some b →
      ∃ blk : block_t, blockAt st b = some blk ∧
        blockAt (roots.foldl (fun s r => copy_contentsF ((mm_init st (!st.active_region)).ref_table.length + 1) s r) (mm_init st (!st.active_region))) b = some blk ∧ blk.region = st.active_region := by
    intro x b hsx
    obtain ⟨blk, hb, _, hreg, _, _⟩ := slots_live_spec hliveB hsx
    have hk1 : blockAt (mm_init st (!st.active_region)) b = some blk := by
      refine mm_init_block_kept _ hb ?_
      rw [hreg]
      cases st.active_region <;> simp
    exact ⟨blk, hb, hInv2.2.2.1.2.2.2 b blk hk1, hreg⟩
  have hnopool2 : ∀ (x : reference_t) (b : Nat), slotOf st x = some b →
      is_pool_address (roots.foldl (fun s r => copy_contentsF ((mm_init st (!st.active_region)).ref_table.length + 1) s r) (mm_init st (!st.active_region))) (some b) = false := by
    intro x b hsx
    obtain ⟨blk, _, hk2, hreg⟩ := hkept2 x b hsx
    rw [is_pool_some, hk2]
    simp only [Option.map_some', Option.getD_some]
    rw [hact2, hreg]
    cases st.active_region <;> simp
  have hpsr : ∀ (h : reference_t) (b : Nat), slotOf (roots.foldl (fun s r => copy_contentsF ((mm_init st (!st.active_region)).ref_table.length + 1) s r) (mm_init st (!st.active_region))) h = some b →
      is_pool_address (roots.foldl (fun s r => copy_contentsF ((mm_init st (!st.active_region)).ref_table.length + 1) s r) (mm_init st (!st.active_region))) (some b) = true →
      ∃ (a : Nat) (blk : block_t), slotOf st h = some a ∧
        blockAt (roots.foldl (fun s r => copy_contentsF ((mm_init st (!st.active_region)).ref_table.length + 1) s r) (mm_init st (!st.active_region))) b = some blk ∧ blk.allocated = true ∧
        blk.val = valAt st a ∧ (∃ r ∈ roots, Reaches st r h) := by
    intro h b hsb hpb
    rcases hInv2.2.2.2.2.2 h with hunch | hrel2
    · exfalso
      have hsbst : slotOf st h = some b := by
        rw [← hslotT1st h, ← hunch]
        exact hsb
      rw [hnopool2 h b hsbst] at hpb
      exact Bool.noConfusion hpb
    · obtain ⟨a', b', blk', hsa', hsb', hblk', hal', hreg', hval', hRh⟩ := hrel2
      have hbb : b' = b := Option.some.inj (hsb'.symm.trans hsb)
      rw [hslotT1st h] at hsa'
      refine ⟨a', blk', hsa', ?_, hal', ?_, hRh⟩
      · rw [← hbb]
        exact hblk'
      · rw [hval', valAt_mm_init]
  have hSRC : ∀ h2 : reference_t,
      staleRefsCur (roots.foldl (fun s r => copy_contentsF ((mm_init st (!st.active_region)).ref_table.length + 1) s r) (mm_init st (!st.active_region))) h2 ≤ staleRefCount st unr h2 := by
    intro h2
    unfold staleRefsCur staleRefCount
    rw [hlen2]
    refine sum_range_map_le _ _ st.ref_table.length ?_
    intro j hj
    show (match (roots.foldl (fun s r => copy_contentsF ((mm_init st (!st.active_region)).ref_table.length + 1) s r) (mm_init st (!st.active_region))).ref_table.getD j none with
      | some aj => if is_pool_address (roots.foldl (fun s r => copy_contentsF ((mm_init st (!st.active_region)).ref_table.length + 1) s r) (mm_init st (!st.active_region))) (some aj) = true then 0
          else (child_refs (valAt (roots.foldl (fun s r => copy_contentsF ((mm_init st (!st.active_region)).ref_table.length + 1) s r) (mm_init st (!st.active_region))) aj)).count h2
      | none => 0) ≤
      (if unr j = true then
        match st.ref_table.getD j none with
        | some aj => (child_refs (valAt st aj)).count h2
        | none => 0
      else 0)
    cases hgj : (roots.foldl (fun s r => copy_contentsF ((mm_init st (!st.active_region)).ref_table.length + 1) s r) (mm_init st (!st.active_region))).ref_table.getD j none with
    | none => exact Nat.zero_le _
    | some aj =>
      show (if is_pool_address (roots.foldl (fun s r => copy_contentsF ((mm_init st (!st.active_region)).ref_table.length + 1) s r) (mm_init st (!st.active_region))) (some aj) = true then 0
        else (child_refs (valAt (roots.foldl (fun s r => copy_contentsF ((mm_init st (!st.active_region)).ref_table.length + 1) s r) (mm_init st (!st.active_region))) aj)).count h2) ≤ _
      by_cases hpj : is_pool_address (roots.foldl (fun s r => copy_contentsF ((mm_init st (!st.active_region)).ref_table.length + 1) s r) (mm_init st (!st.active_region))) (some aj) = true
      · rw [if_pos hpj]
        exact Nat.zero_le _
      · rw [if_neg hpj]
        have hsj2 : slotOf (roots.foldl (fun s r => copy_contentsF ((mm_init st (!st.active_region)).ref_table.length + 1) s r) (mm_init st (!st.active_region))) (Int.ofNat j) = some aj := by
          rw [slotOf_ofNat, hgj]
        rcases hInv2.2.2.2.2.2 (Int.ofNat j) with hunch | hrel2
        · have hsjst : slotOf st (Int.ofNat j) = some aj := by
            rw [← hslotT1st (Int.ofNat j), ← hunch]
            exact hsj2
          have hgst : st.ref_table.getD j none = some aj := by
            rw [← slotOf_ofNat]
            exact hsjst
          have hunrj : unr j = true := by
            by_contra hcon
            have hunf : unr j = false := by
              revert hcon
              cases unr j <;> simp
            have hused : st.ref_table.getD j none ≠ none := by
              intro hnone
              rw [hnone] at hgst
              exact Option.noConfusion hgst
            have hRj := hcov j hj hunf hused
            obtain ⟨a2x, blkx, hsx, hbx, _, hregx, _⟩ :=
              hRel (Int.ofNat j) aj hRj hsjst
            have haje : a2x = aj := Option.some.inj (hsx.symm.trans hsj2)
            refine hpj ?_
            rw [is_pool_some, ← haje, hbx]
            simp only [Option.map_some', Option.getD_some]
            rw [hregx]
            simp
          rw [if_pos hunrj, hgst]
          show (child_refs (valAt (roots.foldl (fun s r => copy_contentsF ((mm_init st (!st.active_region)).ref_table.length + 1) s r) (mm_init st (!st.active_region))) aj)).count h2 ≤
            (child_refs (valAt st aj)).count h2
          obtain ⟨blkj, hbj, hk2, _⟩ := hkept2 (Int.ofNat j) aj hsjst
          rw [valAt_of_blockAt hk2, valAt_of_blockAt hbj]
        · exfalso
          obtain ⟨a'x, b'x, blk'x, _, hsb'x, hblk'x, _, hreg'x, _, _⟩ := hrel2
          have hbe : b'x = aj := Option.some.inj (hsb'x.symm.trans hsj2)
          refine hpj ?_
          rw [is_pool_some, ← hbe, hblk'x]
          simp only [Option.map_some', Option.getD_some]
          rw [hreg'x]
          simp
  have hSIT2 : SweepInv (roots.foldl (fun s r => copy_contentsF ((mm_init st (!st.active_region)).ref_table.length + 1) s r) (mm_init st (!st.active_region))) := by
    refine ⟨hInv2.1, ?_⟩
    intro h b hsb hpb
    obtain ⟨a, blk, hsst, hblk, hal, hval, hRh⟩ := hpsr h b hsb hpb
    refine ⟨blk, hblk, hal, ?_, ?_⟩
    · have h0 : 0 ≤ h := slotOf_nonneg hsst
      have hlt : h.toNat < st.ref_table.length := slotOf_lt_length hsst
      have hofn : Int.ofNat h.toNat = h := by
        exact Int.toNat_of_nonneg h0
      have hunf : unr h.toNat = false := by
        refine hsound h.toNat hlt ?_
        rw [hofn]
        exact hRh
      have hgst : st.ref_table.getD h.toNat none = some a := by
        rw [← slotOf_ofNat, hofn]
        exact hsst
      have hb2 := hbudget h.toNat hlt hunf a hgst
      rw [hofn] at hb2
      have hsrc := hSRC h
      rw [hval]
      omega
    · rw [hval]
      obtain ⟨blkj, hbj, _, _, _, hw⟩ := slots_live_spec hliveB hsst
      rw [valAt_of_blockAt hbj]
      exact hw
  have hPresT2 : sweepPres (roots.foldl (fun s r => copy_contentsF ((mm_init st (!st.active_region)).ref_table.length + 1) s r) (mm_init st (!st.active_region))) (roots.foldl (fun s r => copy_contentsF ((mm_init st (!st.active_region)).ref_table.length + 1) s r) (mm_init st (!st.active_region))) := by
    intro h b hsb hpb
    obtain ⟨a, blk, hsst, hblk, hal, hval, _⟩ := hpsr h b hsb hpb
    refine ⟨hsb, hpb, blk, hblk, hal, ?_⟩
    rw [valAt_of_blockAt hblk]
    exact ⟨rfl, rfl, rfl, rfl, rfl, rfl⟩
  have hfold := foldl_inv (fun s2 => SweepInv s2 ∧ sweepPres (roots.foldl (fun s r => copy_contentsF ((mm_init st (!st.active_region)).ref_table.length + 1) s r) (mm_init st (!st.active_region))) s2)
    (fun s2 i => sweepSlot ((mm_init st (!st.active_region)).ref_table.length + 1) s2 i)
    (fun s2 i hP => sweep_step (mm_init st (!st.active_region)).ref_table.length (roots.foldl (fun s r => copy_contentsF ((mm_init st (!st.active_region)).ref_table.length + 1) s r) (mm_init st (!st.active_region))) s2 i hP.1 hP.2)
    (List.range (roots.foldl (fun s r => copy_contentsF ((mm_init st (!st.active_region)).ref_table.length + 1) s r) (mm_init st (!st.active_region))).ref_table.length) (roots.foldl (fun s r => copy_contentsF ((mm_init st (!st.active_region)).ref_table.length + 1) s r) (mm_init st (!st.active_region))) ⟨hSIT2, hPresT2⟩
  have hsw : sweepStable (roots.foldl (fun s r => copy_contentsF ((mm_init st (!st.active_region)).ref_table.length + 1) s r) (mm_init st (!st.active_region))) ((List.range (roots.foldl (fun s r => copy_contentsF ((mm_init st (!st.active_region)).ref_table.length + 1) s r) (mm_init st (!st.active_region))).ref_table.length).foldl (fun s i => sweepSlot ((mm_init st (!st.active_region)).ref_table.length + 1) s i) (roots.foldl (fun s r => copy_contentsF ((mm_init st (!st.active_region)).ref_table.length + 1) s r) (mm_init st (!st.active_region)))) :=
    foldl_rel sweepStable sweepStable_refl sweepStable_trans
      (fun s i => sweepSlot ((mm_init st (!st.active_region)).ref_table.length + 1) s i)
      (fun s i => sweepSlot_sweepStable ((mm_init st (!st.active_region)).ref_table.length + 1) s i)
      (List.range (roots.foldl (fun s r => copy_contentsF ((mm_init st (!st.active_region)).ref_table.length + 1) s r) (mm_init st (!st.active_region))).ref_table.length) (roots.foldl (fun s r => copy_contentsF ((mm_init st (!st.active_region)).ref_table.length + 1) s r) (mm_init st (!st.active_region)))
  have hcg : collect_garbage roots st = ((List.range (roots.foldl (fun s r => copy_contentsF ((mm_init st (!st.active_region)).ref_table.length + 1) s r) (mm_init st (!st.active_region))).ref_table.length).foldl (fun s i => sweepSlot ((mm_init st (!st.active_region)).ref_table.length + 1) s i) (roots.foldl (fun s r => copy_contentsF ((mm_init st (!st.active_region)).ref_table.length + 1) s r) (mm_init st (!st.active_region)))) := by
    simp only [collect_garbage]
  intro h a hR hs
  obtain ⟨a2, blk, hs2, hb2, hal2, hreg2, hval2⟩ := hRel h a hR hs
  have hpool2 : is_pool_address (roots.foldl (fun s r => copy_contentsF ((mm_init st (!st.active_region)).ref_table.length + 1) s r) (mm_init st (!st.active_region))) (some a2) = true := by
    rw [is_pool_some, hb2]
    simp only [Option.map_some', Option.getD_some]
    rw [hreg2]
    simp
  obtain ⟨hslotSW, hpoolSW, blkS, hbS, halS, hpayS⟩ := hfold.2 h a2 hs2 hpool2
  have h0 : 0 ≤ h := slotOf_nonneg hs
  have hlt : h.toNat < st.ref_table.length := slotOf_lt_length hs
  have hlenSW : ((List.range (roots.foldl (fun s r => copy_contentsF ((mm_init st (!st.active_region)).ref_table.length + 1) s r) (mm_init st (!st.active_region))).ref_table.length).foldl (fun s i => sweepSlot ((mm_init st (!st.active_region)).ref_table.length + 1) s i) (roots.foldl (fun s r => copy_contentsF ((mm_init st (!st.active_region)).ref_table.length + 1) s r) (mm_init st (!st.active_region)))).ref_table.length = st.ref_table.length := by
    rw [hsw.1, hlen2]
  have hltInt : h < Int.ofNat (((List.range (roots.foldl (fun s r => copy_contentsF ((mm_init st (!st.active_region)).ref_table.length + 1) s r) (mm_init st (!st.active_region))).ref_table.length).foldl (fun s i => sweepSlot ((mm_init st (!st.active_region)).ref_table.length + 1) s i) (roots.foldl (fun s r => copy_contentsF ((mm_init st (!st.active_region)).ref_table.length + 1) s r) (mm_init st (!st.active_region)))).ref_table.length) := by
    rw [hlenSW]
    rw [← Int.toNat_of_nonneg h0]
    exact Int.ofNat_lt.mpr hlt
  have hderef : deref ((List.range (roots.foldl (fun s r => copy_contentsF ((mm_init st (!st.active_region)).ref_table.length + 1) s r) (mm_init st (!st.active_region))).ref_table.length).foldl (fun s i => sweepSlot ((mm_init st (!st.active_region)).ref_table.length + 1) s i) (roots.foldl (fun s r => copy_contentsF ((mm_init st (!st.active_region)).ref_table.length + 1) s r) (mm_init st (!st.active_region)))) h = some a2 := by
    unfold deref
    rw [if_pos ⟨h0, hltInt⟩, hslotSW]
    simp only [hpoolSW, if_true]
  refine ⟨a2, blkS, ?_, ?_, halS, ?_⟩
  · rw [hcg]
    exact hderef
  · rw [hcg]
    exact hbS
  · rw [show valAt (roots.foldl (fun s r => copy_contentsF ((mm_init st (!st.active_region)).ref_table.length + 1) s r) (mm_init st (!st.active_region))) a2 = valAt st a from
      (valAt_of_blockAt hb2).trans hval2] at hpayS
    exact hpayS

/-- C1 counterexample: reachability from the roots does not by itself protect
a handle from `collect()`.  In `cexC1` handle 0 (a scalar with stored count 1)
is the only root, but the garbage LIST at handle 1 still embeds handle 0: the
sweep's `traverse_decref` on that stale value drives the root's count to zero
and reclaims it, so `resolve(0)` fails after the collection even though 0 is
a root. -/
theorem collect_reachable_reclaimed_cex :
    (∃ r ∈ [(0 : reference_t)], Reaches cexC1 r 0) ∧
      (deref cexC1 0).isSome = true ∧
      (deref (collect_garbage [0] cexC1) 0).isSome = false :=
  ⟨⟨0, by decide, Reaches.refl 0⟩, by decide, by decide⟩

/-- C1 witness: in the four-value cycle state (three root scalars plus an
unreachable self-cycle), the hypotheses hold with `unr` marking slot 3, and
root handle 0 survives the collection with its payload intact. -/
theorem collect_reachable_preserved_witness :
    ∃ (a2 : Nat) (blk : block_t),
      deref (collect_garbage [0, 1, 2] demoCycle) 0 = some a2 ∧
      blockAt (collect_garbage [0, 1, 2] demoCycle) a2 = some blk ∧
      blk.allocated = true ∧ payload_eq blk.val (valAt demoCycle 0) := by
  refine collect_reachable_preserved [0, 1, 2] demoCycle (fun i => i == 3)
    (by decide) ?_ ?_ ?_ 0 0 ⟨0, by decide, Reaches.refl 0⟩ (by decide)
  · intro i hi hunr hused
    have hlen : demoCycle.ref_table.length = 4 := by decide
    rw [hlen] at hi
    have h4 : i = 0 ∨ i = 1 ∨ i = 2 ∨ i = 3 := by omega
    rcases h4 with h | h | h | h
    · subst h
      exact ⟨0, by decide, Reaches.refl 0⟩
    · subst h
      exact ⟨1, by decide, Reaches.refl 1⟩
    · subst h
      exact ⟨2, by decide, Reaches.refl 2⟩
    · subst h
      exact absurd hunr (by decide)
  · intro i hi hR
    have hlen : demoCycle.ref_table.length = 4 := by decide
    rw [hlen] at hi
    have h4 : i = 0 ∨ i = 1 ∨ i = 2 ∨ i = 3 := by omega
    rcases h4 with h | h | h | h
    · subst h
      decide
    · subst h
      decide
    · subst h
      decide
    · subst h
      exfalso
      obtain ⟨r, hrm, hre⟩ := hR
      have hr3 : r = 0 ∨ r = 1 ∨ r = 2 := by
        simpa using hrm
      cases hre with
      | refl =>
        exact absurd hrm (by decide)
      | step a hs hc hrest =>
        rcases hr3 with h | h | h
        · subst h
          have ha : a = 0 := by
            have hg : slotOf demoCycle 0 = some 0 := by decide
            rw [hg] at hs
            exact (Option.some.inj hs).symm
          subst ha
          have hnil : child_refs (valAt demoCycle 0) = [] := by decide
          rw [hnil] at hc
          exact absurd hc (List.not_mem_nil _)
        · subst h
          have ha : a = 1 := by
            have hg : slotOf demoCycle 1 = some 1 := by decide
            rw [hg] at hs
            exact (Option.some.inj hs).symm
          subst ha
          have hnil : child_refs (valAt demoCycle 1) = [] := by decide
          rw [hnil] at hc
          exact absurd hc (List.not_mem_nil _)
        · subst h
          have ha : a = 2 := by
            have hg : slotOf demoCycle 2 = some 2 := by decide
            rw [hg] at hs
            exact (Option.some.inj hs).symm
          subst ha
          have hnil : child_refs (valAt demoCycle 2) = [] := by decide
          rw [hnil] at hc
          exact absurd hc (List.not_mem_nil _)
  · intro i hi hunr a hgd
    have hlen : demoCycle.ref_table.length = 4 := by decide
    rw [hlen] at hi
    have h4 : i = 0 ∨ i = 1 ∨ i = 2 ∨ i = 3 := by omega
    rcases h4 with h | h | h | h
    · subst h
      have ha : a = 0 := by
        have hg : demoCycle.ref_table.getD 0 none = some 0 := by decide
        rw [hg] at hgd
        exact (Option.some.inj hgd).symm
      subst ha
      decide
    · subst h
      have ha : a = 1 := by
        have hg : demoCycle.ref_table.getD 1 none = some 1 := by decide
        rw [hg] at hgd
        exact (Option.some.inj hgd).symm
      subst ha
      decide
    · subst h
      have ha : a = 2 := by
        have hg : demoCycle.ref_table.getD 2 none = some 2 := by decide
        rw [hg] at hgd
        exact (Option.some.inj hgd).symm
      subst ha
      decide
    · subst h
      exact absurd hunr (by decide)

end RefsGC
